import Mathlib

/-!
The nv note application: WebDAV note synchronisation

A shallow embedding of the sync engine of the `nv` note application
(`src/core/src/storage.cpp`, `note_store.cpp`, `webdav_sync_manager.cpp`), of
its search index (`search_index.cpp`), and theorems about them.

Modelling conventions.

* `std::string` and `QString` are Lean strings (sequences of code points);
  the text handled is assumed to be valid UTF-8, for which byte-wise and
  code-point-wise search agree.
* `std::chrono::system_clock::time_point` is an integer count of clock ticks
  since the epoch, `ticksPerSecond` ticks to the second (nanoseconds on the
  Linux target).  The count is exact, and is the count of the program
  while it fits 64 bits (`fitsInt64`): the theorem about the decoding of an
  arbitrary payload assumes that the decoded counts do.
* A product of `int`s is reduced into the 32-bit range (`wrapInt32`), as the
  target computes it when it overflows.
* `std::unordered_map` is an association list with unique keys; iteration
  follows the list order, insertion of a fresh key appends.
* Everything outside the repository is a parameter, gathered in `Env`: the
  network (`send`), Qt's JSON printer and reader (`toJson`, `fromJson`) and
  `QUrl::path` (`urlPath`).
* The effects of a call are observed through a trace of `Event`s: the signals
  emitted, the writes to local storage and the HTTP requests sent.
* Time passes in milliseconds (`tick`, `elapse`).  A `QTimer` counts its
  remaining time down; the slot of a timer that runs out runs at that
  millisecond and takes no time of the model.
* The pointers `note_store_` and `storage_` are never null, as in `main.cpp`.
-/

namespace nv

/-! ## Note model (`note_model.h`) -/

/-- The type `NoteUUID` of note_model.h. -/
abbrev NoteUUID := String

/-- The type `NoteTimestamp`: a `system_clock::time_point` as ticks since the epoch. -/
abbrev NoteTimestamp := Int

/-- Ticks of `system_clock` in one second. -/
def ticksPerSecond : Int := 1000000000

/-- Ticks of `system_clock` in one millisecond. -/
def ticksPerMilli : Int := 1000000

/-- The duration `std::chrono::seconds(n)` in ticks. -/
def seconds (n : Int) : Int := n * ticksPerSecond

/-- The time point `std::chrono::system_clock::from_time_t(t)`: `t` seconds in
ticks.  The product is the count of the program while it fits 64 bits, that is for
`t` from -9223372036 to 9223372036. -/
def from_time_t (t : Int) : NoteTimestamp := t * ticksPerSecond

/-- Whether an exact value is one of a signed 64-bit integer. -/
def fitsInt64 (x : Int) : Prop := -9223372036854775808 ≤ x ∧ x ≤ 9223372036854775807

instance fitsInt64.decidable (x : Int) : Decidable (fitsInt64 x) := by
  unfold fitsInt64
  infer_instance

/-- The value of an `int` expression whose exact value is `x`: `x` reduced modulo
2^32 into the range of a 32-bit two's complement integer, which is what the target
computes when a signed product overflows. -/
def wrapInt32 (x : Int) : Int := (x + 2147483648) % 4294967296 - 2147483648

/-- The count of `time_point_cast<milliseconds>(t).time_since_epoch()`;
the cast truncates toward zero. -/
def toMillis (t : NoteTimestamp) : Int := Int.tdiv t ticksPerMilli

/-- The enum `NoteType`. -/
inductive NoteType
  | TEXT
  | CHECKLIST
  deriving DecidableEq, Repr

/-- The class `Note` (ten-argument constructor). -/
structure Note where
  uuid : NoteUUID
  title : String
  body : String
  created : NoteTimestamp
  modified : NoteTimestamp
  noteType : NoteType
  syncStatus : String
  createdAtMillis : Int
  updatedAtMillis : Int
  deviceId : String
  deriving DecidableEq, Repr

/-! ## String helpers (`std::string`, `QString`) -/

/-- Splits at the first occurrence of `needle`: the text before it and the text
after it.  This is `s.find(needle)` together with the two `substr` calls that
follow it in the source; `none` is `npos`. -/
def cut (needle : List Char) : List Char → Option (List Char × List Char)
  | [] => if needle = [] then some ([], []) else none
  | c :: cs =>
    if needle.isPrefixOf (c :: cs) then some ([], (c :: cs).drop needle.length)
    else (cut needle cs).map (fun p => (c :: p.1, p.2))

/-- The test `s.find(needle) != npos`. -/
def containsText (needle s : List Char) : Bool := (cut needle s).isSome

/-- The method `QString::endsWith` (case sensitive). -/
def endsWith (s suffix : String) : Bool := suffix.toList.isSuffixOf s.toList

/-- The method `QString::left(n)`: the whole string when `n` is negative or not
smaller than the size. -/
def qLeft (s : String) (n : Int) : String :=
  if n < 0 ∨ (s.length : Int) ≤ n then s else String.mk (s.toList.take n.toNat)

/-- The text after the last `/`, or the whole text when there is none:
`(lastSlash >= 0) ? path.mid(lastSlash + 1) : path`. -/
def afterLastSlash : List Char → List Char
  | [] => []
  | c :: cs =>
    if cs.contains '/' then afterLastSlash cs
    else if c = '/' then cs else c :: cs

/-! ## Storage results (`storage.h`) -/

/-- The enum `StorageError`. -/
inductive StorageError
  | None
  | ReadFailed
  | WriteFailed
  | CorruptFile
  | DiskFull
  deriving DecidableEq, Repr

/-- The variant `Result<T>` = `std::variant<T, StorageError>`. -/
inductive Result (α : Type)
  | success (value : α)
  | failure (error : StorageError)
  deriving DecidableEq, Repr

/-- The variant `VoidResult`. -/
abbrev VoidResult := Result Unit

/-- The function `isSuccess`. -/
def isSuccess {α : Type} : Result α → Bool
  | .success _ => true
  | .failure _ => false

/-! ## Qt JSON values as this program reads them -/

/-- A `QJsonValue`.  Arrays and objects nested inside a note object are never
inspected by the program and are one constructor.  A number carries the value
`static_cast<int64_t>(v.toDouble())`; millisecond counts of a 64-bit tick
clock are far below 2^53 and survive the passage through `double`. -/
inductive QJsonValue
  | null
  | bool (b : Bool)
  | number (n : Int)
  | string (s : String)
  | composite
  deriving DecidableEq, Repr

/-- A `QJsonObject`: keys with their values. -/
abbrev QJsonObject := List (String × QJsonValue)

/-- A `QJsonDocument`; `null` is the document `fromJson` returns for text that
is not valid JSON. -/
inductive QJsonDocument
  | null
  | array
  | object (o : QJsonObject)
  deriving DecidableEq, Repr

/-- The method `QJsonDocument::object()`: empty unless the document is an object. -/
def QJsonDocument.toObject : QJsonDocument → QJsonObject
  | .object o => o
  | _ => []

/-- The lookup `jsonObj[key]`; `none` is the undefined value. -/
def QJsonObject.value (o : QJsonObject) (key : String) : Option QJsonValue :=
  (o.find? (fun p => p.1 == key)).map (fun p => p.2)

/-- The conversion `QJsonValue::toString()`, empty unless the value is a string. -/
def jsonToString : Option QJsonValue → String
  | some (.string s) => s
  | _ => ""

/-- The conversion `static_cast<int64_t>(v.toDouble(0))`, zero unless the value is
a number. -/
def jsonToInt64 : Option QJsonValue → Int
  | some (.number n) => n
  | _ => 0

/-! ## The remote protocol client (`WebDAVStorage`, storage.cpp) -/

/-- An HTTP request as `sendRequest` and `writeNote` build it.  `credentials`
is the text `username:password` that goes, base64-encoded, into the
Authorization header. -/
structure Request where
  url : String
  method : String
  body : String
  credentials : String
  deriving DecidableEq, Repr

/-- What the program reads from a finished `QNetworkReply`. -/
structure Reply where
  /-- `reply->error() != QNetworkReply::NoError`, also after an abort on timeout -/
  error : Bool
  /-- the HTTP status attribute converted with `toInt()` (0 when absent) -/
  statusCode : Int
  /-- `reply->readAll()` -/
  data : String
  deriving DecidableEq, Repr

/-- The collaborators outside the repository, over a remote state `ρ`. -/
structure Env (ρ : Type) where
  /-- the network: one request, one finished reply -/
  send : ρ → Request → Reply × ρ
  /-- `QJsonDocument::fromJson` -/
  fromJson : String → QJsonDocument
  /-- `QJsonDocument(obj).toJson(QJsonDocument::Compact)` -/
  toJson : QJsonObject → String
  /-- `QUrl(href).path()` -/
  urlPath : String → String

/-- The fields of a `WebDAVStorage`. -/
structure WebDAVStorage where
  serverAddress_ : String
  username_ : String
  password_ : String
  deriving DecidableEq, Repr

/-- The address with a trailing slash, as `buildUrl`, `readAllNotes` and
`testConnection` compute it. -/
def WebDAVStorage.baseUrl (self : WebDAVStorage) : String :=
  if endsWith self.serverAddress_ "/" then self.serverAddress_
  else self.serverAddress_ ++ "/"

/-- The method `WebDAVStorage::buildUrl`. -/
def WebDAVStorage.buildUrl (self : WebDAVStorage) (fileName : String) : String :=
  self.baseUrl ++ fileName

/-- The Authorization text of a client. -/
def WebDAVStorage.authString (self : WebDAVStorage) : String :=
  self.username_ ++ ":" ++ self.password_

/-- The method `WebDAVStorage::sendRequest`: the payload returned, the new remote
state and the requests put on the wire.  A method other than the four known
ones yields no reply object and the empty payload. -/
def WebDAVStorage.sendRequest {ρ : Type} (env : Env ρ) (self : WebDAVStorage) (s : ρ)
    (url method body : String) : String × ρ × List Request :=
  if method = "GET" ∨ method = "PUT" ∨ method = "PROPFIND" ∨ method = "DELETE" then
    let req : Request := ⟨url, method, body, self.authString⟩
    let r := env.send s req
    if r.1.error then ("", r.2, [req])
    else if 200 ≤ r.1.statusCode ∧ r.1.statusCode < 300 then (r.1.data, r.2, [req])
    else ("", r.2, [req])
  else ("", s, [])

/-- The JSON object `noteToJson` fills, key by key. -/
def noteJsonObject (note : Note) : QJsonObject :=
  [ ("content", .string note.body),
    ("createdAt", .number (toMillis note.created)),
    ("deviceId", .string note.deviceId),
    ("id", .string note.uuid),
    ("noteType", .string (if note.noteType = NoteType.TEXT then "TEXT" else "CHECKLIST")),
    ("syncStatus", .string (if note.syncStatus = "" then "PENDING" else note.syncStatus)),
    ("title", .string note.title),
    ("updatedAt", .number (toMillis note.modified)) ]

/-- The method `WebDAVStorage::noteToJson`. -/
def WebDAVStorage.noteToJson {ρ : Type} (env : Env ρ) (note : Note) : String :=
  env.toJson (noteJsonObject note)

/-- The method `WebDAVStorage::parseJsonNote`. -/
def WebDAVStorage.parseJsonNote {ρ : Type} (env : Env ρ) (jsonStr fileName : String) : Note :=
  let jsonObj := (env.fromJson jsonStr).toObject
  let uuid := qLeft fileName ((fileName.length : Int) - 5)
  let title := jsonToString (jsonObj.value "title")
  let content := jsonToString (jsonObj.value "content")
  let createdAtMillis := jsonToInt64 (jsonObj.value "createdAt")
  let updatedAtMillis := jsonToInt64 (jsonObj.value "updatedAt")
  let createdAt := from_time_t (Int.tdiv createdAtMillis 1000)
  let modifiedAt := from_time_t (Int.tdiv updatedAtMillis 1000)
  let deviceId := jsonToString (jsonObj.value "deviceId")
  let syncStatus := jsonToString (jsonObj.value "syncStatus")
  let noteTypeStr := jsonToString (jsonObj.value "noteType")
  let noteType := if noteTypeStr = "CHECKLIST" then NoteType.CHECKLIST else NoteType.TEXT
  { uuid := uuid, title := title, body := content, created := createdAt,
    modified := modifiedAt, noteType := noteType, syncStatus := syncStatus,
    createdAtMillis := createdAtMillis, updatedAtMillis := updatedAtMillis,
    deviceId := deviceId }

/-- The body of the PROPFIND request of `readAllNotes`. -/
def propfindBody : String :=
  "<?xml version=\"1.0\" encoding=\"utf-8\"?>\n<propfind xmlns=\"DAV:\"><prop><getlastmodified/><getcontentlength/></prop></propfind>"

/-- The file name a response block names, when the block passes every test of the
loop body of `readAllNotes`: it has an href and a status element, the status
contains `200 OK`, and the file name of the href path ends in `.json`.  `none`
is a `continue` before the GET. -/
def blockFileName {ρ : Type} (env : Env ρ) (responseBlock : List Char) : Option String :=
  match cut "<D:href>".toList responseBlock with
  | none => none
  | some (_, afterHrefOpen) =>
    match cut "</D:href>".toList afterHrefOpen with
    | none => none
    | some (href, _) =>
      match cut "<D:status>".toList responseBlock with
      | none => none
      | some (_, afterStatusOpen) =>
        match cut "</D:status>".toList afterStatusOpen with
        | none => none
        | some (status, _) =>
          if containsText "200 OK".toList status then
            let path := env.urlPath (String.mk href)
            let fileName := String.mk (afterLastSlash path.toList)
            if endsWith fileName ".json" then some fileName else none
          else none

/-- The `while (true)` loop of `readAllNotes` over the text of the listing from
`pos` on.  Every round consumes at least one character of the text, so a fuel
of the length of the text is never exhausted. -/
def readAllNotesLoop {ρ : Type} (env : Env ρ) (self : WebDAVStorage) :
    Nat → List Char → ρ → List Note × ρ × List Request
  | 0, _, s => ([], s, [])
  | fuel + 1, rest, s =>
    match cut "<D:response>".toList rest with
    | none => ([], s, [])
    | some (_, afterOpen) =>
      match cut "</D:response>".toList afterOpen with
      | none => ([], s, [])
      | some (responseBlock, next) =>
        match blockFileName env responseBlock with
        | none => readAllNotesLoop env self fuel next s
        | some fileName =>
          let uuid := qLeft fileName ((fileName.length : Int) - 5)
          let fileUrl := self.baseUrl ++ uuid ++ ".json"
          let got := self.sendRequest env s fileUrl "GET" ""
          let more := readAllNotesLoop env self fuel next got.2.1
          if got.1 ≠ "" then
            (WebDAVStorage.parseJsonNote env got.1 fileName :: more.1, more.2.1,
              got.2.2 ++ more.2.2)
          else (more.1, more.2.1, got.2.2 ++ more.2.2)

/-- The method `WebDAVStorage::readAllNotes`: the result, the new remote state
and the requests sent. -/
def WebDAVStorage.readAllNotes {ρ : Type} (env : Env ρ) (self : WebDAVStorage) (s : ρ) :
    Result (List Note) × ρ × List Request :=
  let listed := self.sendRequest env s self.baseUrl "PROPFIND" propfindBody
  if listed.1 = "" then (.failure .ReadFailed, listed.2.1, listed.2.2)
  else
    let looped := readAllNotesLoop env self listed.1.length listed.1.toList listed.2.1
    (.success looped.1, looped.2.1, listed.2.2 ++ looped.2.2)

/-- The request `WebDAVStorage::writeNote` builds: a PUT of the encoded note to
`base/<uuid>.json`. -/
def WebDAVStorage.putRequest {ρ : Type} (env : Env ρ) (self : WebDAVStorage) (note : Note) :
    Request :=
  let fileName := note.uuid ++ ".json"
  let url := self.buildUrl fileName
  let json := WebDAVStorage.noteToJson env note
  ⟨url, "PUT", json, self.authString⟩

/-- The method `WebDAVStorage::writeNote`: sends the PUT and reports success on
status 201 or 204. -/
def WebDAVStorage.writeNote {ρ : Type} (env : Env ρ) (self : WebDAVStorage) (note : Note)
    (s : ρ) : VoidResult × ρ × List Request :=
  let req := self.putRequest env note
  let r := env.send s req
  if r.1.statusCode = 201 ∨ r.1.statusCode = 204 then (.success (), r.2, [req])
  else (.failure .WriteFailed, r.2, [req])

/-! ## The note collection (`NoteStore`, note_store.cpp) -/

/-- The member `notes_`, a map from uuid to note: the notes in iteration order,
each stored under its own uuid.  Observers are notified after each change; the
one observer of the application refreshes the search index and the list view
and does not touch the collection, so it is not modelled. -/
abbrev NoteStore := List Note

/-- The method `NoteStore::addNote`: `notes_[note->uuid()] = note`. -/
def NoteStore.addNote (s : NoteStore) (note : Note) : NoteStore :=
  if s.any (fun n => n.uuid == note.uuid) then
    s.map (fun n => if n.uuid == note.uuid then note else n)
  else s ++ [note]

/-- The method `NoteStore::updateNote`: replaces the note stored under the uuid,
and does nothing when there is none. -/
def NoteStore.updateNote (s : NoteStore) (note : Note) : NoteStore :=
  if s.any (fun n => n.uuid == note.uuid) then
    s.map (fun n => if n.uuid == note.uuid then note else n)
  else s

/-- The method `NoteStore::getNote`; `none` is the null pointer. -/
def NoteStore.getNote (s : NoteStore) (uuid : NoteUUID) : Option Note :=
  s.find? (fun n => n.uuid == uuid)

/-- The method `NoteStore::getAllNotes`. -/
def NoteStore.getAllNotes (s : NoteStore) : List Note := s

/-- A `std::unordered_map<std::string, NoteTimestamp>`. -/
abbrev TimestampMap := List (String × NoteTimestamp)

/-- The assignment `m[key] = t`. -/
def TimestampMap.assign (m : TimestampMap) (key : String) (t : NoteTimestamp) : TimestampMap :=
  if m.any (fun p => p.1 == key) then
    m.map (fun p => if p.1 == key then (key, t) else p)
  else m ++ [(key, t)]

/-- The lookup `m.find(key)`; `none` is `end()`. -/
def TimestampMap.find (m : TimestampMap) (key : String) : Option NoteTimestamp :=
  (List.find? (fun p => p.1 == key) m).map (fun p => p.2)

/-- The map built by `for (note : notes) result[note->uuid()] = note->modified()`. -/
def timestampsOf (notes : List Note) : TimestampMap :=
  notes.foldl (fun m n => TimestampMap.assign m n.uuid n.modified) []

/-! ## The sync orchestrator (`WebDAVSyncManager`, webdav_sync_manager.cpp) -/

/-- What a call does to the outside, in program order. -/
inductive Event
  /-- signal `syncStarted()` -/
  | syncStarted
  /-- signal `syncFinished(success)` -/
  | syncFinished (success : Bool)
  /-- signal `syncError(error)` -/
  | syncError (error : String)
  /-- signal `noteUploaded(note)`, the note as looked up in the collection -/
  | noteUploaded (note : Option Note)
  /-- signal `noteDownloaded(note)` -/
  | noteDownloaded (note : Note)
  /-- signal `remoteNoteChecked(localNote, remoteNote, isRemoteNewer)` -/
  | remoteNoteChecked (localNote remoteNote : Note) (isRemoteNewer : Bool)
  /-- call `storage_->writeNote(note)` on local storage -/
  | storageWrite (note : Note)
  /-- call `storage_->deleteNote(uuid)` on local storage; no method of the
  orchestrator makes this call, the constructor serves to say so -/
  | storageDelete (uuid : NoteUUID)
  /-- an HTTP request sent by the remote client -/
  | request (req : Request)
  deriving DecidableEq, Repr

/-- A `QTimer`: whether it runs, its interval in milliseconds, and the time left
until it fires. -/
structure QTimer where
  active : Bool
  interval : Int
  singleShot : Bool
  remaining : Int
  deriving DecidableEq, Repr

/-- The method `QTimer::start(msec)`. -/
def QTimer.start (t : QTimer) (msec : Int) : QTimer :=
  { t with active := true, interval := msec, remaining := msec }

/-- The method `QTimer::stop()`. -/
def QTimer.stop (t : QTimer) : QTimer := { t with active := false }

/-- The WebDAV settings of the `ApplicationState` singleton. -/
structure ApplicationState where
  webdav_enabled_ : Bool
  webdav_server_address_ : String
  webdav_username_ : String
  webdav_password_ : String
  webdav_sync_interval_minutes_ : Int
  deriving DecidableEq, Repr

/-- The members of a `WebDAVSyncManager` together with the objects it works on:
the configuration singleton, the note collection behind `note_store_`, the
remote side, the clock, and the trace of effects so far.  `note_store_` and
`storage_` are the live objects the application constructs the manager with. -/
structure SyncWorld (ρ : Type) where
  enabled_ : Bool
  server_address_ : String
  username_ : String
  password_ : String
  sync_interval_minutes_ : Int
  webdav_storage_ : Option WebDAVStorage
  sync_timer_ : QTimer
  search_debounce_timer_ : QTimer
  last_error_ : String
  last_sync_time_ : String
  pending_search_sync_ : Bool
  /-- number of `WebDAVStorage` objects constructed so far -/
  storagesCreated : Nat
  appState : ApplicationState
  note_store_ : NoteStore
  remote : ρ
  /-- the text of `QDateTime::currentDateTime()` -/
  currentDateTime : String
  trace : List Event

/-- The method `createWebDAVStorage`. -/
def createWebDAVStorage {ρ : Type} (w : SyncWorld ρ) : WebDAVStorage :=
  ⟨w.server_address_, w.username_, w.password_⟩

/-- The method `syncStop`. -/
def syncStop {ρ : Type} (w : SyncWorld ρ) : SyncWorld ρ :=
  { w with sync_timer_ := w.sync_timer_.stop, webdav_storage_ := none }

/-- The method `refreshConfigurationFromAppState`. -/
def refreshConfigurationFromAppState {ρ : Type} (w : SyncWorld ρ) : SyncWorld ρ :=
  let shouldEnable := w.appState.webdav_enabled_
  let serverAddress :=
    if w.appState.webdav_server_address_ ≠ "" ∧
        endsWith w.appState.webdav_server_address_ "/" = false then
      w.appState.webdav_server_address_ ++ "/"
    else w.appState.webdav_server_address_
  let username := w.appState.webdav_username_
  let password := w.appState.webdav_password_
  let syncIntervalMinutes := max 1 w.appState.webdav_sync_interval_minutes_
  let connectionConfigChanged : Bool :=
    decide (w.server_address_ ≠ serverAddress) || decide (w.username_ ≠ username) ||
      decide (w.password_ ≠ password)
  let w1 : SyncWorld ρ :=
    { w with enabled_ := shouldEnable, server_address_ := serverAddress,
             username_ := username, password_ := password,
             sync_interval_minutes_ := syncIntervalMinutes }
  if w1.enabled_ = false then
    if w1.sync_timer_.active = true ∨ w1.webdav_storage_.isSome = true then syncStop w1
    else w1
  else
    let w2 : SyncWorld ρ :=
      if connectionConfigChanged = true ∨ w1.webdav_storage_.isSome = false then
        { w1 with webdav_storage_ := some (createWebDAVStorage w1),
                  storagesCreated := w1.storagesCreated + 1 }
      else w1
    let intervalMs := wrapInt32 (w2.sync_interval_minutes_ * 60000)
    if w2.sync_timer_.active = false ∨ w2.sync_timer_.interval ≠ intervalMs then
      { w2 with sync_timer_ := w2.sync_timer_.start intervalMs }
    else w2

/-- Records the requests of one call on the remote client and the remote state
it leaves. -/
def SyncWorld.afterRemoteCall {ρ : Type} (w : SyncWorld ρ) (s : ρ) (reqs : List Request) :
    SyncWorld ρ :=
  { w with remote := s, trace := w.trace ++ reqs.map Event.request }

/-- Appends events to the trace. -/
def SyncWorld.emit {ρ : Type} (w : SyncWorld ρ) (evs : List Event) : SyncWorld ρ :=
  { w with trace := w.trace ++ evs }

/-- The method `getRemoteNoteTimestamps`. -/
def getRemoteNoteTimestamps {ρ : Type} (env : Env ρ) (w : SyncWorld ρ) :
    TimestampMap × SyncWorld ρ :=
  match w.webdav_storage_ with
  | none => ([], w)
  | some client =>
    let notesResult := client.readAllNotes env w.remote
    let w1 := w.afterRemoteCall notesResult.2.1 notesResult.2.2
    match notesResult.1 with
    | .success notes => (timestampsOf notes, w1)
    | .failure _ => ([], w1)

/-- One round of the loop of `downloadMissingOrUpdatedNotes` over the remote
timestamps. -/
def downloadStep {ρ : Type} (localTimestamps : TimestampMap) (remoteNoteList : List Note)
    (w : SyncWorld ρ) (entry : String × NoteTimestamp) : SyncWorld ρ :=
  let uuid := entry.1
  let remoteTime := entry.2
  match localTimestamps.find uuid with
  | none =>
    match remoteNoteList.find? (fun note => note.uuid == uuid) with
    | some note =>
      ({ w with note_store_ := w.note_store_.addNote note }).emit
        [.storageWrite note, .noteDownloaded note]
    | none => w
  | some localTime =>
    if remoteTime > localTime + seconds 3 then
      match remoteNoteList.find? (fun note => note.uuid == uuid) with
      | some note =>
        ({ w with note_store_ := w.note_store_.updateNote note }).emit
          [.storageWrite note, .noteDownloaded note]
      | none => w
    else w

/-- The method `downloadMissingOrUpdatedNotes`. -/
def downloadMissingOrUpdatedNotes {ρ : Type} (env : Env ρ) (w : SyncWorld ρ)
    (remoteNotes : TimestampMap) : SyncWorld ρ :=
  match w.webdav_storage_ with
  | none => w
  | some client =>
    let localNotes := w.note_store_.getAllNotes
    let localTimestamps := timestampsOf localNotes
    let allRemoteNotes := client.readAllNotes env w.remote
    let w1 := w.afterRemoteCall allRemoteNotes.2.1 allRemoteNotes.2.2
    let remoteNoteList : List Note :=
      match allRemoteNotes.1 with
      | .success notes => notes
      | .failure _ => []
    remoteNotes.foldl (downloadStep localTimestamps remoteNoteList) w1

/-- The method `uploadNote`. -/
def uploadNote {ρ : Type} (env : Env ρ) (w : SyncWorld ρ) (note : Note) : SyncWorld ρ :=
  match w.webdav_storage_ with
  | none => w
  | some client =>
    let result := client.writeNote env note w.remote
    let w1 := w.afterRemoteCall result.2.1 result.2.2
    if isSuccess result.1 = true then
      w1.emit [.noteUploaded (w1.note_store_.getNote note.uuid)]
    else w1

/-- One round of the loop of `uploadChangedNotes` over the local notes. -/
def uploadStep {ρ : Type} (env : Env ρ) (remoteNotes : TimestampMap) (w : SyncWorld ρ)
    (localNote : Note) : SyncWorld ρ :=
  match remoteNotes.find localNote.uuid with
  | none => uploadNote env w localNote
  | some remoteTime =>
    let localTime := localNote.modified
    let tolerance := seconds 0
    if localTime > remoteTime + tolerance then uploadNote env w localNote
    else if localTime < remoteTime - tolerance then w
    else w

/-- The condition under which a round of the upload loop calls `uploadNote`: no
remote timestamp for the uuid, or a local time above the remote one. -/
def needsUpload (remoteNotes : TimestampMap) (localNote : Note) : Bool :=
  match remoteNotes.find localNote.uuid with
  | none => true
  | some remoteTime => decide (localNote.modified > remoteTime + seconds 0)

/-- The condition under which a round of the download loop looks the remote note
up to pull it: no local timestamp for the uuid, or a remote time more than three
seconds above the local one. -/
def pulls (localTimestamps : TimestampMap) (entry : String × NoteTimestamp) : Bool :=
  match localTimestamps.find entry.1 with
  | none => true
  | some localTime => decide (entry.2 > localTime + seconds 3)

/-- The method `uploadChangedNotes`. -/
def uploadChangedNotes {ρ : Type} (env : Env ρ) (w : SyncWorld ρ) : SyncWorld ρ :=
  let fetched := getRemoteNoteTimestamps env w
  let remoteNotes := fetched.1
  let localNotes := fetched.2.note_store_.getAllNotes
  localNotes.foldl (uploadStep env remoteNotes) fetched.2

/-- The method `performSync`: one sync pass. -/
def performSync {ρ : Type} (env : Env ρ) (w : SyncWorld ρ) : SyncWorld ρ :=
  let w1 := refreshConfigurationFromAppState w
  if w1.enabled_ = false then w1
  else
    match w1.webdav_storage_ with
    | none =>
      ({ w1 with last_error_ := "WebDAV storage not initialized" }).emit
        [.syncError "WebDAV storage not initialized", .syncFinished false]
    | some _ =>
      let w2 := w1.emit [.syncStarted]
      let fetched := getRemoteNoteTimestamps env w2
      let w4 := downloadMissingOrUpdatedNotes env fetched.2 fetched.1
      let w5 := uploadChangedNotes env w4
      ({ w5 with last_sync_time_ := w5.currentDateTime }).emit [.syncFinished true]

/-- The method `syncStart`. -/
def syncStart {ρ : Type} (w : SyncWorld ρ) : SyncWorld ρ :=
  let w1 := refreshConfigurationFromAppState w
  if w1.enabled_ = false ∨ w1.sync_timer_.active = true then w1
  else
    { w1 with webdav_storage_ := some (createWebDAVStorage w1),
              storagesCreated := w1.storagesCreated + 1,
              sync_timer_ :=
                w1.sync_timer_.start (wrapInt32 (w1.sync_interval_minutes_ * 60000)) }

/-- The method `setEnabled`. -/
def setEnabled {ρ : Type} (w : SyncWorld ρ) (enabled : Bool) : SyncWorld ρ :=
  let w1 := { w with enabled_ := enabled }
  if w1.enabled_ = true then syncStart w1 else syncStop w1

/-- The method `syncNow`. -/
def syncNow {ρ : Type} (env : Env ρ) (w : SyncWorld ρ) : SyncWorld ρ :=
  let w1 := refreshConfigurationFromAppState w
  if w1.enabled_ = false then w1 else performSync env w1

/-- The slot `onSyncTimerTimeout`. -/
def onSyncTimerTimeout {ρ : Type} (env : Env ρ) (w : SyncWorld ρ) : SyncWorld ρ :=
  performSync env w

/-- The world of `performSync` between its download and its upload phase, when
sync is enabled: after the refresh, `syncStarted`, the first listing and
`downloadMissingOrUpdatedNotes`. -/
def downloadPhase {ρ : Type} (env : Env ρ) (w : SyncWorld ρ) : SyncWorld ρ :=
  let w2 := (refreshConfigurationFromAppState w).emit [.syncStarted]
  let fetched := getRemoteNoteTimestamps env w2
  downloadMissingOrUpdatedNotes env fetched.2 fetched.1

/-! ## A small concrete world

A server that keeps files by name under `http://dav/notes/`, answers a listing
with one response block per file, a GET with the stored text and a PUT by
storing the body; and a JSON printer with a reader that knows the documents of
the notes below.  It instantiates the theorems and carries the concrete runs. -/

/-- The base address of the example server. -/
def exBase : String := "http://dav/notes/"

/-- The listing the example server sends for its files. -/
def exListing (files : List (String × String)) : String :=
  "<D:multistatus>" ++
    String.join (files.map (fun f =>
      "<D:response><D:href>/notes/" ++ f.1 ++
        "</D:href><D:propstat><D:status>HTTP/1.1 200 OK</D:status></D:propstat></D:response>")) ++
    "</D:multistatus>"

/-- Stores `body` under `name`, replacing an older text. -/
def exStore (files : List (String × String)) (name body : String) : List (String × String) :=
  if files.any (fun f => f.1 == name) then
    files.map (fun f => if f.1 == name then (name, body) else f)
  else files ++ [(name, body)]

/-- The example server. -/
def exSend (files : List (String × String)) (req : Request) :
    Reply × List (String × String) :=
  if req.method = "PROPFIND" then (⟨false, 207, exListing files⟩, files)
  else if req.method = "GET" then
    match files.find? (fun f => exBase ++ f.1 == req.url) with
    | some f => (⟨false, 200, f.2⟩, files)
    | none => (⟨true, 404, ""⟩, files)
  else if req.method = "PUT" then
    (⟨false, 201, ""⟩, exStore files (String.mk (req.url.toList.drop exBase.length)) req.body)
  else (⟨true, 0, ""⟩, files)

/-- Compact JSON text of a value (no character of the examples needs escaping). -/
def exPrintValue : QJsonValue → String
  | .null => "null"
  | .bool b => if b then "true" else "false"
  | .number n => toString n
  | .string s => "\"" ++ s ++ "\""
  | .composite => "[]"

/-- Compact JSON text of an object. -/
def exToJson (o : QJsonObject) : String :=
  "\x7b" ++ ",".intercalate (o.map (fun p => "\"" ++ p.1 ++ "\":" ++ exPrintValue p.2)) ++ "\x7d"

/-- A reader for the texts of the given objects; any other text is not JSON to it. -/
def exFromJson (known : List QJsonObject) (text : String) : QJsonDocument :=
  match known.find? (fun o => exToJson o == text) with
  | some o => .object o
  | none => .null

/-- The example environment, reading the documents of the notes `known`. -/
def exEnv (known : List Note) : Env (List (String × String)) where
  send := exSend
  fromJson := exFromJson (known.map noteJsonObject)
  toJson := exToJson
  urlPath := fun href => href

/-- A note of the examples: uuid, title, body and modification time in
milliseconds; a text note of device `dev`. -/
def exNote (uuid title body : String) (modifiedMs : Int) : Note :=
  { uuid := uuid, title := title, body := body, created := 0,
    modified := modifiedMs * ticksPerMilli, noteType := .TEXT, syncStatus := "PENDING",
    createdAtMillis := 0, updatedAtMillis := modifiedMs, deviceId := "dev" }

/-- A timer that does not run. -/
def exTimer : QTimer := ⟨false, 0, false, 0⟩

/-- A freshly constructed manager (sync not yet started) in a world where sync is
configured for the example server, with the given collection and server files. -/
def exWorld (store : NoteStore) (files : List (String × String)) :
    SyncWorld (List (String × String)) :=
  { enabled_ := false, server_address_ := "", username_ := "", password_ := "",
    sync_interval_minutes_ := 5, webdav_storage_ := none, sync_timer_ := exTimer,
    search_debounce_timer_ := { exTimer with singleShot := true },
    last_error_ := "", last_sync_time_ := "", pending_search_sync_ := false,
    storagesCreated := 0,
    appState := ⟨true, "http://dav/notes", "user", "secret", 5⟩,
    note_store_ := store, remote := files, currentDateTime := "2024-01-01 00:00:00",
    trace := [] }

/-- The client the example world builds. -/
def exClient : WebDAVStorage := ⟨"http://dav/notes/", "user", "secret"⟩

/-- The files of a server that holds the given notes. -/
def exFiles (notes : List Note) : List (String × String) :=
  notes.map (fun n => (n.uuid ++ ".json", exToJson (noteJsonObject n)))

/-- A remote note `a`, modified at second 5. -/
def exRemoteA : Note := exNote "a" "remote title" "remote body" 5000

/-- A local note `a`, modified at second 1. -/
def exLocalOldA : Note := exNote "a" "local title" "local body" 1000

/-- The notes of a listing result, none when the listing failed. -/
def listedNotes : Result (List Note) → List Note
  | .success notes => notes
  | .failure _ => []

/-- The first listing of a pass run with `client`: the call of `readAllNotes` in
`getRemoteNoteTimestamps` at the start of `performSync`. -/
def passListing1 {ρ : Type} (env : Env ρ) (client : WebDAVStorage) (w : SyncWorld ρ) :
    Result (List Note) × ρ × List Request :=
  client.readAllNotes env w.remote

/-- The second listing of a pass: the call of `readAllNotes` in
`downloadMissingOrUpdatedNotes`. -/
def passListing2 {ρ : Type} (env : Env ρ) (client : WebDAVStorage) (w : SyncWorld ρ) :
    Result (List Note) × ρ × List Request :=
  client.readAllNotes env (passListing1 env client w).2.1

/-- The third listing of a pass: the call of `readAllNotes` in
`getRemoteNoteTimestamps` at the start of `uploadChangedNotes`. -/
def passListing3 {ρ : Type} (env : Env ρ) (client : WebDAVStorage) (w : SyncWorld ρ) :
    Result (List Note) × ρ × List Request :=
  client.readAllNotes env (passListing2 env client w).2.1

/-- The events a pass appended to the trace of `w`. -/
def passEvents {ρ : Type} (env : Env ρ) (w : SyncWorld ρ) : List Event :=
  (performSync env w).trace.drop w.trace.length

/-- A local note `a`, modified at second 6: one second after the remote copy. -/
def exLocalNewA : Note := exNote "a" "local title" "local body" 6000

/-- A local note `b` with a sub-second modification time (second 7.5). -/
def exLocalB : Note := exNote "b" "title b" "body b" 7500

/-- The example server with its listing out of order: a PROPFIND fails, every
other request is served. -/
def exSendNoListing (files : List (String × String)) (req : Request) :
    Reply × List (String × String) :=
  if req.method = "PROPFIND" then (⟨true, 0, ""⟩, files) else exSend files req

/-- The example environment over the server without listing. -/
def exEnvNoListing : Env (List (String × String)) :=
  { exEnv [] with send := exSendNoListing }

/-- The note `parseJsonNote` builds from text that is not JSON, for a file name
with stem `uuid`. -/
def exPhantom (uuid : String) : Note :=
  { uuid := uuid, title := "", body := "", created := 0, modified := 0, noteType := .TEXT,
    syncStatus := "", createdAtMillis := 0, updatedAtMillis := 0, deviceId := "" }

/-- Server files: one whose text is not JSON, and the note `a`. -/
def exFilesBad : List (String × String) :=
  ("bad.json", "this is not json") :: exFiles [exRemoteA]

/-! ## The listing as the specification words it

The response blocks of a listing, the test a block has to pass, and the notes
fetched for the blocks that pass, written after the sentences of the
specification; `readAllNotes` is compared with them. -/

/-- The response blocks of a listing text, in order: the text between a
`<D:response>` and the next `</D:response>`, block after block, up to the first
opening without a closing. -/
inductive ResponseBlocks : List Char → List (List Char) → Prop
  | noOpening (text : List Char) :
      cut "<D:response>".toList text = none → ResponseBlocks text []
  | noClosing (text before afterOpen : List Char) :
      cut "<D:response>".toList text = some (before, afterOpen) →
      cut "</D:response>".toList afterOpen = none → ResponseBlocks text []
  | block (text before afterOpen inner rest : List Char) (blocks : List (List Char)) :
      cut "<D:response>".toList text = some (before, afterOpen) →
      cut "</D:response>".toList afterOpen = some (inner, rest) →
      ResponseBlocks rest blocks → ResponseBlocks text (inner :: blocks)

/-- The text of the first `<D:tag>` sub-element of a block, if the block has one. -/
def elementText (tag : String) (block : List Char) : Option (List Char) :=
  (cut ("<D:" ++ tag ++ ">").toList block).bind
    (fun p => (cut ("</D:" ++ tag ++ ">").toList p.2).map (fun q => q.1))

/-- The file name of an href: the last segment of its path. -/
def hrefFileName {ρ : Type} (env : Env ρ) (href : List Char) : String :=
  String.mk (afterLastSlash (env.urlPath (String.mk href)).toList)

/-- The file name of a block that is accepted: the block has an href and a status
sub-element, the status text contains `200 OK`, and the file name of the href ends
in `.json`. -/
def acceptedFileName {ρ : Type} (env : Env ρ) (block : List Char) : Option String :=
  match elementText "href" block, elementText "status" block with
  | some href, some status =>
    if containsText "200 OK".toList status = true ∧
        endsWith (hrefFileName env href) ".json" = true then
      some (hrefFileName env href)
    else none
  | _, _ => none

/-- A file name without its five-character extension. -/
def stripExtension (fileName : String) : String :=
  String.mk (fileName.toList.take (fileName.length - 5))

/-- The notes of the accepted file names, in order: one GET each, and for each
non-empty body the decoded note under the uuid of the file name. -/
def fetchAccepted {ρ : Type} (env : Env ρ) (self : WebDAVStorage) :
    List String → ρ → List Note × ρ × List Request
  | [], s => ([], s, [])
  | fileName :: rest, s =>
    let got := self.sendRequest env s (self.baseUrl ++ stripExtension fileName ++ ".json") "GET" ""
    let more := fetchAccepted env self rest got.2.1
    if got.1 = "" then (more.1, more.2.1, got.2.2 ++ more.2.2)
    else
      ({ WebDAVStorage.parseJsonNote env got.1 fileName with uuid := stripExtension fileName }
          :: more.1,
        more.2.1, got.2.2 ++ more.2.2)

/-! ## The remaining operations of the orchestrator -/

/-- The state the constructor of `WebDAVSyncManager` leaves, in a world with the
given configuration, collection, remote side and clock text: sync off, five
minutes, no client, both timers at rest, the debounce timer single-shot. -/
def construct {ρ : Type} (appState : ApplicationState) (store : NoteStore) (remote : ρ)
    (now : String) : SyncWorld ρ :=
  { enabled_ := false, server_address_ := "", username_ := "", password_ := "",
    sync_interval_minutes_ := 5, webdav_storage_ := none,
    sync_timer_ := ⟨false, 0, false, 0⟩,
    search_debounce_timer_ := ⟨false, 0, true, 0⟩,
    last_error_ := "", last_sync_time_ := "", pending_search_sync_ := false,
    storagesCreated := 0, appState := appState, note_store_ := store, remote := remote,
    currentDateTime := now, trace := [] }

/-- The method `setServerAddress`. -/
def setServerAddress {ρ : Type} (w : SyncWorld ρ) (address : String) : SyncWorld ρ :=
  { w with server_address_ := if endsWith address "/" = false then address ++ "/" else address }

/-- The method `setUsername`. -/
def setUsername {ρ : Type} (w : SyncWorld ρ) (username : String) : SyncWorld ρ :=
  { w with username_ := username }

/-- The method `setPassword`. -/
def setPassword {ρ : Type} (w : SyncWorld ρ) (password : String) : SyncWorld ρ :=
  { w with password_ := password }

/-- The method `setSyncIntervalMinutes`. -/
def setSyncIntervalMinutes {ρ : Type} (w : SyncWorld ρ) (minutes : Int) : SyncWorld ρ :=
  { w with sync_interval_minutes_ := max 1 minutes }

/-- The method `triggerSyncOnSearch`. -/
def triggerSyncOnSearch {ρ : Type} (w : SyncWorld ρ) : SyncWorld ρ :=
  let w1 := refreshConfigurationFromAppState w
  if w1.enabled_ = false then w1
  else if w1.pending_search_sync_ = true then w1
  else
    { w1 with pending_search_sync_ := true,
              search_debounce_timer_ := w1.search_debounce_timer_.start 500 }

/-- The slot `onSearchDebounceTimerTimeout`. -/
def onSearchDebounceTimerTimeout {ρ : Type} (env : Env ρ) (w : SyncWorld ρ) : SyncWorld ρ :=
  if w.pending_search_sync_ = true then
    { performSync env w with pending_search_sync_ := false }
  else w

/-- The method `checkRemoteNoteForUpdate`: the verdict and the world after the call. -/
def checkRemoteNoteForUpdate {ρ : Type} (env : Env ρ) (w : SyncWorld ρ) (uuid : String) :
    Bool × SyncWorld ρ :=
  match w.webdav_storage_ with
  | none => (false, w)
  | some client =>
    match w.note_store_.getNote uuid with
    | none => (false, w)
    | some localNote =>
      let remoteNotesResult := client.readAllNotes env w.remote
      let w1 := w.afterRemoteCall remoteNotesResult.2.1 remoteNotesResult.2.2
      match remoteNotesResult.1 with
      | .failure _ => (false, w1)
      | .success remoteNotes =>
        match remoteNotes.find? (fun note => note.uuid == uuid) with
        | none => (false, w1)
        | some remoteNote =>
          let tolerance := seconds 3
          let isRemoteNewer : Bool := decide (remoteNote.modified > localNote.modified + tolerance)
          (isRemoteNewer, w1.emit [.remoteNoteChecked localNote remoteNote isRemoteNewer])

/-- The method `downloadNoteIfRemoteNewer`. -/
def downloadNoteIfRemoteNewer {ρ : Type} (env : Env ρ) (w : SyncWorld ρ) (uuid : String) :
    SyncWorld ρ :=
  match w.webdav_storage_ with
  | none => w
  | some client =>
    match w.note_store_.getNote uuid with
    | none => w
    | some localNote =>
      let remoteNotesResult := client.readAllNotes env w.remote
      let w1 := w.afterRemoteCall remoteNotesResult.2.1 remoteNotesResult.2.2
      match remoteNotesResult.1 with
      | .failure _ => w1
      | .success remoteNotes =>
        match remoteNotes.find? (fun note => note.uuid == uuid) with
        | none => w1
        | some remoteNote =>
          let tolerance := seconds 3
          if remoteNote.modified > localNote.modified + tolerance then
            ({ w1 with note_store_ := w1.note_store_.updateNote remoteNote }).emit
              [.storageWrite remoteNote]
          else w1

/-! ## Timers and the passing of time

Time passes in milliseconds.  A running timer fires when its remaining time is
used up; a single-shot timer then stops, another starts its interval anew.  The
slot of a firing timer runs at once and takes no time: the network calls of a
pass, which block the program, are not given a duration. -/

/-- One millisecond for a timer: the timer afterwards, and whether it fired. -/
def QTimer.tick (t : QTimer) : QTimer × Bool :=
  if t.active = false then (t, false)
  else if t.remaining ≤ 1 then
    (if t.singleShot = true then { t with active := false, remaining := 0 }
      else { t with remaining := t.interval }, true)
  else ({ t with remaining := t.remaining - 1 }, false)

/-- One millisecond for the orchestrator: both timers advance, and the slots of
those that fire run, `onSyncTimerTimeout` before `onSearchDebounceTimerTimeout`. -/
def tick {ρ : Type} (env : Env ρ) (w : SyncWorld ρ) : SyncWorld ρ :=
  let st := w.sync_timer_.tick
  let dt := w.search_debounce_timer_.tick
  let w1 : SyncWorld ρ := { w with sync_timer_ := st.1, search_debounce_timer_ := dt.1 }
  let w2 := if st.2 = true then onSyncTimerTimeout env w1 else w1
  if dt.2 = true then onSearchDebounceTimerTimeout env w2 else w2

/-- The world after `n` milliseconds without a call from outside. -/
def elapse {ρ : Type} (env : Env ρ) : Nat → SyncWorld ρ → SyncWorld ρ
  | 0, w => w
  | n + 1, w => elapse env n (tick env w)

/-- A timer `n` milliseconds later, when it does not fire in between. -/
def QTimer.later (t : QTimer) (n : Nat) : QTimer :=
  if t.active = true then { t with remaining := t.remaining - n } else t

/-- The events a call appended to the trace: those of `after` beyond `before`. -/
def newEvents {ρ : Type} (before after : SyncWorld ρ) : List Event :=
  after.trace.drop before.trace.length

/-- The server address of the configuration as a refresh normalises it: a slash
is appended to a non-empty address that lacks one. -/
def configuredAddress (a : ApplicationState) : String :=
  if a.webdav_server_address_ ≠ "" ∧ endsWith a.webdav_server_address_ "/" = false then
    a.webdav_server_address_ ++ "/"
  else a.webdav_server_address_

/-- The ways a sync is attempted. -/
inductive SyncTrigger
  | syncNow
  | periodicTick
  | debounceFire
  deriving DecidableEq, Repr

/-- The call behind an attempted sync. -/
def attemptSync {ρ : Type} (env : Env ρ) : SyncTrigger → SyncWorld ρ → SyncWorld ρ
  | .syncNow, w => syncNow env w
  | .periodicTick, w => onSyncTimerTimeout env w
  | .debounceFire, w => onSearchDebounceTimerTimeout env w

/-- The calls and happenings that change the world of an orchestrator: its public
methods and slots, the passing of time, and the changes others make to the
configuration, the collection, the remote side and the clock. -/
inductive Op (ρ : Type)
  | setEnabled (enabled : Bool)
  | setServerAddress (address : String)
  | setUsername (username : String)
  | setPassword (password : String)
  | setSyncIntervalMinutes (minutes : Int)
  | syncStart
  | syncStop
  | syncNow
  | triggerSyncOnSearch
  | onSyncTimerTimeout
  | onSearchDebounceTimerTimeout
  | uploadNote (note : Note)
  | checkRemoteNoteForUpdate (uuid : String)
  | downloadNoteIfRemoteNewer (uuid : String)
  | elapse (ms : Nat)
  | configure (appState : ApplicationState)
  | editCollection (store : NoteStore)
  | changeRemote (remote : ρ)
  | setClock (now : String)

/-- The world after an operation. -/
def Op.apply {ρ : Type} (env : Env ρ) (w : SyncWorld ρ) : Op ρ → SyncWorld ρ
  | .setEnabled enabled => nv.setEnabled w enabled
  | .setServerAddress address => nv.setServerAddress w address
  | .setUsername username => nv.setUsername w username
  | .setPassword password => nv.setPassword w password
  | .setSyncIntervalMinutes minutes => nv.setSyncIntervalMinutes w minutes
  | .syncStart => nv.syncStart w
  | .syncStop => nv.syncStop w
  | .syncNow => nv.syncNow env w
  | .triggerSyncOnSearch => nv.triggerSyncOnSearch w
  | .onSyncTimerTimeout => nv.onSyncTimerTimeout env w
  | .onSearchDebounceTimerTimeout => nv.onSearchDebounceTimerTimeout env w
  | .uploadNote note => nv.uploadNote env w note
  | .checkRemoteNoteForUpdate uuid => (nv.checkRemoteNoteForUpdate env w uuid).2
  | .downloadNoteIfRemoteNewer uuid => nv.downloadNoteIfRemoteNewer env w uuid
  | .elapse ms => nv.elapse env ms w
  | .configure appState => { w with appState := appState }
  | .editCollection store => { w with note_store_ := store }
  | .changeRemote remote => { w with remote := remote }
  | .setClock now => { w with currentDateTime := now }

/-- The worlds an orchestrator can be in: what a sequence of operations makes of a
freshly constructed one. -/
def Reachable {ρ : Type} (env : Env ρ) (w : SyncWorld ρ) : Prop :=
  ∃ (appState : ApplicationState) (store : NoteStore) (remote : ρ) (now : String)
    (ops : List (Op ρ)),
    w = ops.foldl (Op.apply env) (construct appState store remote now)

/-- Two worlds with the same manager state apart from the last error and the last
sync time: flag, cached settings, client, timers, pending flag, and the
configuration and clock around them. -/
def SameManager {ρ : Type} (w v : SyncWorld ρ) : Prop :=
  v.enabled_ = w.enabled_ ∧ v.server_address_ = w.server_address_ ∧
  v.username_ = w.username_ ∧ v.password_ = w.password_ ∧
  v.sync_interval_minutes_ = w.sync_interval_minutes_ ∧
  v.webdav_storage_ = w.webdav_storage_ ∧ v.sync_timer_ = w.sync_timer_ ∧
  v.search_debounce_timer_ = w.search_debounce_timer_ ∧
  v.pending_search_sync_ = w.pending_search_sync_ ∧
  v.storagesCreated = w.storagesCreated ∧ v.appState = w.appState ∧
  v.currentDateTime = w.currentDateTime

/-- A world with sync disabled in the configuration whose manager still runs the
periodic timer and holds a client. -/
def exDisabledWorld : SyncWorld (List (String × String)) :=
  { exWorld [exLocalOldA] (exFiles [exRemoteA]) with
    appState := ⟨false, "http://dav/notes", "user", "secret", 5⟩,
    enabled_ := true, server_address_ := "http://dav/notes/", username_ := "user",
    password_ := "secret", webdav_storage_ := some exClient,
    sync_timer_ := ⟨true, 300000, false, 1000⟩ }

/-- A world with sync enabled whose manager has the configured connection settings
cached, runs the periodic timer at five minutes and holds the client, while the
configuration now asks for thirty minutes. -/
def exRunningWorld : SyncWorld (List (String × String)) :=
  { exWorld [exLocalOldA] (exFiles [exRemoteA]) with
    appState := ⟨true, "http://dav/notes", "user", "secret", 30⟩,
    enabled_ := true, server_address_ := "http://dav/notes/", username_ := "user",
    password_ := "secret", webdav_storage_ := some exClient, storagesCreated := 1,
    sync_timer_ := ⟨true, 300000, false, 1000⟩ }

/-- A world as `exRunningWorld` whose held client was built for another server
before `setServerAddress` changed the cached address. -/
def exStaleWorld : SyncWorld (List (String × String)) :=
  { exRunningWorld with webdav_storage_ := some ⟨"http://old/", "user", "secret"⟩ }

/-- The manager agrees with an enabling configuration: sync is enabled in both,
the cached connection settings and interval are the configured ones, a client is
held, and the periodic timer runs with the interval of the cached minutes. -/
def Settled {ρ : Type} (w : SyncWorld ρ) : Prop :=
  w.appState.webdav_enabled_ = true ∧ w.enabled_ = true ∧
  w.server_address_ = configuredAddress w.appState ∧
  w.username_ = w.appState.webdav_username_ ∧
  w.password_ = w.appState.webdav_password_ ∧
  w.sync_interval_minutes_ = max 1 w.appState.webdav_sync_interval_minutes_ ∧
  w.webdav_storage_.isSome = true ∧ w.sync_timer_.active = true ∧
  w.sync_timer_.interval = wrapInt32 (w.sync_interval_minutes_ * 60000)

instance Settled.decidable {ρ : Type} (w : SyncWorld ρ) : Decidable (Settled w) := by
  unfold Settled
  infer_instance

/-- A manager started with `syncStart` in the example world, with an empty
collection and an empty server. -/
def exIdleWorld : SyncWorld (List (String × String)) := syncStart (exWorld [] [])

/-- Two calls of `triggerSyncOnSearch` 100 ms apart: the world right after the
second call. -/
def twoTriggers {ρ : Type} (env : Env ρ) (w : SyncWorld ρ) : SyncWorld ρ :=
  triggerSyncOnSearch (elapse env 100 (triggerSyncOnSearch w))

/-- The PROPFIND request of the example client. -/
def exPropfind : Request := ⟨"http://dav/notes/", "PROPFIND", propfindBody, "user:secret"⟩

/-- An environment whose server is down: every request ends in an error. -/
def exDownEnv : Env (List (String × String)) :=
  { exEnv [] with send := fun files _ => (⟨true, 0, ""⟩, files) }

/-- Whether an event is a fetch of the remote listing: a PROPFIND request. -/
def isListingFetch : Event → Bool
  | .request q => q.method == "PROPFIND"
  | _ => false

/-- Whether an event belongs to a download: the write of a pulled note to local
storage or its `noteDownloaded` signal. -/
def isDownloadEvent : Event → Bool
  | .storageWrite _ => true
  | .noteDownloaded _ => true
  | _ => false

/-- Whether an event belongs to an upload: a PUT request or a `noteUploaded`
signal. -/
def isUploadEvent : Event → Bool
  | .request q => q.method == "PUT"
  | .noteUploaded _ => true
  | _ => false

/-- The method `resolveConflict`. -/
def resolveConflict (localNote remoteNote : Note) : Bool :=
  decide (remoteNote.updatedAtMillis > localNote.updatedAtMillis)

/-! ## The local file format (`LocalStorage`, storage.cpp) -/

/-- The text `LocalStorage::writeNote` hands to `writeFile`:
`note.title() + "\n" + note.body()`. -/
def LocalStorage.writeNote_content (note : Note) : String :=
  note.title ++ "\n" ++ note.body

/-- The title and the body `LocalStorage::readAllNotes` takes from the text of a
file: `content.find('\n')`, then the text before the position and the text after
it, or the whole text and the empty body when there is no newline. -/
def LocalStorage.readAllNotes_split (content : String) : String × String :=
  match cut ['\n'] content.toList with
  | none => (content, "")
  | some (before, rest) => (String.mk before, String.mk rest)

/-- Whether an operation, applied in the world `w`, calls
`refreshConfigurationFromAppState`: `syncStart`, `syncNow`, `triggerSyncOnSearch`
and the periodic slot always, `setEnabled` when it enables (through `syncStart`),
and the debounce slot when a debounced pass is pending (through `performSync`). -/
def Op.refreshes {ρ : Type} (w : SyncWorld ρ) : Op ρ → Bool
  | .setEnabled enabled => enabled
  | .syncStart => true
  | .syncNow => true
  | .triggerSyncOnSearch => true
  | .onSyncTimerTimeout => true
  | .onSearchDebounceTimerTimeout => w.pending_search_sync_
  | _ => false

/-- A freshly constructed manager in a world whose configuration enables sync with
an interval of 40000 minutes. -/
def exLongIntervalWorld : SyncWorld (List (String × String)) :=
  { exWorld [] [] with appState := ⟨true, "http://dav/notes", "user", "secret", 40000⟩ }

/-! ## The search index (`SearchIndex`, `QueryParser`, search_index.cpp)

A `Note*` is modelled by the note it points to, with the text the note had when it
was indexed: the index never holds two notes of one uuid, and a note changed in
place is found by its indexed text until it is indexed again.  A `std::set<Note*>`
is a list read through membership and emptiness only. -/

/-- The function `std::isalnum` on a `char`; a byte outside ASCII is no letter. -/
def isalnum (c : Char) : Bool := c.isAlphanum

/-- The function `std::ispunct` on a `char`: the printable ASCII characters that
are neither alphanumeric nor the space. -/
def ispunct (c : Char) : Bool :=
  (33 ≤ c.toNat && c.toNat ≤ 47) || (58 ≤ c.toNat && c.toNat ≤ 64) ||
    (91 ≤ c.toNat && c.toNat ≤ 96) || (123 ≤ c.toNat && c.toNat ≤ 126)

/-- The function `std::tolower` on a `char`. -/
def tolower (c : Char) : Char := c.toLower

/-- The loop of `QueryParser::tokenize` over the characters left, with the token
being built and the tokens found so far; at the end of the text the last token is
added. -/
def QueryParser.tokenizeLoop : List Char → String → List String → List String
  | [], token, tokens => if token ≠ "" then tokens ++ [token] else tokens
  | c :: cs, token, tokens =>
    if isalnum c || ispunct c then
      QueryParser.tokenizeLoop cs (token.push (tolower c)) tokens
    else if token ≠ "" then QueryParser.tokenizeLoop cs "" (tokens ++ [token])
    else QueryParser.tokenizeLoop cs token tokens

/-- The function `QueryParser::tokenize`. -/
def QueryParser.tokenize (s : String) : List String :=
  QueryParser.tokenizeLoop s.toList "" []

/-- A `std::unordered_map`: keys with their values. -/
abbrev UMap (κ ν : Type) := List (κ × ν)

/-- The lookup `m.find(key)`; `none` is `end()`. -/
def UMap.find {κ ν : Type} [DecidableEq κ] (m : UMap κ ν) (key : κ) : Option ν :=
  (List.find? (fun p => p.1 == key) m).map (fun p => p.2)

/-- The assignment `m[key] = v`. -/
def UMap.assign {κ ν : Type} [DecidableEq κ] (m : UMap κ ν) (key : κ) (v : ν) : UMap κ ν :=
  if m.any (fun p => p.1 == key) then
    m.map (fun p => if p.1 == key then (key, v) else p)
  else m ++ [(key, v)]

/-- The removal `m.erase(key)`. -/
def UMap.erase {κ ν : Type} [DecidableEq κ] (m : UMap κ ν) (key : κ) : UMap κ ν :=
  m.filter (fun p => !(p.1 == key))

/-- The members of a `SearchIndex`. -/
structure SearchIndex where
  terms_to_notes_ : UMap String (List Note)
  note_to_terms_ : UMap Note (List String)
  all_notes_ : List Note
  deriving DecidableEq, Repr

/-- A freshly constructed index. -/
def SearchIndex.empty : SearchIndex := ⟨[], [], []⟩

/-- The method `SearchIndex::tokenize`. -/
def SearchIndex.tokenize (s : String) : List String := QueryParser.tokenize s

/-- One round of the loop over the terms of a note that leaves the index:
`notes = terms_to_notes_[term]`, the pointer removed from `notes`, and the entry
erased when `notes` is empty (also the entry `operator[]` has just made). -/
def SearchIndex.dropTerm (notePtr : Note) (terms_to_notes : UMap String (List Note))
    (term : String) : UMap String (List Note) :=
  let notes := (terms_to_notes.find term).getD []
  let notes1 := notes.filter (fun p => !(p == notePtr))
  if notes1 = [] then terms_to_notes.erase term else terms_to_notes.assign term notes1

/-- The block that `indexNoteInternal` and `removeNoteInternal` share, run when
`find_if` has found the note `found` of the uuid: the note leaves `all_notes_`,
and, when `note_to_terms_` has its terms, the lists of those terms and
`note_to_terms_`. -/
def SearchIndex.eraseFound (self : SearchIndex) (uuid : NoteUUID) (found : Note) :
    SearchIndex :=
  let all := self.all_notes_.eraseP (fun n => n.uuid == uuid)
  match self.note_to_terms_.find found with
  | some terms =>
    { terms_to_notes_ := terms.foldl (SearchIndex.dropTerm found) self.terms_to_notes_,
      note_to_terms_ := self.note_to_terms_.erase found,
      all_notes_ := all }
  | none => { self with all_notes_ := all }

/-- One round of the loop `terms_to_notes_[token].push_back(note.get())`. -/
def SearchIndex.addTerm (note : Note) (terms_to_notes : UMap String (List Note))
    (token : String) : UMap String (List Note) :=
  terms_to_notes.assign token ((terms_to_notes.find token).getD [] ++ [note])

/-- The method `SearchIndex::indexNoteInternal`. -/
def SearchIndex.indexNoteInternal (self : SearchIndex) (note : Note) : SearchIndex :=
  let s1 :=
    match self.all_notes_.find? (fun n => n.uuid == note.uuid) with
    | some found => self.eraseFound note.uuid found
    | none => self
  let text := note.title ++ " " ++ note.body
  let tokens := SearchIndex.tokenize text
  { all_notes_ := s1.all_notes_ ++ [note],
    note_to_terms_ := s1.note_to_terms_.assign note tokens,
    terms_to_notes_ := tokens.foldl (SearchIndex.addTerm note) s1.terms_to_notes_ }

/-- The method `SearchIndex::indexNote`. -/
def SearchIndex.indexNote (self : SearchIndex) (note : Note) : SearchIndex :=
  self.indexNoteInternal note

/-- The method `SearchIndex::removeNoteInternal`. -/
def SearchIndex.removeNoteInternal (self : SearchIndex) (uuid : NoteUUID) : SearchIndex :=
  match self.all_notes_.find? (fun n => n.uuid == uuid) with
  | none => self
  | some found => self.eraseFound uuid found

/-- The method `SearchIndex::removeNote`. -/
def SearchIndex.removeNote (self : SearchIndex) (uuid : NoteUUID) : SearchIndex :=
  self.removeNoteInternal uuid

/-- The method `SearchIndex::updateNote`. -/
def SearchIndex.updateNote (self : SearchIndex) (note : Note) : SearchIndex :=
  (self.removeNoteInternal note.uuid).indexNoteInternal note

/-- The method `SearchIndex::clear`. -/
def SearchIndex.clear (_self : SearchIndex) : SearchIndex := ⟨[], [], []⟩

/-- The test `indexedTerm.rfind(token, 0) == 0`: the term starts with the token. -/
def startsWith (indexedTerm token : String) : Bool :=
  token.toList.isPrefixOf indexedTerm.toList

/-- The set `tokenMatches` of `filter` for one query token: the notes of every
indexed term that starts with the token. -/
def SearchIndex.tokenMatches (terms_to_notes : UMap String (List Note)) (token : String) :
    List Note :=
  terms_to_notes.foldl (fun acc p => if startsWith p.1 token then acc ++ p.2 else acc) []

/-- The loop of `filter` over the query tokens from index `i` on, with the set
`matchingNotes` so far; `none` is the early `return {}`. -/
def SearchIndex.filterLoop (terms_to_notes : UMap String (List Note)) :
    List String → Nat → List Note → Option (List Note)
  | [], _, matchingNotes => some matchingNotes
  | token :: rest, i, matchingNotes =>
    let tokenMatches := SearchIndex.tokenMatches terms_to_notes token
    if tokenMatches = [] then none
    else
      SearchIndex.filterLoop terms_to_notes rest (i + 1)
        (if i = 0 then tokenMatches
          else matchingNotes.filter (fun n => tokenMatches.contains n))

/-- The method `SearchIndex::filter`. -/
def SearchIndex.filter (self : SearchIndex) (query : String) : List Note :=
  if query = "" then self.all_notes_
  else
    let tokens := SearchIndex.tokenize query
    if tokens = [] then self.all_notes_
    else
      match SearchIndex.filterLoop self.terms_to_notes_ tokens 0 [] with
      | none => []
      | some matchingNotes => self.all_notes_.filter (fun n => matchingNotes.contains n)

/-- The calls that build an index. -/
inductive IndexOp
  | indexNote (note : Note)
  | updateNote (note : Note)
  | removeNote (uuid : NoteUUID)
  | clear
  deriving DecidableEq, Repr

/-- The index after a call. -/
def IndexOp.apply (self : SearchIndex) : IndexOp → SearchIndex
  | .indexNote note => self.indexNote note
  | .updateNote note => self.updateNote note
  | .removeNote uuid => self.removeNote uuid
  | .clear => self.clear

/-- The indexes a sequence of calls builds from a freshly constructed one. -/
def SearchIndex.Built (self : SearchIndex) : Prop :=
  ∃ ops : List IndexOp, self = ops.foldl IndexOp.apply SearchIndex.empty

/-- From the claim: a text lower-cased, character by character. -/
def lowerCased (s : String) : String := String.mk (s.toList.map tolower)

/-- From the claim: every query token is a prefix of at least one token of the
note's lower-cased title, a space and body. -/
def noteMatches (queryTokens : List String) (note : Note) : Bool :=
  queryTokens.all (fun token =>
    (QueryParser.tokenize (lowerCased (note.title ++ " " ++ note.body))).any
      (fun term => startsWith term token))

/-- From the claim: the result of a search, all indexed notes for a query without
tokens and else the matching ones, in the order of the index. -/
def filterSpec (self : SearchIndex) (query : String) : List Note :=
  if QueryParser.tokenize query = [] then self.all_notes_
  else self.all_notes_.filter (noteMatches (QueryParser.tokenize query))

/-- An index of the examples: the remote note `a` indexed, the note `b` indexed,
`a` indexed again with the local text, a note `c` indexed and removed. -/
def exIndex : SearchIndex :=
  [IndexOp.indexNote exRemoteA, .indexNote exLocalB, .updateNote exLocalNewA,
    .indexNote (exNote "c" "Project plan" "to do" 0), .removeNote "c"].foldl
    IndexOp.apply SearchIndex.empty

/-- The terms `indexNoteInternal` computes for a note: the tokens of its title, a
space and its body. -/
def Note.terms (n : Note) : List String := SearchIndex.tokenize (n.title ++ " " ++ n.body)

/-- The members of an index fit together: no two notes of `all_notes_` share a
uuid; a note in the list of a term is a note of `all_notes_` that has the term;
every note of `all_notes_` is in the list of each of its terms; and
`note_to_terms_` has the terms of every note of `all_notes_`. -/
def SearchIndex.Consistent (self : SearchIndex) : Prop :=
  (self.all_notes_.map Note.uuid).Nodup ∧
  (∀ p ∈ self.terms_to_notes_, ∀ n ∈ p.2, n ∈ self.all_notes_ ∧ p.1 ∈ n.terms) ∧
  (∀ n ∈ self.all_notes_, ∀ term ∈ n.terms,
    n ∈ (self.terms_to_notes_.find term).getD []) ∧
  (∀ n ∈ self.all_notes_, self.note_to_terms_.find n = some n.terms)

/-! ## Lemmas: collections -/

theorem find?_replace_self (s : List Note) (note : Note)
    (h : s.any (fun n => n.uuid == note.uuid) = true) :
    (s.map (fun n => if n.uuid == note.uuid then note else n)).find?
      (fun n => n.uuid == note.uuid) = some note := by
  induction s with
  | nil => simp at h
  | cons a s ih =>
    rw [List.map_cons, List.find?_cons]
    by_cases ha : a.uuid = note.uuid
    · have hb : (a.uuid == note.uuid) = true := by simpa using ha
      simp only [hb, if_true, beq_self_eq_true]
    · have hb : (a.uuid == note.uuid) = false := by simpa using ha
      have h2 : s.any (fun n => n.uuid == note.uuid) = true := by
        simpa [ha] using h
      simp only [hb, ih h2, Bool.false_eq_true, if_false]

theorem find?_replace_ne (s : List Note) (note : Note) (u : String) (hu : u ≠ note.uuid) :
    (s.map (fun n => if n.uuid == note.uuid then note else n)).find?
      (fun n => n.uuid == u) = s.find? (fun n => n.uuid == u) := by
  induction s with
  | nil => rfl
  | cons a s ih =>
    rw [List.map_cons, List.find?_cons, List.find?_cons, ih]
    by_cases ha : a.uuid = note.uuid
    · have hb : (a.uuid == note.uuid) = true := by simpa using ha
      have h1 : (note.uuid == u) = false := by
        simpa using fun h : note.uuid = u => hu h.symm
      have h2 : (a.uuid == u) = false := by rw [ha]; exact h1
      simp only [hb, if_true, h1, h2]
    · have hb : (a.uuid == note.uuid) = false := by simpa using ha
      simp only [hb, Bool.false_eq_true, if_false]

theorem getNote_addNote_self (s : NoteStore) (note : Note) :
    NoteStore.getNote (NoteStore.addNote s note) note.uuid = some note := by
  unfold NoteStore.getNote NoteStore.addNote
  split
  · next h => exact find?_replace_self s note h
  · next h =>
    have h3 : List.find? (fun n => n.uuid == note.uuid) s = none := by
      rw [List.find?_eq_none]
      intro x hx hxx
      exact h (List.any_eq_true.mpr ⟨x, hx, hxx⟩)
    simp [List.find?_append, h3]

theorem getNote_addNote_ne (s : NoteStore) (note : Note) (u : String) (hu : u ≠ note.uuid) :
    NoteStore.getNote (NoteStore.addNote s note) u = NoteStore.getNote s u := by
  unfold NoteStore.getNote NoteStore.addNote
  split
  · exact find?_replace_ne s note u hu
  · have h1 : ¬ note.uuid = u := fun h => hu h.symm
    simp [List.find?_append, h1]

theorem getNote_updateNote_self (s : NoteStore) (note : Note)
    (h : NoteStore.getNote s note.uuid ≠ none) :
    NoteStore.getNote (NoteStore.updateNote s note) note.uuid = some note := by
  unfold NoteStore.getNote NoteStore.updateNote
  have hany : s.any (fun n => n.uuid == note.uuid) = true := by
    unfold NoteStore.getNote at h
    rw [ne_eq, List.find?_eq_none] at h
    push_neg at h
    obtain ⟨x, hx, hxx⟩ := h
    exact List.any_eq_true.mpr ⟨x, hx, hxx⟩
  rw [if_pos hany]
  exact find?_replace_self s note hany

theorem getNote_updateNote_ne (s : NoteStore) (note : Note) (u : String) (hu : u ≠ note.uuid) :
    NoteStore.getNote (NoteStore.updateNote s note) u = NoteStore.getNote s u := by
  unfold NoteStore.getNote NoteStore.updateNote
  split
  · exact find?_replace_ne s note u hu
  · rfl

/-! ### Timestamp maps -/

theorem tm_find_replace_self (m : TimestampMap) (k : String) (t : NoteTimestamp)
    (h : m.any (fun p => p.1 == k) = true) :
    TimestampMap.find (m.map (fun p => if p.1 == k then (k, t) else p)) k = some t := by
  unfold TimestampMap.find
  induction m with
  | nil => simp at h
  | cons a m ih =>
    rw [List.map_cons, List.find?_cons]
    by_cases ha : a.1 = k
    · have hb : (a.1 == k) = true := by simpa using ha
      simp only [hb, if_true, beq_self_eq_true, Option.map_some']
    · have hb : (a.1 == k) = false := by simpa using ha
      have h2 : m.any (fun p => p.1 == k) = true := by simpa [ha] using h
      simp only [hb, Bool.false_eq_true, if_false]
      exact ih h2

theorem tm_find_replace_ne (m : TimestampMap) (k : String) (t : NoteTimestamp) (u : String)
    (hu : u ≠ k) :
    TimestampMap.find (m.map (fun p => if p.1 == k then (k, t) else p)) u =
      TimestampMap.find m u := by
  unfold TimestampMap.find
  induction m with
  | nil => rfl
  | cons a m ih =>
    rw [List.map_cons, List.find?_cons, List.find?_cons]
    by_cases ha : a.1 = k
    · have hb : (a.1 == k) = true := by simpa using ha
      have h1 : (k == u) = false := by simpa using fun h : k = u => hu h.symm
      have h2 : (a.1 == u) = false := by rw [ha]; exact h1
      simp only [hb, if_true, h1, h2]
      exact ih
    · have hb : (a.1 == k) = false := by simpa using ha
      simp only [hb, Bool.false_eq_true, if_false]
      cases hau : (a.1 == u)
      · exact ih
      · rfl

theorem tm_find_assign_self (m : TimestampMap) (k : String) (t : NoteTimestamp) :
    TimestampMap.find (TimestampMap.assign m k t) k = some t := by
  unfold TimestampMap.assign
  split
  · next h => exact tm_find_replace_self m k t h
  · next h =>
    have h3 : List.find? (fun p : String × NoteTimestamp => p.1 == k) m = none := by
      rw [List.find?_eq_none]
      intro x hx hxx
      exact h (List.any_eq_true.mpr ⟨x, hx, hxx⟩)
    simp [TimestampMap.find, List.find?_append, h3]

theorem tm_find_assign_ne (m : TimestampMap) (k : String) (t : NoteTimestamp) (u : String)
    (hu : u ≠ k) :
    TimestampMap.find (TimestampMap.assign m k t) u = TimestampMap.find m u := by
  unfold TimestampMap.assign
  split
  · exact tm_find_replace_ne m k t u hu
  · have h1 : ¬ k = u := fun h => hu h.symm
    simp [TimestampMap.find, List.find?_append, h1]

theorem tm_keys_assign (m : TimestampMap) (k : String) (t : NoteTimestamp) :
    (TimestampMap.assign m k t).map Prod.fst =
      if k ∈ m.map Prod.fst then m.map Prod.fst else m.map Prod.fst ++ [k] := by
  unfold TimestampMap.assign
  have hiff : (m.any (fun p => p.1 == k) = true) ↔ k ∈ m.map Prod.fst := by
    constructor
    · intro h
      obtain ⟨p, hp, hk⟩ := List.any_eq_true.mp h
      have hpk : p.1 = k := by simpa using hk
      exact hpk ▸ List.mem_map_of_mem Prod.fst hp
    · intro h
      obtain ⟨p, hp, hpk⟩ := List.mem_map.mp h
      exact List.any_eq_true.mpr ⟨p, hp, by simpa using hpk⟩
  by_cases h : k ∈ m.map Prod.fst
  · rw [if_pos (hiff.mpr h), if_pos h, List.map_map]
    apply List.map_congr_left
    intro p _
    by_cases hp : p.1 = k
    · simp [hp]
    · simp [hp]
  · rw [if_neg (fun h2 => h (hiff.mp h2)), if_neg h, List.map_append]
    rfl

theorem tm_keys_nodup_assign (m : TimestampMap) (k : String) (t : NoteTimestamp)
    (h : (m.map Prod.fst).Nodup) : ((TimestampMap.assign m k t).map Prod.fst).Nodup := by
  rw [tm_keys_assign]
  split
  · exact h
  · next hk =>
    rw [List.nodup_append]
    refine ⟨h, List.nodup_singleton k, ?_⟩
    intro a ha hb
    rw [List.mem_singleton] at hb
    exact hk (hb ▸ ha)

theorem tm_foldl_keys_nodup (notes : List Note) (m : TimestampMap)
    (h : (m.map Prod.fst).Nodup) :
    ((notes.foldl (fun m n => TimestampMap.assign m n.uuid n.modified) m).map Prod.fst).Nodup := by
  induction notes generalizing m with
  | nil => exact h
  | cons a notes ih => exact ih _ (tm_keys_nodup_assign m a.uuid a.modified h)

theorem tm_foldl_find_other (notes : List Note) (m : TimestampMap) (u : String)
    (h : ∀ n ∈ notes, n.uuid ≠ u) :
    TimestampMap.find (notes.foldl (fun m n => TimestampMap.assign m n.uuid n.modified) m) u =
      TimestampMap.find m u := by
  induction notes generalizing m with
  | nil => rfl
  | cons a notes ih =>
    rw [List.foldl_cons, ih _ (fun n hn => h n (List.mem_cons_of_mem _ hn))]
    exact tm_find_assign_ne m a.uuid a.modified u (fun e => h a (List.mem_cons_self _ _) e.symm)

theorem tm_foldl_find_mem (notes : List Note) (m : TimestampMap) (r : Note)
    (hr : r ∈ notes) (hnd : (notes.map Note.uuid).Nodup) :
    TimestampMap.find (notes.foldl (fun m n => TimestampMap.assign m n.uuid n.modified) m) r.uuid =
      some r.modified := by
  induction notes generalizing m with
  | nil => simp at hr
  | cons a notes ih =>
    rw [List.map_cons, List.nodup_cons] at hnd
    rw [List.foldl_cons]
    rcases List.mem_cons.mp hr with rfl | hmem
    · rw [tm_foldl_find_other notes _ r.uuid]
      · exact tm_find_assign_self m r.uuid r.modified
      · intro n hn e
        exact hnd.1 (e ▸ List.mem_map_of_mem Note.uuid hn)
    · exact ih _ hmem hnd.2

theorem tm_find_mem (m : TimestampMap) (u : String) (t : NoteTimestamp)
    (h : TimestampMap.find m u = some t) : (u, t) ∈ m := by
  unfold TimestampMap.find at h
  rw [Option.map_eq_some'] at h
  obtain ⟨p, hp, rfl⟩ := h
  have h1 := List.mem_of_find?_eq_some hp
  have h2 := List.find?_some hp
  have h3 : p.1 = u := by simpa using h2
  rw [← h3]
  exact h1

theorem find_timestampsOf_mem (notes : List Note) (r : Note) (hr : r ∈ notes)
    (hnd : (notes.map Note.uuid).Nodup) :
    TimestampMap.find (timestampsOf notes) r.uuid = some r.modified :=
  tm_foldl_find_mem notes [] r hr hnd

theorem find_timestampsOf_none (notes : List Note) (u : String)
    (h : ∀ n ∈ notes, n.uuid ≠ u) : TimestampMap.find (timestampsOf notes) u = none := by
  unfold timestampsOf
  rw [tm_foldl_find_other notes [] u h]
  rfl

theorem timestampsOf_keys_nodup (notes : List Note) :
    ((timestampsOf notes).map Prod.fst).Nodup :=
  tm_foldl_keys_nodup notes [] List.nodup_nil

theorem getNote_eq_none_iff (s : NoteStore) (u : String) :
    NoteStore.getNote s u = none ↔ ∀ n ∈ s, n.uuid ≠ u := by
  unfold NoteStore.getNote
  rw [List.find?_eq_none]
  simp

theorem getNote_of_mem (s : NoteStore) (r : Note) (hr : r ∈ s)
    (hnd : (s.map Note.uuid).Nodup) : NoteStore.getNote s r.uuid = some r := by
  unfold NoteStore.getNote
  induction s with
  | nil => simp at hr
  | cons a s ih =>
    rw [List.map_cons, List.nodup_cons] at hnd
    rw [List.find?_cons]
    rcases List.mem_cons.mp hr with rfl | hmem
    · simp
    · have hne : (a.uuid == r.uuid) = false := by
        have : a.uuid ≠ r.uuid := fun e => hnd.1 (e ▸ List.mem_map_of_mem Note.uuid hmem)
        simpa using this
      rw [hne]
      exact ih hmem hnd.2

theorem getNote_mem (s : NoteStore) (u : String) (n : Note)
    (h : NoteStore.getNote s u = some n) : n ∈ s ∧ n.uuid = u := by
  unfold NoteStore.getNote at h
  exact ⟨List.mem_of_find?_eq_some h, by simpa using List.find?_some h⟩

/-! ## Lemmas: the orchestrator -/

section orchestrator
variable {ρ : Type}

@[simp] theorem emit_trace (w : SyncWorld ρ) (evs : List Event) :
    (w.emit evs).trace = w.trace ++ evs := rfl

@[simp] theorem emit_note_store (w : SyncWorld ρ) (evs : List Event) :
    (w.emit evs).note_store_ = w.note_store_ := rfl

@[simp] theorem emit_webdav_storage (w : SyncWorld ρ) (evs : List Event) :
    (w.emit evs).webdav_storage_ = w.webdav_storage_ := rfl

@[simp] theorem emit_remote (w : SyncWorld ρ) (evs : List Event) :
    (w.emit evs).remote = w.remote := rfl

@[simp] theorem afterRemoteCall_trace (w : SyncWorld ρ) (s : ρ) (reqs : List Request) :
    (w.afterRemoteCall s reqs).trace = w.trace ++ reqs.map Event.request := rfl

@[simp] theorem afterRemoteCall_note_store (w : SyncWorld ρ) (s : ρ) (reqs : List Request) :
    (w.afterRemoteCall s reqs).note_store_ = w.note_store_ := rfl

@[simp] theorem afterRemoteCall_webdav_storage (w : SyncWorld ρ) (s : ρ)
    (reqs : List Request) :
    (w.afterRemoteCall s reqs).webdav_storage_ = w.webdav_storage_ := rfl

@[simp] theorem afterRemoteCall_remote (w : SyncWorld ρ) (s : ρ) (reqs : List Request) :
    (w.afterRemoteCall s reqs).remote = s := rfl

/-- A configuration refresh touches neither the collection, the remote side nor
the trace. -/
theorem refresh_frame (w : SyncWorld ρ) :
    (refreshConfigurationFromAppState w).note_store_ = w.note_store_ ∧
    (refreshConfigurationFromAppState w).remote = w.remote ∧
    (refreshConfigurationFromAppState w).trace = w.trace ∧
    (refreshConfigurationFromAppState w).appState = w.appState ∧
    (refreshConfigurationFromAppState w).currentDateTime = w.currentDateTime := by
  unfold refreshConfigurationFromAppState syncStop
  dsimp only
  split_ifs <;> exact ⟨rfl, rfl, rfl, rfl, rfl⟩

/-- After a refresh the cached flag is the configured one. -/
theorem refresh_enabled_eq (w : SyncWorld ρ) :
    (refreshConfigurationFromAppState w).enabled_ = w.appState.webdav_enabled_ := by
  unfold refreshConfigurationFromAppState syncStop
  dsimp only
  split_ifs <;> rfl

/-- With sync enabled in the configuration, a refresh leaves a remote client. -/
theorem refresh_client_of_enabled (w : SyncWorld ρ) (h : w.appState.webdav_enabled_ = true) :
    ∃ c, (refreshConfigurationFromAppState w).webdav_storage_ = some c := by
  unfold refreshConfigurationFromAppState syncStop
  dsimp only
  rw [if_neg (by simp [h])]
  cases hs : w.webdav_storage_ with
  | none => split_ifs <;> first | exact ⟨_, rfl⟩ | simp_all
  | some c => split_ifs <;> exact ⟨_, rfl⟩

/-- What `getRemoteNoteTimestamps` returns when a client is held. -/
theorem getRemoteNoteTimestamps_some (env : Env ρ) (w : SyncWorld ρ) (c : WebDAVStorage)
    (hc : w.webdav_storage_ = some c) :
    getRemoteNoteTimestamps env w =
      ((match (c.readAllNotes env w.remote).1 with
        | .success notes => timestampsOf notes
        | .failure _ => []),
       w.afterRemoteCall (c.readAllNotes env w.remote).2.1 (c.readAllNotes env w.remote).2.2) := by
  unfold getRemoteNoteTimestamps
  rw [hc]
  dsimp only
  cases (c.readAllNotes env w.remote).1 <;> rfl

theorem getRemoteNoteTimestamps_note_store (env : Env ρ) (w : SyncWorld ρ) :
    (getRemoteNoteTimestamps env w).2.note_store_ = w.note_store_ := by
  unfold getRemoteNoteTimestamps
  cases w.webdav_storage_ with
  | none => rfl
  | some c =>
    dsimp only
    cases (c.readAllNotes env w.remote).1 <;> rfl

theorem getRemoteNoteTimestamps_webdav_storage (env : Env ρ) (w : SyncWorld ρ) :
    (getRemoteNoteTimestamps env w).2.webdav_storage_ = w.webdav_storage_ := by
  unfold getRemoteNoteTimestamps
  cases h : w.webdav_storage_ with
  | none => exact h
  | some c =>
    dsimp only
    cases (c.readAllNotes env w.remote).1 <;> exact h

/-! ### The download loop -/

/-- A found note carries the uuid it was looked up by. -/
theorem uuid_of_find (rl : List Note) (u : String) (note : Note)
    (h : rl.find? (fun n => n.uuid == u) = some note) : note.uuid = u := by
  simpa using List.find?_some h

theorem downloadStep_getNote_other (lts : TimestampMap) (rl : List Note) (w : SyncWorld ρ)
    (e : String × NoteTimestamp) (u : String) (hu : e.1 ≠ u) :
    (downloadStep lts rl w e).note_store_.getNote u = w.note_store_.getNote u := by
  unfold downloadStep
  dsimp only
  split
  · split
    · next note hf =>
      rw [emit_note_store]
      exact getNote_addNote_ne _ _ _ (fun h => hu ((uuid_of_find rl e.1 note hf).symm ▸ h.symm))
    · rfl
  · split
    · split
      · next note hf =>
        rw [emit_note_store]
        exact getNote_updateNote_ne _ _ _
          (fun h => hu ((uuid_of_find rl e.1 note hf).symm ▸ h.symm))
      · rfl
    · rfl

theorem downloadStep_trace (lts : TimestampMap) (rl : List Note) (w : SyncWorld ρ)
    (e : String × NoteTimestamp) : w.trace <+: (downloadStep lts rl w e).trace := by
  unfold downloadStep
  dsimp only
  split
  · split
    · exact List.prefix_append _ _
    · exact List.prefix_refl _
  · split
    · split
      · exact List.prefix_append _ _
      · exact List.prefix_refl _
    · exact List.prefix_refl _

theorem foldl_downloadStep_getNote_other (lts : TimestampMap) (rl : List Note)
    (m : TimestampMap) (w : SyncWorld ρ) (u : String) (h : ∀ e ∈ m, e.1 ≠ u) :
    (m.foldl (downloadStep lts rl) w).note_store_.getNote u = w.note_store_.getNote u := by
  induction m generalizing w with
  | nil => rfl
  | cons e m ih =>
    rw [List.foldl_cons, ih _ (fun x hx => h x (List.mem_cons_of_mem _ hx))]
    exact downloadStep_getNote_other lts rl w e u (h e (List.mem_cons_self _ _))

theorem foldl_downloadStep_trace (lts : TimestampMap) (rl : List Note)
    (m : TimestampMap) (w : SyncWorld ρ) :
    w.trace <+: (m.foldl (downloadStep lts rl) w).trace := by
  induction m generalizing w with
  | nil => exact List.prefix_refl _
  | cons e m ih =>
    rw [List.foldl_cons]
    exact (downloadStep_trace lts rl w e).trans (ih _)

/-- The round of the download loop for a uuid pulls the remote note when the
collection has no note of that uuid, or one older by more than three seconds. -/
theorem downloadStep_pull (lts : TimestampMap) (rl : List Note) (w : SyncWorld ρ)
    (u : String) (t : NoteTimestamp) (note : Note)
    (hfind : rl.find? (fun n => n.uuid == u) = some note)
    (hloc : lts.find u = none ∨
      ∃ lt, lts.find u = some lt ∧ t > lt + seconds 3 ∧ w.note_store_.getNote u ≠ none) :
    (downloadStep lts rl w (u, t)).note_store_.getNote u = some note ∧
    (downloadStep lts rl w (u, t)).trace =
      w.trace ++ [.storageWrite note, .noteDownloaded note] := by
  have hu := uuid_of_find rl u note hfind
  unfold downloadStep
  dsimp only
  rcases hloc with hnone | ⟨lt, hlt, hgt, hpres⟩
  · rw [hnone, hfind]
    dsimp only
    refine ⟨?_, rfl⟩
    rw [emit_note_store, ← hu]
    exact getNote_addNote_self _ _
  · rw [hlt]
    dsimp only
    rw [if_pos hgt, hfind]
    dsimp only
    refine ⟨?_, rfl⟩
    rw [emit_note_store, ← hu]
    exact getNote_updateNote_self _ _ (hu ▸ hpres)

/-- The download loop over timestamps without repeated keys: an entry whose round
pulls leaves the remote note in the collection and a storage write in the trace. -/
theorem foldl_downloadStep_pull (lts : TimestampMap) (rl : List Note) (m : TimestampMap)
    (w : SyncWorld ρ) (u : String) (t : NoteTimestamp) (note : Note)
    (hnd : (m.map Prod.fst).Nodup) (hmem : (u, t) ∈ m)
    (hfind : rl.find? (fun n => n.uuid == u) = some note)
    (hloc : lts.find u = none ∨
      ∃ lt, lts.find u = some lt ∧ t > lt + seconds 3 ∧ w.note_store_.getNote u ≠ none) :
    (m.foldl (downloadStep lts rl) w).note_store_.getNote u = some note ∧
    ∃ a b, (m.foldl (downloadStep lts rl) w).trace =
      w.trace ++ a ++ [.storageWrite note, .noteDownloaded note] ++ b := by
  induction m generalizing w with
  | nil => simp at hmem
  | cons e m ih =>
    rw [List.map_cons, List.nodup_cons] at hnd
    rw [List.foldl_cons]
    rcases List.mem_cons.mp hmem with rfl | hm
    · have hstep := downloadStep_pull lts rl w u t note hfind hloc
      have hother : ∀ x ∈ m, x.1 ≠ u := by
        intro x hx heq
        apply hnd.1
        show u ∈ m.map Prod.fst
        rw [← heq]
        exact List.mem_map_of_mem Prod.fst hx
      refine ⟨?_, ?_⟩
      · rw [foldl_downloadStep_getNote_other lts rl m _ u hother]
        exact hstep.1
      · obtain ⟨b, hb⟩ := foldl_downloadStep_trace lts rl m (downloadStep lts rl w (u, t))
        refine ⟨[], b, ?_⟩
        rw [← hb, hstep.2, List.append_nil]
    · have hne : e.1 ≠ u := by
        intro heq
        apply hnd.1
        rw [heq]
        exact List.mem_map_of_mem Prod.fst hm
      have hloc2 : lts.find u = none ∨ ∃ lt, lts.find u = some lt ∧ t > lt + seconds 3 ∧
          (downloadStep lts rl w e).note_store_.getNote u ≠ none := by
        rcases hloc with h1 | ⟨lt, h1, h2, h3⟩
        · exact Or.inl h1
        · exact Or.inr ⟨lt, h1, h2, by rw [downloadStep_getNote_other lts rl w e u hne]; exact h3⟩
      obtain ⟨h1, a, b, h2⟩ := ih (downloadStep lts rl w e) hnd.2 hm hloc2
      refine ⟨h1, ?_⟩
      obtain ⟨a0, ha0⟩ := downloadStep_trace lts rl w e
      refine ⟨a0 ++ a, b, ?_⟩
      rw [h2, ← ha0]
      simp only [List.append_assoc]

/-! ### The upload loop -/

theorem uploadNote_note_store (env : Env ρ) (w : SyncWorld ρ) (note : Note) :
    (uploadNote env w note).note_store_ = w.note_store_ := by
  unfold uploadNote
  cases w.webdav_storage_ with
  | none => rfl
  | some c =>
    dsimp only
    split <;> rfl

theorem uploadNote_trace (env : Env ρ) (w : SyncWorld ρ) (note : Note) :
    w.trace <+: (uploadNote env w note).trace := by
  unfold uploadNote
  cases w.webdav_storage_ with
  | none => exact List.prefix_refl _
  | some c =>
    dsimp only
    split
    · rw [emit_trace, afterRemoteCall_trace, List.append_assoc]
      exact List.prefix_append _ _
    · exact List.prefix_append _ _

theorem uploadStep_note_store (env : Env ρ) (rts : TimestampMap) (w : SyncWorld ρ)
    (note : Note) : (uploadStep env rts w note).note_store_ = w.note_store_ := by
  unfold uploadStep
  split
  · exact uploadNote_note_store env w note
  · dsimp only
    split_ifs
    · exact uploadNote_note_store env w note
    · rfl
    · rfl

theorem uploadStep_trace (env : Env ρ) (rts : TimestampMap) (w : SyncWorld ρ)
    (note : Note) : w.trace <+: (uploadStep env rts w note).trace := by
  unfold uploadStep
  split
  · exact uploadNote_trace env w note
  · dsimp only
    split_ifs
    · exact uploadNote_trace env w note
    · exact List.prefix_refl _
    · exact List.prefix_refl _

theorem foldl_uploadStep_note_store (env : Env ρ) (rts : TimestampMap) (ns : List Note)
    (w : SyncWorld ρ) : (ns.foldl (uploadStep env rts) w).note_store_ = w.note_store_ := by
  induction ns generalizing w with
  | nil => rfl
  | cons n ns ih => rw [List.foldl_cons, ih, uploadStep_note_store]

theorem foldl_uploadStep_trace (env : Env ρ) (rts : TimestampMap) (ns : List Note)
    (w : SyncWorld ρ) : w.trace <+: (ns.foldl (uploadStep env rts) w).trace := by
  induction ns generalizing w with
  | nil => exact List.prefix_refl _
  | cons n ns ih =>
    rw [List.foldl_cons]
    exact (uploadStep_trace env rts w n).trans (ih _)

theorem getRemoteNoteTimestamps_trace (env : Env ρ) (w : SyncWorld ρ) :
    w.trace <+: (getRemoteNoteTimestamps env w).2.trace := by
  unfold getRemoteNoteTimestamps
  cases w.webdav_storage_ with
  | none => exact List.prefix_refl _
  | some c =>
    dsimp only
    cases (c.readAllNotes env w.remote).1 <;> exact List.prefix_append _ _

/-- The upload phase leaves the note collection as it is. -/
theorem uploadChangedNotes_note_store (env : Env ρ) (w : SyncWorld ρ) :
    (uploadChangedNotes env w).note_store_ = w.note_store_ := by
  unfold uploadChangedNotes
  dsimp only
  rw [foldl_uploadStep_note_store, getRemoteNoteTimestamps_note_store]

theorem uploadChangedNotes_trace (env : Env ρ) (w : SyncWorld ρ) :
    w.trace <+: (uploadChangedNotes env w).trace := by
  unfold uploadChangedNotes
  dsimp only
  exact (getRemoteNoteTimestamps_trace env w).trans (foldl_uploadStep_trace env _ _ _)

end orchestrator

/-! ## Lemmas: requests, urls and the events of the two loops -/

section events
variable {ρ : Type}

theorem string_append_right_cancel (a b t : String) (h : a ++ t = b ++ t) : a = b := by
  have h2 := congrArg String.data h
  rw [String.data_append, String.data_append] at h2
  exact String.ext (List.append_cancel_right h2)

theorem string_append_left_cancel (s a b : String) (h : s ++ a = s ++ b) : a = b := by
  have h2 := congrArg String.data h
  rw [String.data_append, String.data_append] at h2
  exact String.ext (List.append_cancel_left h2)

/-- Two uuids with the same note url are equal. -/
theorem buildUrl_json_inj (c : WebDAVStorage) (a b : String)
    (h : c.buildUrl (a ++ ".json") = c.buildUrl (b ++ ".json")) : a = b := by
  unfold WebDAVStorage.buildUrl at h
  exact string_append_right_cancel a b ".json" (string_append_left_cancel _ _ _ h)

theorem putRequest_url (env : Env ρ) (c : WebDAVStorage) (n : Note) :
    (c.putRequest env n).url = c.buildUrl (n.uuid ++ ".json") := rfl

theorem putRequest_method (env : Env ρ) (c : WebDAVStorage) (n : Note) :
    (c.putRequest env n).method = "PUT" := rfl

theorem writeNote_requests (env : Env ρ) (c : WebDAVStorage) (n : Note) (s : ρ) :
    (c.writeNote env n s).2.2 = [c.putRequest env n] := by
  unfold WebDAVStorage.writeNote
  dsimp only
  split <;> rfl

theorem sendRequest_methods (env : Env ρ) (c : WebDAVStorage) (s : ρ)
    (url method body : String) :
    ∀ q ∈ (c.sendRequest env s url method body).2.2, q.method = method := by
  unfold WebDAVStorage.sendRequest
  dsimp only
  intro q hq
  split_ifs at hq <;> simp at hq <;> rw [hq]

theorem readAllNotesLoop_methods (env : Env ρ) (c : WebDAVStorage) (fuel : Nat)
    (rest : List Char) (s : ρ) :
    ∀ q ∈ (readAllNotesLoop env c fuel rest s).2.2, q.method = "GET" := by
  induction fuel generalizing rest s with
  | zero => intro q hq; simp [readAllNotesLoop] at hq
  | succ fuel ih =>
    intro q hq
    unfold readAllNotesLoop at hq
    split at hq
    · simp at hq
    · split at hq
      · simp at hq
      · split at hq
        · exact ih _ _ q hq
        · dsimp only at hq
          split_ifs at hq
          all_goals
            dsimp only at hq
            rcases List.mem_append.mp hq with h1 | h1
            · exact sendRequest_methods env c _ _ _ _ q h1
            · exact ih _ _ q h1

/-- A listing sends only PROPFIND and GET requests. -/
theorem readAllNotes_methods (env : Env ρ) (c : WebDAVStorage) (s : ρ) :
    ∀ q ∈ (c.readAllNotes env s).2.2, q.method = "PROPFIND" ∨ q.method = "GET" := by
  unfold WebDAVStorage.readAllNotes
  dsimp only
  intro q hq
  split_ifs at hq
  · exact Or.inl (sendRequest_methods env c _ _ _ _ q hq)
  · dsimp only at hq
    rcases List.mem_append.mp hq with h1 | h1
    · exact Or.inl (sendRequest_methods env c _ _ _ _ q h1)
    · exact Or.inr (readAllNotesLoop_methods env c _ _ _ q h1)

/-! ### Upload -/

theorem uploadStep_eq (env : Env ρ) (rts : TimestampMap) (w : SyncWorld ρ) (n : Note) :
    uploadStep env rts w n = if needsUpload rts n = true then uploadNote env w n else w := by
  unfold uploadStep needsUpload
  cases rts.find n.uuid with
  | none => simp
  | some rt =>
    dsimp only
    by_cases h : n.modified > rt + seconds 0
    · simp [h]
    · simp [h]

theorem uploadNote_webdav_storage (env : Env ρ) (w : SyncWorld ρ) (note : Note) :
    (uploadNote env w note).webdav_storage_ = w.webdav_storage_ := by
  unfold uploadNote
  cases h : w.webdav_storage_ with
  | none => exact h
  | some c =>
    dsimp only
    split <;> exact h

/-- The events of one `uploadNote`: the PUT, and `noteUploaded` when it succeeded. -/
theorem uploadNote_events (env : Env ρ) (w : SyncWorld ρ) (c : WebDAVStorage) (n : Note)
    (hc : w.webdav_storage_ = some c) :
    (uploadNote env w n).trace = w.trace ++ [Event.request (c.putRequest env n)] ∨
    (uploadNote env w n).trace = w.trace ++
      [Event.request (c.putRequest env n), .noteUploaded (w.note_store_.getNote n.uuid)] := by
  unfold uploadNote
  rw [hc]
  dsimp only
  split
  · right
    rw [emit_trace, afterRemoteCall_trace, writeNote_requests, afterRemoteCall_note_store,
      List.append_assoc]
    rfl
  · left
    rw [afterRemoteCall_trace, writeNote_requests]
    rfl

/-- The events of the upload loop: every event is the PUT or the `noteUploaded`
of a note of the loop that needs an upload, and every such note has its PUT. -/
theorem foldl_uploadStep_events (env : Env ρ) (rts : TimestampMap) (ns : List Note)
    (w : SyncWorld ρ) (c : WebDAVStorage) (hc : w.webdav_storage_ = some c) :
    ∃ evs, (ns.foldl (uploadStep env rts) w).trace = w.trace ++ evs ∧
      (∀ e ∈ evs, ∃ n ∈ ns, needsUpload rts n = true ∧
        (e = .request (c.putRequest env n) ∨
          e = .noteUploaded (w.note_store_.getNote n.uuid))) ∧
      (∀ n ∈ ns, needsUpload rts n = true → Event.request (c.putRequest env n) ∈ evs) := by
  induction ns generalizing w with
  | nil => exact ⟨[], by simp, by simp, by simp⟩
  | cons a ns ih =>
    rw [List.foldl_cons]
    by_cases ha : needsUpload rts a = true
    · have hstep : uploadStep env rts w a = uploadNote env w a := by
        rw [uploadStep_eq, if_pos ha]
      rw [hstep]
      obtain ⟨evs, h1, h2, h3⟩ := ih (uploadNote env w a)
        (by rw [uploadNote_webdav_storage]; exact hc)
      rw [uploadNote_note_store] at h2
      have key : ∃ first, (uploadNote env w a).trace = w.trace ++ first ∧
          Event.request (c.putRequest env a) ∈ first ∧
          ∀ e ∈ first, e = .request (c.putRequest env a) ∨
            e = .noteUploaded (w.note_store_.getNote a.uuid) := by
        rcases uploadNote_events env w c a hc with h | h
        · exact ⟨_, h, by simp, by simp⟩
        · exact ⟨_, h, by simp, by simp⟩
      obtain ⟨first, hf1, hf2, hf3⟩ := key
      refine ⟨first ++ evs, ?_, ?_, ?_⟩
      · rw [h1, hf1, List.append_assoc]
      · intro e he
        rcases List.mem_append.mp he with h | h
        · exact ⟨a, List.mem_cons_self _ _, ha, hf3 e h⟩
        · obtain ⟨n, hn, hnu, hne⟩ := h2 e h
          exact ⟨n, List.mem_cons_of_mem _ hn, hnu, hne⟩
      · intro n hn hnu
        rcases List.mem_cons.mp hn with rfl | hmem
        · exact List.mem_append_left _ hf2
        · exact List.mem_append_right _ (h3 n hmem hnu)
    · have hstep : uploadStep env rts w a = w := by
        rw [uploadStep_eq, if_neg ha]
      rw [hstep]
      obtain ⟨evs, h1, h2, h3⟩ := ih w hc
      refine ⟨evs, h1, ?_, ?_⟩
      · intro e he
        obtain ⟨n, hn, hnu, hne⟩ := h2 e he
        exact ⟨n, List.mem_cons_of_mem _ hn, hnu, hne⟩
      · intro n hn hnu
        rcases List.mem_cons.mp hn with rfl | hmem
        · exact absurd hnu ha
        · exact h3 n hmem hnu

/-- The events of the upload phase: the requests of its listing, then the events
of the loop over the collection. -/
theorem uploadChangedNotes_events (env : Env ρ) (w : SyncWorld ρ) (c : WebDAVStorage)
    (hc : w.webdav_storage_ = some c) :
    ∃ evs, (uploadChangedNotes env w).trace =
        w.trace ++ (c.readAllNotes env w.remote).2.2.map Event.request ++ evs ∧
      (∀ e ∈ evs, ∃ n ∈ w.note_store_,
        needsUpload (getRemoteNoteTimestamps env w).1 n = true ∧
        (e = .request (c.putRequest env n) ∨
          e = .noteUploaded (w.note_store_.getNote n.uuid))) ∧
      (∀ n ∈ w.note_store_, needsUpload (getRemoteNoteTimestamps env w).1 n = true →
        Event.request (c.putRequest env n) ∈ evs) := by
  unfold uploadChangedNotes
  dsimp only
  obtain ⟨evs, h1, h2, h3⟩ := foldl_uploadStep_events env (getRemoteNoteTimestamps env w).1
    (getRemoteNoteTimestamps env w).2.note_store_.getAllNotes (getRemoteNoteTimestamps env w).2 c
    (by rw [getRemoteNoteTimestamps_webdav_storage]; exact hc)
  rw [getRemoteNoteTimestamps_note_store] at h2 h3
  refine ⟨evs, ?_, h2, h3⟩
  rw [h1, getRemoteNoteTimestamps_some env w c hc]
  rfl

end events

/-! ### Download -/

section download
variable {ρ : Type}

theorem downloadStep_of_not_pulls (lts : TimestampMap) (rl : List Note) (w : SyncWorld ρ)
    (e : String × NoteTimestamp) (h : pulls lts e = false) : downloadStep lts rl w e = w := by
  unfold pulls at h
  unfold downloadStep
  dsimp only
  cases hf : lts.find e.1 with
  | none => rw [hf] at h; simp at h
  | some lt =>
    rw [hf] at h
    dsimp only at h ⊢
    rw [if_neg (by simpa using h)]

/-- The events of one round of the download loop: none, or the storage write and
the `noteDownloaded` of the first listed note of the uuid, when the round pulls. -/
theorem downloadStep_events (lts : TimestampMap) (rl : List Note) (w : SyncWorld ρ)
    (e : String × NoteTimestamp) :
    ∃ evs, (downloadStep lts rl w e).trace = w.trace ++ evs ∧
      ∀ ev ∈ evs, pulls lts e = true ∧ ∃ note, rl.find? (fun n => n.uuid == e.1) = some note ∧
        (ev = .storageWrite note ∨ ev = .noteDownloaded note) := by
  by_cases hp : pulls lts e = true
  · unfold downloadStep
    dsimp only
    split
    · split
      · next note hf =>
        exact ⟨_, rfl, fun ev hev => ⟨hp, note, hf, by simpa using hev⟩⟩
      · exact ⟨[], by simp, by simp⟩
    · split
      · split
        · next note hf =>
          exact ⟨_, rfl, fun ev hev => ⟨hp, note, hf, by simpa using hev⟩⟩
        · exact ⟨[], by simp, by simp⟩
      · exact ⟨[], by simp, by simp⟩
  · rw [downloadStep_of_not_pulls lts rl w e (by simpa using hp)]
    exact ⟨[], by simp, by simp⟩

theorem foldl_downloadStep_events (lts : TimestampMap) (rl : List Note) (m : TimestampMap)
    (w : SyncWorld ρ) :
    ∃ evs, (m.foldl (downloadStep lts rl) w).trace = w.trace ++ evs ∧
      ∀ ev ∈ evs, ∃ e ∈ m, pulls lts e = true ∧
        ∃ note, rl.find? (fun n => n.uuid == e.1) = some note ∧
          (ev = .storageWrite note ∨ ev = .noteDownloaded note) := by
  induction m generalizing w with
  | nil => exact ⟨[], by simp, by simp⟩
  | cons a m ih =>
    rw [List.foldl_cons]
    obtain ⟨e1, h1, h2⟩ := downloadStep_events lts rl w a
    obtain ⟨e2, h3, h4⟩ := ih (downloadStep lts rl w a)
    refine ⟨e1 ++ e2, by rw [h3, h1, List.append_assoc], ?_⟩
    intro ev hev
    rcases List.mem_append.mp hev with h | h
    · obtain ⟨hp, note, hf, hev2⟩ := h2 ev h
      exact ⟨a, List.mem_cons_self _ _, hp, note, hf, hev2⟩
    · obtain ⟨e, he, hp, note, hf, hev2⟩ := h4 ev h
      exact ⟨e, List.mem_cons_of_mem _ he, hp, note, hf, hev2⟩

/-- The download loop leaves the note of a uuid alone when no round for that uuid
pulls. -/
theorem foldl_downloadStep_getNote_keep (lts : TimestampMap) (rl : List Note)
    (m : TimestampMap) (w : SyncWorld ρ) (u : String)
    (h : ∀ e ∈ m, e.1 = u → pulls lts e = false) :
    (m.foldl (downloadStep lts rl) w).note_store_.getNote u = w.note_store_.getNote u := by
  induction m generalizing w with
  | nil => rfl
  | cons a m ih =>
    rw [List.foldl_cons, ih _ (fun x hx => h x (List.mem_cons_of_mem _ hx))]
    by_cases hau : a.1 = u
    · rw [downloadStep_of_not_pulls lts rl w a (h a (List.mem_cons_self _ _) hau)]
    · exact downloadStep_getNote_other lts rl w a u hau

theorem downloadStep_frame (lts : TimestampMap) (rl : List Note) (w : SyncWorld ρ)
    (e : String × NoteTimestamp) :
    (downloadStep lts rl w e).webdav_storage_ = w.webdav_storage_ ∧
    (downloadStep lts rl w e).remote = w.remote := by
  unfold downloadStep
  dsimp only
  split
  · split <;> exact ⟨rfl, rfl⟩
  · split
    · split <;> exact ⟨rfl, rfl⟩
    · exact ⟨rfl, rfl⟩

theorem foldl_downloadStep_frame (lts : TimestampMap) (rl : List Note) (m : TimestampMap)
    (w : SyncWorld ρ) :
    (m.foldl (downloadStep lts rl) w).webdav_storage_ = w.webdav_storage_ ∧
    (m.foldl (downloadStep lts rl) w).remote = w.remote := by
  induction m generalizing w with
  | nil => exact ⟨rfl, rfl⟩
  | cons a m ih =>
    rw [List.foldl_cons]
    obtain ⟨h1, h2⟩ := ih (downloadStep lts rl w a)
    obtain ⟨h3, h4⟩ := downloadStep_frame lts rl w a
    exact ⟨h1.trans h3, h2.trans h4⟩

/-! ### Unique uuids in the collection -/

theorem uuids_replace (s : List Note) (note : Note) :
    (s.map (fun n => if n.uuid == note.uuid then note else n)).map Note.uuid =
      s.map Note.uuid := by
  rw [List.map_map]
  apply List.map_congr_left
  intro n _
  by_cases h : n.uuid = note.uuid
  · simp [h]
  · simp [h]

theorem any_uuid_iff (s : List Note) (u : String) :
    (s.any (fun n => n.uuid == u) = true) ↔ u ∈ s.map Note.uuid := by
  constructor
  · intro h
    obtain ⟨p, hp, hk⟩ := List.any_eq_true.mp h
    have hpk : p.uuid = u := by simpa using hk
    exact hpk ▸ List.mem_map_of_mem Note.uuid hp
  · intro h
    obtain ⟨p, hp, hpk⟩ := List.mem_map.mp h
    exact List.any_eq_true.mpr ⟨p, hp, by simpa using hpk⟩

/-- The method `addNote` keeps the uuids of the collection distinct. -/
theorem addNote_nodup (s : NoteStore) (note : Note) (h : (s.map Note.uuid).Nodup) :
    ((NoteStore.addNote s note).map Note.uuid).Nodup := by
  unfold NoteStore.addNote
  split
  · rw [uuids_replace]; exact h
  · next hk =>
    rw [List.map_append, List.nodup_append]
    refine ⟨h, List.nodup_singleton _, ?_⟩
    intro a ha hb
    rw [List.map_singleton, List.mem_singleton] at hb
    exact hk ((any_uuid_iff s note.uuid).mpr (hb ▸ ha))

/-- The method `updateNote` keeps the uuids of the collection distinct. -/
theorem updateNote_nodup (s : NoteStore) (note : Note) (h : (s.map Note.uuid).Nodup) :
    ((NoteStore.updateNote s note).map Note.uuid).Nodup := by
  unfold NoteStore.updateNote
  split
  · rw [uuids_replace]; exact h
  · exact h

theorem downloadStep_nodup (lts : TimestampMap) (rl : List Note) (w : SyncWorld ρ)
    (e : String × NoteTimestamp) (h : (w.note_store_.map Note.uuid).Nodup) :
    ((downloadStep lts rl w e).note_store_.map Note.uuid).Nodup := by
  unfold downloadStep
  dsimp only
  split
  · split
    · exact addNote_nodup _ _ h
    · exact h
  · split
    · split
      · exact updateNote_nodup _ _ h
      · exact h
    · exact h

theorem foldl_downloadStep_nodup (lts : TimestampMap) (rl : List Note) (m : TimestampMap)
    (w : SyncWorld ρ) (h : (w.note_store_.map Note.uuid).Nodup) :
    ((m.foldl (downloadStep lts rl) w).note_store_.map Note.uuid).Nodup := by
  induction m generalizing w with
  | nil => exact h
  | cons a m ih =>
    rw [List.foldl_cons]
    exact ih _ (downloadStep_nodup lts rl w a h)

/-- In a collection with distinct uuids a note is the one found under its uuid. -/
theorem eq_of_getNote (s : NoteStore) (n x : Note) (hnd : (s.map Note.uuid).Nodup)
    (hn : n ∈ s) (hx : NoteStore.getNote s n.uuid = some x) : n = x := by
  rw [getNote_of_mem s n hn hnd] at hx
  exact Option.some.inj hx

end download

/-! ## The phases of a pass -/

section pass
variable {ρ : Type}

/-- The pass of `performSync` when sync is enabled: the download phase, the
upload phase, the time stamp and `syncFinished(true)`. -/
theorem performSync_enabled (env : Env ρ) (w : SyncWorld ρ)
    (h : w.appState.webdav_enabled_ = true) :
    performSync env w =
      ({ uploadChangedNotes env (downloadPhase env w) with
          last_sync_time_ := (uploadChangedNotes env (downloadPhase env w)).currentDateTime
        }).emit [.syncFinished true] := by
  obtain ⟨c, hc⟩ := refresh_client_of_enabled w h
  unfold performSync downloadPhase
  dsimp only
  rw [if_neg (by rw [refresh_enabled_eq, h]; simp), hc]

/-- The collection after an enabled pass is the one the download phase leaves. -/
theorem performSync_note_store (env : Env ρ) (w : SyncWorld ρ)
    (h : w.appState.webdav_enabled_ = true) :
    (performSync env w).note_store_ = (downloadPhase env w).note_store_ := by
  rw [performSync_enabled env w h, emit_note_store]
  exact uploadChangedNotes_note_store env _

/-- The trace of an enabled pass: that of the download phase, then that of the
upload phase, then `syncFinished(true)`. -/
theorem performSync_trace (env : Env ρ) (w : SyncWorld ρ)
    (h : w.appState.webdav_enabled_ = true) :
    (performSync env w).trace =
      (uploadChangedNotes env (downloadPhase env w)).trace ++ [.syncFinished true] := by
  rw [performSync_enabled env w h, emit_trace]

/-- What `downloadMissingOrUpdatedNotes` does when a client is held. -/
theorem downloadMissingOrUpdatedNotes_some (env : Env ρ) (w : SyncWorld ρ)
    (c : WebDAVStorage) (m : TimestampMap) (hc : w.webdav_storage_ = some c) :
    downloadMissingOrUpdatedNotes env w m =
      m.foldl
        (downloadStep (timestampsOf w.note_store_)
          (listedNotes (c.readAllNotes env w.remote).1))
        (w.afterRemoteCall (c.readAllNotes env w.remote).2.1
          (c.readAllNotes env w.remote).2.2) := by
  unfold downloadMissingOrUpdatedNotes
  rw [hc]
  dsimp only
  cases (c.readAllNotes env w.remote).1 <;> rfl

theorem getRemoteNoteTimestamps_fst (env : Env ρ) (w : SyncWorld ρ) (c : WebDAVStorage)
    (hc : w.webdav_storage_ = some c) :
    (getRemoteNoteTimestamps env w).1 =
      timestampsOf (listedNotes (c.readAllNotes env w.remote).1) := by
  rw [getRemoteNoteTimestamps_some env w c hc]
  cases (c.readAllNotes env w.remote).1 <;> rfl

/-- The download phase of a pass run with `client`: the loop of `downloadStep`
over the timestamps of the first listing, looking notes up in the second, started
in a world that has the collection and the client of before and a trace extended
by `syncStarted` and the requests of the two listings. -/
theorem downloadPhase_loop (env : Env ρ) (w : SyncWorld ρ) (client : WebDAVStorage)
    (hclient : (refreshConfigurationFromAppState w).webdav_storage_ = some client) :
    ∃ w0 : SyncWorld ρ,
      downloadPhase env w =
        (timestampsOf (listedNotes (passListing1 env client w).1)).foldl
          (downloadStep (timestampsOf w.note_store_)
            (listedNotes (passListing2 env client w).1)) w0 ∧
      w0.note_store_ = w.note_store_ ∧
      w0.webdav_storage_ = some client ∧
      w0.remote = (passListing2 env client w).2.1 ∧
      w0.trace = w.trace ++ [.syncStarted] ++
        (passListing1 env client w).2.2.map Event.request ++
        (passListing2 env client w).2.2.map Event.request := by
  obtain ⟨hfs, hfr, hft, -, -⟩ := refresh_frame w
  have hc2 : ((refreshConfigurationFromAppState w).emit [.syncStarted]).webdav_storage_ =
      some client := by rw [emit_webdav_storage, hclient]
  unfold passListing2 passListing1
  refine ⟨(((refreshConfigurationFromAppState w).emit [.syncStarted]).afterRemoteCall
        (client.readAllNotes env w.remote).2.1
        (client.readAllNotes env w.remote).2.2).afterRemoteCall
      (client.readAllNotes env (client.readAllNotes env w.remote).2.1).2.1
      (client.readAllNotes env (client.readAllNotes env w.remote).2.1).2.2, ?_, ?_, ?_, ?_, ?_⟩
  · unfold downloadPhase
    dsimp only
    rw [getRemoteNoteTimestamps_fst env _ client hc2,
      getRemoteNoteTimestamps_some env _ client hc2]
    dsimp only
    rw [emit_remote, hfr]
    rw [downloadMissingOrUpdatedNotes_some env _ client _ (by
      rw [afterRemoteCall_webdav_storage]; exact hc2)]
    rw [afterRemoteCall_remote, afterRemoteCall_note_store, emit_note_store, hfs]
  · rw [afterRemoteCall_note_store, afterRemoteCall_note_store, emit_note_store, hfs]
  · rw [afterRemoteCall_webdav_storage, afterRemoteCall_webdav_storage]
    exact hc2
  · rfl
  · rw [afterRemoteCall_trace, afterRemoteCall_trace, emit_trace, hft]

/-- A note found in a list without repeated uuids is the first of its uuid. -/
theorem find_of_mem_nodup (rs : List Note) (r : Note) (hr : r ∈ rs)
    (hnd : (rs.map Note.uuid).Nodup) :
    rs.find? (fun n => n.uuid == r.uuid) = some r :=
  getNote_of_mem rs r hr hnd

/-- The download phase of an enabled pass whose two listings return `rs`: a
remote note that is new to the collection, or newer than the local one by more
than three seconds, is in the collection afterwards and was written to local
storage during the pass. -/
theorem performSync_pull (env : Env ρ) (w : SyncWorld ρ) (client : WebDAVStorage)
    (rs : List Note) (r : Note)
    (henabled : w.appState.webdav_enabled_ = true)
    (hclient : (refreshConfigurationFromAppState w).webdav_storage_ = some client)
    (hlist1 : (passListing1 env client w).1 = .success rs)
    (hlist2 : (passListing2 env client w).1 = .success rs)
    (hset : (rs.map Note.uuid).Nodup) (hr : r ∈ rs)
    (hloc : (timestampsOf w.note_store_).find r.uuid = none ∨
      ∃ lt, (timestampsOf w.note_store_).find r.uuid = some lt ∧ r.modified > lt + seconds 3 ∧
        w.note_store_.getNote r.uuid ≠ none) :
    (performSync env w).note_store_.getNote r.uuid = some r ∧
    Event.storageWrite r ∈ passEvents env w := by
  obtain ⟨w0, hphase, hstore, -, -, htrace⟩ := downloadPhase_loop env w client hclient
  rw [hlist1, hlist2] at hphase
  change downloadPhase env w =
    (timestampsOf rs).foldl (downloadStep (timestampsOf w.note_store_) rs) w0 at hphase
  have hentry : (r.uuid, r.modified) ∈ timestampsOf rs :=
    tm_find_mem _ _ _ (find_timestampsOf_mem rs r hr hset)
  obtain ⟨hget, a, b, htr⟩ := foldl_downloadStep_pull (timestampsOf w.note_store_) rs
    (timestampsOf rs) w0 r.uuid r.modified r (timestampsOf_keys_nodup rs) hentry
    (find_of_mem_nodup rs r hr hset) (by rw [hstore]; exact hloc)
  refine ⟨?_, ?_⟩
  · rw [performSync_note_store env w henabled, hphase]
    exact hget
  · unfold passEvents
    rw [performSync_trace env w henabled]
    obtain ⟨d, hd⟩ := uploadChangedNotes_trace env (downloadPhase env w)
    rw [← hd, hphase, htr, htrace]
    simp only [List.append_assoc, List.drop_left]
    simp

/-- The events of an enabled pass run with `client`: `syncStarted`, the requests
of the first two listings, the events of the download loop (each the storage
write or the `noteDownloaded` of a listed note whose round pulls), the requests of
the third listing, the events of the upload loop (each the PUT or the
`noteUploaded` of a note of the collection that needs an upload, every such note
having its PUT), and `syncFinished(true)`. -/
theorem passEvents_enabled (env : Env ρ) (w : SyncWorld ρ) (client : WebDAVStorage)
    (henabled : w.appState.webdav_enabled_ = true)
    (hclient : (refreshConfigurationFromAppState w).webdav_storage_ = some client) :
    ∃ devs uevs,
      passEvents env w = [.syncStarted] ++
        (passListing1 env client w).2.2.map Event.request ++
        (passListing2 env client w).2.2.map Event.request ++ devs ++
        (passListing3 env client w).2.2.map Event.request ++ uevs ++
        [.syncFinished true] ∧
      (∀ ev ∈ devs, ∃ e ∈ timestampsOf (listedNotes (passListing1 env client w).1),
        pulls (timestampsOf w.note_store_) e = true ∧
        ∃ note, (listedNotes (passListing2 env client w).1).find?
            (fun n => n.uuid == e.1) = some note ∧
          (ev = .storageWrite note ∨ ev = .noteDownloaded note)) ∧
      (∀ ev ∈ uevs, ∃ n ∈ (downloadPhase env w).note_store_,
        needsUpload (timestampsOf (listedNotes (passListing3 env client w).1)) n = true ∧
        (ev = .request (client.putRequest env n) ∨
          ev = .noteUploaded ((downloadPhase env w).note_store_.getNote n.uuid))) ∧
      (∀ n ∈ (downloadPhase env w).note_store_,
        needsUpload (timestampsOf (listedNotes (passListing3 env client w).1)) n = true →
        Event.request (client.putRequest env n) ∈ uevs) := by
  obtain ⟨w0, hphase, hstore, hst, hrem, htrace⟩ := downloadPhase_loop env w client hclient
  obtain ⟨devs, hd1, hd2⟩ := foldl_downloadStep_events (timestampsOf w.note_store_)
    (listedNotes (passListing2 env client w).1)
    (timestampsOf (listedNotes (passListing1 env client w).1)) w0
  obtain ⟨hf1, hf2⟩ := foldl_downloadStep_frame (timestampsOf w.note_store_)
    (listedNotes (passListing2 env client w).1)
    (timestampsOf (listedNotes (passListing1 env client w).1)) w0
  rw [← hphase] at hd1 hf1 hf2
  have hcD : (downloadPhase env w).webdav_storage_ = some client := hf1.trans hst
  have hrD : (downloadPhase env w).remote = (passListing2 env client w).2.1 := hf2.trans hrem
  obtain ⟨uevs, hu1, hu2, hu3⟩ := uploadChangedNotes_events env (downloadPhase env w) client hcD
  rw [getRemoteNoteTimestamps_fst env _ client hcD, hrD] at hu2 hu3
  rw [hrD] at hu1
  refine ⟨devs, uevs, ?_, hd2, hu2, hu3⟩
  unfold passEvents
  rw [performSync_trace env w henabled, hu1, hd1, htrace]
  unfold passListing3
  simp only [List.append_assoc, List.drop_left]

end pass

/-! ## Consequences for single events of a pass -/

section consequences
variable {ρ : Type}

/-- An entry of a timestamp map without repeated keys is what `find` returns. -/
theorem tm_find_of_mem (m : TimestampMap) (e : String × NoteTimestamp)
    (hnd : (m.map Prod.fst).Nodup) (he : e ∈ m) : TimestampMap.find m e.1 = some e.2 := by
  unfold TimestampMap.find
  induction m with
  | nil => simp at he
  | cons a m ih =>
    rw [List.map_cons, List.nodup_cons] at hnd
    rw [List.find?_cons]
    rcases List.mem_cons.mp he with rfl | hmem
    · simp
    · have hne : (a.1 == e.1) = false := by
        have : a.1 ≠ e.1 := by
          intro heq
          apply hnd.1
          rw [heq]
          exact List.mem_map_of_mem Prod.fst hmem
        simpa using this
      rw [hne]
      exact ih hnd.2 hmem

/-- The kinds of event an enabled pass emits. -/
theorem passEvents_cases (env : Env ρ) (w : SyncWorld ρ) (client : WebDAVStorage)
    (henabled : w.appState.webdav_enabled_ = true)
    (hclient : (refreshConfigurationFromAppState w).webdav_storage_ = some client)
    (ev : Event) (hev : ev ∈ passEvents env w) :
    ev = .syncStarted ∨ ev = .syncFinished true ∨
    (∃ q, ev = .request q ∧ (q.method = "PROPFIND" ∨ q.method = "GET")) ∨
    (∃ e ∈ timestampsOf (listedNotes (passListing1 env client w).1),
      pulls (timestampsOf w.note_store_) e = true ∧
      ∃ note, (listedNotes (passListing2 env client w).1).find?
          (fun n => n.uuid == e.1) = some note ∧
        (ev = .storageWrite note ∨ ev = .noteDownloaded note)) ∨
    (∃ n ∈ (downloadPhase env w).note_store_,
      needsUpload (timestampsOf (listedNotes (passListing3 env client w).1)) n = true ∧
      (ev = .request (client.putRequest env n) ∨
        ev = .noteUploaded ((downloadPhase env w).note_store_.getNote n.uuid))) := by
  obtain ⟨devs, uevs, heq, hd, hu, -⟩ := passEvents_enabled env w client henabled hclient
  have hlisting : ∀ s : ρ, ev ∈ (client.readAllNotes env s).2.2.map Event.request →
      ∃ q, ev = .request q ∧ (q.method = "PROPFIND" ∨ q.method = "GET") := by
    intro s hmem
    obtain ⟨q, hq, rfl⟩ := List.mem_map.mp hmem
    exact ⟨q, rfl, readAllNotes_methods env client s q hq⟩
  rw [heq] at hev
  rcases List.mem_append.mp hev with h6 | h6
  · rcases List.mem_append.mp h6 with h5 | h5
    · rcases List.mem_append.mp h5 with h4 | h4
      · rcases List.mem_append.mp h4 with h3 | h3
        · rcases List.mem_append.mp h3 with h2 | h2
          · rcases List.mem_append.mp h2 with h1 | h1
            · exact Or.inl (List.mem_singleton.mp h1)
            · exact Or.inr (Or.inr (Or.inl (hlisting _ h1)))
          · exact Or.inr (Or.inr (Or.inl (hlisting _ h2)))
        · exact Or.inr (Or.inr (Or.inr (Or.inl (hd ev h3))))
      · exact Or.inr (Or.inr (Or.inl (hlisting _ h4)))
    · exact Or.inr (Or.inr (Or.inr (Or.inr (hu ev h5))))
  · exact Or.inr (Or.inl (List.mem_singleton.mp h6))

/-- Every PUT of an enabled pass is the upload of a note of the collection, as the
download phase left it, that needs an upload against the third listing. -/
theorem put_of_passEvents (env : Env ρ) (w : SyncWorld ρ) (client : WebDAVStorage)
    (henabled : w.appState.webdav_enabled_ = true)
    (hclient : (refreshConfigurationFromAppState w).webdav_storage_ = some client)
    (q : Request) (hq : Event.request q ∈ passEvents env w) (hm : q.method = "PUT") :
    ∃ n ∈ (downloadPhase env w).note_store_,
      needsUpload (timestampsOf (listedNotes (passListing3 env client w).1)) n = true ∧
      q = client.putRequest env n := by
  rcases passEvents_cases env w client henabled hclient _ hq with
    h | h | ⟨q2, h, hq2⟩ | ⟨e, -, -, note, -, h⟩ | ⟨n, hn, hnu, h⟩
  · exact absurd h (by simp)
  · exact absurd h (by simp)
  · have hqq : q = q2 := Event.request.inj h
    rw [← hqq, hm] at hq2
    rcases hq2 with h2 | h2 <;> exact absurd h2 (by decide)
  · rcases h with h | h <;> exact absurd h (by simp)
  · rcases h with h | h
    · exact ⟨n, hn, hnu, Event.request.inj h⟩
    · exact absurd h (by simp)

/-- A note of the collection, as the download phase left it, that needs an upload
against the third listing has its PUT among the events of the pass. -/
theorem passEvents_of_needsUpload (env : Env ρ) (w : SyncWorld ρ) (client : WebDAVStorage)
    (henabled : w.appState.webdav_enabled_ = true)
    (hclient : (refreshConfigurationFromAppState w).webdav_storage_ = some client)
    (n : Note) (hn : n ∈ (downloadPhase env w).note_store_)
    (hnu : needsUpload (timestampsOf (listedNotes (passListing3 env client w).1)) n = true) :
    Event.request (client.putRequest env n) ∈ passEvents env w := by
  obtain ⟨devs, uevs, hev, -, -, hu⟩ := passEvents_enabled env w client henabled hclient
  rw [hev]
  simp only [List.mem_append]
  exact Or.inl (Or.inr (hu n hn hnu))

/-- Every write to local storage of an enabled pass is that of a note found in the
second listing under a uuid whose round of the download loop pulls. -/
theorem storageWrite_of_passEvents (env : Env ρ) (w : SyncWorld ρ) (client : WebDAVStorage)
    (henabled : w.appState.webdav_enabled_ = true)
    (hclient : (refreshConfigurationFromAppState w).webdav_storage_ = some client)
    (n : Note) (hn : Event.storageWrite n ∈ passEvents env w) :
    ∃ e ∈ timestampsOf (listedNotes (passListing1 env client w).1),
      pulls (timestampsOf w.note_store_) e = true ∧
      (listedNotes (passListing2 env client w).1).find? (fun x => x.uuid == e.1) = some n := by
  rcases passEvents_cases env w client henabled hclient _ hn with
    h | h | ⟨q2, h, -⟩ | ⟨e, he, hp, note, hf, h⟩ | ⟨x, -, -, h⟩
  · exact absurd h (by simp)
  · exact absurd h (by simp)
  · exact absurd h (by simp)
  · rcases h with h | h
    · have hnn : n = note := Event.storageWrite.inj h
      exact ⟨e, he, hp, hnn ▸ hf⟩
    · exact absurd h (by simp)
  · rcases h with h | h <;> exact absurd h (by simp)

/-- The note of a uuid after the download phase, when both listings return the
note set `rs` and the collection has distinct uuids: the remote note if it is
newer than the local one by more than three seconds, else the local one. -/
theorem downloadPhase_getNote (env : Env ρ) (w : SyncWorld ρ) (client : WebDAVStorage)
    (rs : List Note) (r l : Note)
    (hclient : (refreshConfigurationFromAppState w).webdav_storage_ = some client)
    (hlist1 : (passListing1 env client w).1 = .success rs)
    (hlist2 : (passListing2 env client w).1 = .success rs)
    (hset : (rs.map Note.uuid).Nodup) (hr : r ∈ rs)
    (hstore : (w.note_store_.map Note.uuid).Nodup) (hl : l ∈ w.note_store_)
    (huuid : l.uuid = r.uuid) :
    (downloadPhase env w).note_store_.getNote r.uuid =
      some (if r.modified > l.modified + seconds 3 then r else l) ∧
    ((downloadPhase env w).note_store_.map Note.uuid).Nodup := by
  obtain ⟨w0, hphase, hst, -, -, -⟩ := downloadPhase_loop env w client hclient
  rw [hlist1, hlist2] at hphase
  change downloadPhase env w =
    (timestampsOf rs).foldl (downloadStep (timestampsOf w.note_store_) rs) w0 at hphase
  have hfind : (timestampsOf w.note_store_).find r.uuid = some l.modified := by
    rw [← huuid]
    exact find_timestampsOf_mem _ l hl hstore
  have hget : w.note_store_.getNote r.uuid = some l := by
    rw [← huuid]
    exact getNote_of_mem _ l hl hstore
  refine ⟨?_, ?_⟩
  · rw [hphase]
    by_cases hgt : r.modified > l.modified + seconds 3
    · rw [if_pos hgt]
      have hentry : (r.uuid, r.modified) ∈ timestampsOf rs :=
        tm_find_mem _ _ _ (find_timestampsOf_mem rs r hr hset)
      exact (foldl_downloadStep_pull (timestampsOf w.note_store_) rs (timestampsOf rs) w0
        r.uuid r.modified r (timestampsOf_keys_nodup rs) hentry
        (find_of_mem_nodup rs r hr hset)
        (Or.inr ⟨l.modified, hfind, hgt, by rw [hst, hget]; exact Option.some_ne_none l⟩)).1
    · rw [if_neg hgt, foldl_downloadStep_getNote_keep, hst, hget]
      intro e he heu
      have h1 := tm_find_of_mem _ e (timestampsOf_keys_nodup rs) he
      rw [heu, find_timestampsOf_mem rs r hr hset] at h1
      have h2 : e.2 = r.modified := (Option.some.inj h1).symm
      unfold pulls
      rw [heu, hfind]
      dsimp only
      rw [h2]
      simpa using hgt
  · rw [hphase]
    exact foldl_downloadStep_nodup _ _ _ _ (by rw [hst]; exact hstore)

end consequences

section keeps
variable {ρ : Type}

/-- A note of the collection whose uuid the first listing does not name is still
in the collection when the upload phase begins. -/
theorem downloadPhase_keeps_local_only (env : Env ρ) (w : SyncWorld ρ)
    (client : WebDAVStorage) (l : Note)
    (hclient : (refreshConfigurationFromAppState w).webdav_storage_ = some client)
    (hstore : (w.note_store_.map Note.uuid).Nodup) (hl : l ∈ w.note_store_)
    (hno : ∀ r ∈ listedNotes (passListing1 env client w).1, r.uuid ≠ l.uuid) :
    l ∈ (downloadPhase env w).note_store_ := by
  obtain ⟨w0, hphase, hst, -, -, -⟩ := downloadPhase_loop env w client hclient
  have hget : (downloadPhase env w).note_store_.getNote l.uuid = some l := by
    rw [hphase, foldl_downloadStep_getNote_keep, hst]
    · exact getNote_of_mem _ l hl hstore
    · intro e he heu
      have h1 := tm_find_of_mem _ e (timestampsOf_keys_nodup _) he
      rw [heu, find_timestampsOf_none _ _ hno] at h1
      exact absurd h1 (by simp)
  exact (getNote_mem _ _ _ hget).1

end keeps

/-! ## C1, C2: what the download phase pulls -/

/-- C1. One pass of an enabled orchestrator whose listings return the remote note
set `rs` (each uuid once): a remote note whose uuid is not in the local collection
before the pass is in the collection afterwards under its uuid, with the remote
title, body and noteType (it is the remote note itself), and a write of it to
local storage was issued during the pass. -/
theorem performSync_downloads_missing {ρ : Type} (env : Env ρ) (w : SyncWorld ρ)
    (client : WebDAVStorage) (rs : List Note) (r : Note)
    (henabled : w.appState.webdav_enabled_ = true)
    (hclient : (refreshConfigurationFromAppState w).webdav_storage_ = some client)
    (hlist1 : (passListing1 env client w).1 = .success rs)
    (hlist2 : (passListing2 env client w).1 = .success rs)
    (hset : (rs.map Note.uuid).Nodup) (hr : r ∈ rs)
    (hnew : w.note_store_.getNote r.uuid = none) :
    (∃ n, (performSync env w).note_store_.getNote r.uuid = some n ∧ n.uuid = r.uuid ∧
      n.title = r.title ∧ n.body = r.body ∧ n.noteType = r.noteType ∧
      Event.storageWrite n ∈ passEvents env w) := by
  have hloc : (timestampsOf w.note_store_).find r.uuid = none :=
    find_timestampsOf_none _ _ ((getNote_eq_none_iff _ _).mp hnew)
  obtain ⟨h1, h2⟩ := performSync_pull env w client rs r henabled hclient hlist1 hlist2 hset hr
    (Or.inl hloc)
  exact ⟨r, h1, rfl, rfl, rfl, rfl, h2⟩

set_option maxRecDepth 100000 in
/-- C1 at the example server holding note `a`, with an empty local collection. -/
theorem performSync_downloads_missing_witness :
    ∃ n, (performSync (exEnv [exRemoteA]) (exWorld [] (exFiles [exRemoteA]))).note_store_.getNote
        exRemoteA.uuid = some n ∧ n.uuid = exRemoteA.uuid ∧
      n.title = exRemoteA.title ∧ n.body = exRemoteA.body ∧ n.noteType = exRemoteA.noteType ∧
      Event.storageWrite n ∈ passEvents (exEnv [exRemoteA]) (exWorld [] (exFiles [exRemoteA])) :=
  performSync_downloads_missing (exEnv [exRemoteA]) (exWorld [] (exFiles [exRemoteA])) exClient
    [exRemoteA] exRemoteA (by decide) (by decide) (by decide) (by decide) (by decide)
    (by decide) (by decide)

/-- C2. One pass of an enabled orchestrator whose listings return the remote note
set `rs`: for a note present locally (`l`) and remotely (`r`) with
`r.modified - l.modified` above three seconds, the collection's note of that uuid
has afterwards the remote body and the remote modified timestamp. -/
theorem performSync_remote_wins {ρ : Type} (env : Env ρ) (w : SyncWorld ρ)
    (client : WebDAVStorage) (rs : List Note) (r l : Note)
    (henabled : w.appState.webdav_enabled_ = true)
    (hclient : (refreshConfigurationFromAppState w).webdav_storage_ = some client)
    (hlist1 : (passListing1 env client w).1 = .success rs)
    (hlist2 : (passListing2 env client w).1 = .success rs)
    (hset : (rs.map Note.uuid).Nodup) (hr : r ∈ rs)
    (hstore : (w.note_store_.map Note.uuid).Nodup) (hl : l ∈ w.note_store_)
    (huuid : l.uuid = r.uuid) (hnewer : r.modified - l.modified > seconds 3) :
    ∃ n, (performSync env w).note_store_.getNote r.uuid = some n ∧
      n.body = r.body ∧ n.modified = r.modified := by
  have hfind : (timestampsOf w.note_store_).find r.uuid = some l.modified := by
    rw [← huuid]
    exact find_timestampsOf_mem _ l hl hstore
  have hget : w.note_store_.getNote r.uuid ≠ none := by
    rw [← huuid, getNote_of_mem _ l hl hstore]
    exact Option.some_ne_none l
  have hgt : r.modified > l.modified + seconds 3 := by
    have h : seconds 3 < r.modified - l.modified := hnewer
    show l.modified + seconds 3 < r.modified
    linarith
  obtain ⟨h1, -⟩ := performSync_pull env w client rs r henabled hclient hlist1 hlist2 hset hr
    (Or.inr ⟨l.modified, hfind, hgt, hget⟩)
  exact ⟨r, h1, rfl, rfl⟩

set_option maxRecDepth 100000 in
/-- C2 at the example server: remote `a` of second 5 against local `a` of second 1. -/
theorem performSync_remote_wins_witness :
    ∃ n, (performSync (exEnv [exRemoteA]) (exWorld [exLocalOldA] (exFiles [exRemoteA]))).note_store_.getNote
        exRemoteA.uuid = some n ∧ n.body = exRemoteA.body ∧ n.modified = exRemoteA.modified :=
  performSync_remote_wins (exEnv [exRemoteA]) (exWorld [exLocalOldA] (exFiles [exRemoteA])) exClient
    [exRemoteA] exRemoteA exLocalOldA (by decide) (by decide) (by decide) (by decide)
    (by decide) (by decide) (by decide) (by decide) (by decide) (by decide)

/-! ## C3, C4, C5: tolerance and uploads -/

theorem seconds_zero : seconds 0 = 0 := by decide

theorem seconds_three_pos : 0 < seconds 3 := by decide

/-- Uploads of a uuid present on both sides, when the three listings of an enabled
pass return the note set `rs`: the local note is uploaded when it is strictly
newer than the remote one, and no PUT goes to the url of the uuid otherwise. -/
theorem pass_put_facts {ρ : Type} (env : Env ρ) (w : SyncWorld ρ) (client : WebDAVStorage)
    (rs : List Note) (r l : Note)
    (henabled : w.appState.webdav_enabled_ = true)
    (hclient : (refreshConfigurationFromAppState w).webdav_storage_ = some client)
    (hlist1 : (passListing1 env client w).1 = .success rs)
    (hlist2 : (passListing2 env client w).1 = .success rs)
    (hlist3 : (passListing3 env client w).1 = .success rs)
    (hset : (rs.map Note.uuid).Nodup) (hr : r ∈ rs)
    (hstore : (w.note_store_.map Note.uuid).Nodup) (hl : l ∈ w.note_store_)
    (huuid : l.uuid = r.uuid) :
    (l.modified > r.modified → Event.request (client.putRequest env l) ∈ passEvents env w) ∧
    (∀ q, Event.request q ∈ passEvents env w → q.method = "PUT" →
      q.url = client.buildUrl (r.uuid ++ ".json") → l.modified > r.modified) := by
  obtain ⟨hget, hnd⟩ := downloadPhase_getNote env w client rs r l hclient hlist1 hlist2 hset hr
    hstore hl huuid
  have hrts : (timestampsOf rs).find r.uuid = some r.modified :=
    find_timestampsOf_mem rs r hr hset
  have h3 := seconds_three_pos
  refine ⟨?_, ?_⟩
  · intro hgt
    have hnot : ¬ r.modified > l.modified + seconds 3 := by
      intro h
      have h' : l.modified + seconds 3 < r.modified := h
      have h'' : r.modified < l.modified := hgt
      linarith
    rw [if_neg hnot] at hget
    apply passEvents_of_needsUpload env w client henabled hclient l (getNote_mem _ _ _ hget).1
    rw [hlist3]
    unfold needsUpload
    change (match (timestampsOf rs).find l.uuid with
      | none => true
      | some remoteTime => decide (l.modified > remoteTime + seconds 0)) = true
    rw [huuid, hrts]
    simpa [seconds_zero] using hgt
  · intro q hq hm hurl
    obtain ⟨n, hn, hnu, hqn⟩ := put_of_passEvents env w client henabled hclient q hq hm
    rw [hqn, putRequest_url] at hurl
    have hnu2 : n.uuid = r.uuid := buildUrl_json_inj client _ _ hurl
    have hnx := eq_of_getNote _ n _ hnd hn (by rw [hnu2]; exact hget)
    rw [hlist3] at hnu
    unfold needsUpload at hnu
    change (match (timestampsOf rs).find n.uuid with
      | none => true
      | some remoteTime => decide (n.modified > remoteTime + seconds 0)) = true at hnu
    rw [hnu2, hrts] at hnu
    have hgt : n.modified > r.modified := by simpa [seconds_zero] using hnu
    by_cases hpull : r.modified > l.modified + seconds 3
    · rw [if_pos hpull] at hnx
      rw [hnx] at hgt
      exact absurd hgt (lt_irrefl _)
    · rw [if_neg hpull] at hnx
      rw [hnx] at hgt
      exact hgt

set_option maxRecDepth 100000 in
/-- C3, refuted as stated: the remote copy of `a` is of second 5 and the local one
of second 6, within three seconds of each other, and the pass uploads the local
copy. -/
theorem within_tolerance_upload_counterexample :
    |exRemoteA.modified - exLocalNewA.modified| ≤ seconds 3 ∧
    exLocalNewA ∈ (exWorld [exLocalNewA] (exFiles [exRemoteA])).note_store_ ∧
    (passListing3 (exEnv [exRemoteA]) exClient
      (exWorld [exLocalNewA] (exFiles [exRemoteA]))).1 = .success [exRemoteA] ∧
    Event.request (exClient.putRequest (exEnv [exRemoteA]) exLocalNewA) ∈
      passEvents (exEnv [exRemoteA]) (exWorld [exLocalNewA] (exFiles [exRemoteA])) := by
  refine ⟨by decide, by decide, by decide, by decide⟩

/-- C3, amended. One pass of an enabled orchestrator whose listings return the
remote note set `rs`: for a note present locally (`l`) and remotely (`r`) with
modification times at most three seconds apart, the collection keeps the local
note, nothing is written to local storage for the uuid, and a PUT to the url of
the uuid is issued exactly when the local note is strictly newer. -/
theorem performSync_within_tolerance {ρ : Type} (env : Env ρ) (w : SyncWorld ρ)
    (client : WebDAVStorage) (rs : List Note) (r l : Note)
    (henabled : w.appState.webdav_enabled_ = true)
    (hclient : (refreshConfigurationFromAppState w).webdav_storage_ = some client)
    (hlist1 : (passListing1 env client w).1 = .success rs)
    (hlist2 : (passListing2 env client w).1 = .success rs)
    (hlist3 : (passListing3 env client w).1 = .success rs)
    (hset : (rs.map Note.uuid).Nodup) (hr : r ∈ rs)
    (hstore : (w.note_store_.map Note.uuid).Nodup) (hl : l ∈ w.note_store_)
    (huuid : l.uuid = r.uuid) (hnear : |r.modified - l.modified| ≤ seconds 3) :
    (performSync env w).note_store_.getNote r.uuid = some l ∧
    (∀ n, Event.storageWrite n ∈ passEvents env w → n.uuid ≠ r.uuid) ∧
    ((∃ q, Event.request q ∈ passEvents env w ∧ q.method = "PUT" ∧
        q.url = client.buildUrl (r.uuid ++ ".json")) ↔ l.modified > r.modified) := by
  have hnot : ¬ r.modified > l.modified + seconds 3 := by
    intro h
    have h1 : r.modified - l.modified ≤ seconds 3 := (abs_le.mp hnear).2
    have h2 : l.modified + seconds 3 < r.modified := h
    linarith
  obtain ⟨hget, -⟩ := downloadPhase_getNote env w client rs r l hclient hlist1 hlist2 hset hr
    hstore hl huuid
  rw [if_neg hnot] at hget
  obtain ⟨hput, hnoput⟩ := pass_put_facts env w client rs r l henabled hclient hlist1 hlist2
    hlist3 hset hr hstore hl huuid
  refine ⟨?_, ?_, ?_⟩
  · rw [performSync_note_store env w henabled]
    exact hget
  · intro n hn hnu
    obtain ⟨e, he, hp, hf⟩ := storageWrite_of_passEvents env w client henabled hclient n hn
    rw [hlist1] at he
    rw [hlist2] at hf
    change e ∈ timestampsOf rs at he
    change rs.find? (fun x => x.uuid == e.1) = some n at hf
    have heu : e.1 = r.uuid := (uuid_of_find rs e.1 n hf).symm.trans hnu
    have h1 := tm_find_of_mem _ e (timestampsOf_keys_nodup rs) he
    rw [heu, find_timestampsOf_mem rs r hr hset] at h1
    have h2 : e.2 = r.modified := (Option.some.inj h1).symm
    have hfind : (timestampsOf w.note_store_).find r.uuid = some l.modified := by
      rw [← huuid]
      exact find_timestampsOf_mem _ l hl hstore
    unfold pulls at hp
    rw [heu, hfind] at hp
    dsimp only at hp
    rw [h2] at hp
    exact hnot (by simpa using hp)
  · constructor
    · rintro ⟨q, hq, hm, hurl⟩
      exact hnoput q hq hm hurl
    · intro hgt
      exact ⟨client.putRequest env l, hput hgt, rfl, by rw [putRequest_url, huuid]⟩

set_option maxRecDepth 100000 in
/-- C3 amended, at the example server: remote `a` of second 5, local `a` of second 6. -/
theorem performSync_within_tolerance_witness :
    (performSync (exEnv [exRemoteA]) (exWorld [exLocalNewA] (exFiles [exRemoteA]))).note_store_.getNote
        exRemoteA.uuid = some exLocalNewA ∧
    (∀ n, Event.storageWrite n ∈
        passEvents (exEnv [exRemoteA]) (exWorld [exLocalNewA] (exFiles [exRemoteA])) →
      n.uuid ≠ exRemoteA.uuid) ∧
    ((∃ q, Event.request q ∈
          passEvents (exEnv [exRemoteA]) (exWorld [exLocalNewA] (exFiles [exRemoteA])) ∧
        q.method = "PUT" ∧ q.url = exClient.buildUrl (exRemoteA.uuid ++ ".json")) ↔
      exLocalNewA.modified > exRemoteA.modified) :=
  performSync_within_tolerance (exEnv [exRemoteA]) (exWorld [exLocalNewA] (exFiles [exRemoteA]))
    exClient [exRemoteA] exRemoteA exLocalNewA (by decide) (by decide) (by decide) (by decide)
    (by decide) (by decide) (by decide) (by decide) (by decide) (by decide) (by decide)

/-- C4. In an enabled pass run with `client`, every note of the local collection
(as the upload phase finds it; a note of before the pass that the first listing
does not name is still there, `downloadPhase_keeps_local_only`) whose uuid has no
counterpart in the upload-phase listing gets a PUT to `base/<uuid>.json` whose
payload is the JSON object with `id` = uuid, `title` = title and `content` = body
of the note. -/
theorem performSync_uploads_local_only {ρ : Type} (env : Env ρ) (w : SyncWorld ρ)
    (client : WebDAVStorage) (n : Note)
    (henabled : w.appState.webdav_enabled_ = true)
    (hclient : (refreshConfigurationFromAppState w).webdav_storage_ = some client)
    (hn : n ∈ (downloadPhase env w).note_store_)
    (hno : ∀ r ∈ listedNotes (passListing3 env client w).1, r.uuid ≠ n.uuid) :
    ∃ q, Event.request q ∈ passEvents env w ∧ q.method = "PUT" ∧
      q.url = client.baseUrl ++ (n.uuid ++ ".json") ∧
      q.body = env.toJson (noteJsonObject n) ∧
      (noteJsonObject n).value "id" = some (.string n.uuid) ∧
      (noteJsonObject n).value "title" = some (.string n.title) ∧
      (noteJsonObject n).value "content" = some (.string n.body) := by
  refine ⟨client.putRequest env n, ?_, rfl, rfl, rfl, ?_, ?_, ?_⟩
  · apply passEvents_of_needsUpload env w client henabled hclient n hn
    unfold needsUpload
    rw [find_timestampsOf_none _ _ hno]
  · simp [noteJsonObject, QJsonObject.value]
  · simp [noteJsonObject, QJsonObject.value]
  · simp [noteJsonObject, QJsonObject.value]

set_option maxRecDepth 100000 in
/-- C4 at the example server, which holds `a` while the collection holds `b`. -/
theorem performSync_uploads_local_only_witness :
    ∃ q, Event.request q ∈
        passEvents (exEnv [exRemoteA]) (exWorld [exLocalB] (exFiles [exRemoteA])) ∧
      q.method = "PUT" ∧ q.url = exClient.baseUrl ++ (exLocalB.uuid ++ ".json") ∧
      q.body = (exEnv [exRemoteA]).toJson (noteJsonObject exLocalB) ∧
      (noteJsonObject exLocalB).value "id" = some (.string exLocalB.uuid) ∧
      (noteJsonObject exLocalB).value "title" = some (.string exLocalB.title) ∧
      (noteJsonObject exLocalB).value "content" = some (.string exLocalB.body) :=
  performSync_uploads_local_only (exEnv [exRemoteA]) (exWorld [exLocalB] (exFiles [exRemoteA]))
    exClient exLocalB (by decide) (by decide) (by decide) (by decide)

/-- C5. One pass of an enabled orchestrator whose listings return the remote note
set `rs`: for a note present locally (`l`) and remotely (`r`), the PUT of the
local copy is issued if and only if `l.modified > r.modified`; and with
`l.modified ≤ r.modified` no PUT at all goes to the url of the uuid. -/
theorem performSync_upload_iff_newer {ρ : Type} (env : Env ρ) (w : SyncWorld ρ)
    (client : WebDAVStorage) (rs : List Note) (r l : Note)
    (henabled : w.appState.webdav_enabled_ = true)
    (hclient : (refreshConfigurationFromAppState w).webdav_storage_ = some client)
    (hlist1 : (passListing1 env client w).1 = .success rs)
    (hlist2 : (passListing2 env client w).1 = .success rs)
    (hlist3 : (passListing3 env client w).1 = .success rs)
    (hset : (rs.map Note.uuid).Nodup) (hr : r ∈ rs)
    (hstore : (w.note_store_.map Note.uuid).Nodup) (hl : l ∈ w.note_store_)
    (huuid : l.uuid = r.uuid) :
    (Event.request (client.putRequest env l) ∈ passEvents env w ↔ l.modified > r.modified) ∧
    (l.modified ≤ r.modified → ∀ q, Event.request q ∈ passEvents env w → q.method = "PUT" →
      q.url ≠ client.buildUrl (l.uuid ++ ".json")) := by
  obtain ⟨hput, hnoput⟩ := pass_put_facts env w client rs r l henabled hclient hlist1 hlist2
    hlist3 hset hr hstore hl huuid
  refine ⟨⟨?_, hput⟩, ?_⟩
  · intro h
    exact hnoput _ h rfl (by rw [putRequest_url, huuid])
  · intro hle q hq hm hurl
    rw [huuid] at hurl
    exact absurd (hnoput q hq hm hurl) (not_lt.mpr hle)

set_option maxRecDepth 100000 in
/-- C5 at the example server: remote `a` of second 5, local `a` of second 6. -/
theorem performSync_upload_iff_newer_witness :
    (Event.request (exClient.putRequest (exEnv [exRemoteA]) exLocalNewA) ∈
        passEvents (exEnv [exRemoteA]) (exWorld [exLocalNewA] (exFiles [exRemoteA])) ↔
      exLocalNewA.modified > exRemoteA.modified) ∧
    (exLocalNewA.modified ≤ exRemoteA.modified → ∀ q,
      Event.request q ∈
        passEvents (exEnv [exRemoteA]) (exWorld [exLocalNewA] (exFiles [exRemoteA])) →
      q.method = "PUT" → q.url ≠ exClient.buildUrl (exLocalNewA.uuid ++ ".json")) :=
  performSync_upload_iff_newer (exEnv [exRemoteA]) (exWorld [exLocalNewA] (exFiles [exRemoteA]))
    exClient [exRemoteA] exRemoteA exLocalNewA (by decide) (by decide) (by decide) (by decide)
    (by decide) (by decide) (by decide) (by decide) (by decide) (by decide)

/-! ## C6: a second pass -/

set_option maxRecDepth 100000 in
/-- C6, the code at the failing input.  The collection holds `b`, modified at
second 7.5, and the server is empty.  The first pass uploads `b`; the listing then
decodes it with the time truncated to second 7, and the second pass, run on the
world the first one left, uploads `b` again. -/
theorem second_pass_uploads_again :
    Event.request (exClient.putRequest (exEnv [exLocalB]) exLocalB) ∈
      passEvents (exEnv [exLocalB]) (exWorld [exLocalB] []) ∧
    (performSync (exEnv [exLocalB]) (exWorld [exLocalB] [])).note_store_ = [exLocalB] ∧
    (passListing3 (exEnv [exLocalB]) exClient
      (performSync (exEnv [exLocalB]) (exWorld [exLocalB] []))).1 =
        .success [{ exLocalB with modified := seconds 7 }] ∧
    Event.request (exClient.putRequest (exEnv [exLocalB]) exLocalB) ∈
      passEvents (exEnv [exLocalB]) (performSync (exEnv [exLocalB]) (exWorld [exLocalB] [])) := by
  refine ⟨by decide, by decide, by decide, by decide⟩

set_option maxRecDepth 100000 in
/-- The same run with the local note `a` of second 6, a whole second: the first
pass uploads it, and the second pass sends no PUT. -/
theorem second_pass_quiet_for_whole_seconds :
    Event.request (exClient.putRequest (exEnv [exLocalNewA]) exLocalNewA) ∈
      passEvents (exEnv [exLocalNewA]) (exWorld [exLocalNewA] []) ∧
    ∀ e ∈ passEvents (exEnv [exLocalNewA])
        (performSync (exEnv [exLocalNewA]) (exWorld [exLocalNewA] [])),
      ∀ q, e = Event.request q → q.method ≠ "PUT" := by
  refine ⟨by decide, ?_⟩
  have hev : passEvents (exEnv [exLocalNewA])
      (performSync (exEnv [exLocalNewA]) (exWorld [exLocalNewA] [])) =
      [.syncStarted,
        .request ⟨"http://dav/notes/", "PROPFIND", propfindBody, "user:secret"⟩,
        .request ⟨"http://dav/notes/a.json", "GET", "", "user:secret"⟩,
        .request ⟨"http://dav/notes/", "PROPFIND", propfindBody, "user:secret"⟩,
        .request ⟨"http://dav/notes/a.json", "GET", "", "user:secret"⟩,
        .request ⟨"http://dav/notes/", "PROPFIND", propfindBody, "user:secret"⟩,
        .request ⟨"http://dav/notes/a.json", "GET", "", "user:secret"⟩,
        .syncFinished true] := by decide
  rw [hev]
  intro e he q hq
  subst hq
  simp only [List.mem_cons, Event.request.injEq, reduceCtorEq, false_or, List.mem_singleton,
    List.not_mem_nil, or_false] at he
  rcases he with h | h | h | h | h | h <;> rw [h] <;> decide

/-! ## C7: the wire round trip -/

theorem qLeft_strip_json (uuid : String) :
    qLeft (uuid ++ ".json") (((uuid ++ ".json").length : Int) - 5) = uuid := by
  have hlen : (uuid ++ ".json").length = uuid.length + 5 := by
    rw [String.length_append]; rfl
  unfold qLeft
  rw [hlen]
  have h1 : ((uuid.length + 5 : Nat) : Int) - 5 = (uuid.length : Int) := by push_cast; ring
  rw [h1, if_neg (by omega), Int.toNat_ofNat]
  apply String.ext
  show List.take uuid.length (uuid ++ ".json").data = uuid.data
  rw [String.data_append]
  exact List.take_left' rfl

/-- C7. For every note `n`, if Qt reads back the JSON text it printed for the
object of `n`, then decoding the encoded note under the file name
`n.uuid + ".json"` yields the uuid, title, body, noteType and deviceId of `n`. -/
theorem parseJsonNote_noteToJson {ρ : Type} (env : Env ρ) (n : Note)
    (hqt : env.fromJson (env.toJson (noteJsonObject n)) = .object (noteJsonObject n)) :
    (WebDAVStorage.parseJsonNote env (WebDAVStorage.noteToJson env n) (n.uuid ++ ".json")).uuid =
      n.uuid ∧
    (WebDAVStorage.parseJsonNote env (WebDAVStorage.noteToJson env n) (n.uuid ++ ".json")).title =
      n.title ∧
    (WebDAVStorage.parseJsonNote env (WebDAVStorage.noteToJson env n) (n.uuid ++ ".json")).body =
      n.body ∧
    (WebDAVStorage.parseJsonNote env (WebDAVStorage.noteToJson env n)
      (n.uuid ++ ".json")).noteType = n.noteType ∧
    (WebDAVStorage.parseJsonNote env (WebDAVStorage.noteToJson env n)
      (n.uuid ++ ".json")).deviceId = n.deviceId := by
  unfold WebDAVStorage.parseJsonNote WebDAVStorage.noteToJson
  rw [hqt]
  refine ⟨qLeft_strip_json n.uuid, ?_, ?_, ?_, ?_⟩
  · simp [noteJsonObject, QJsonObject.value, QJsonDocument.toObject, jsonToString]
  · simp [noteJsonObject, QJsonObject.value, QJsonDocument.toObject, jsonToString]
  · cases h : n.noteType <;>
      simp [noteJsonObject, QJsonObject.value, QJsonDocument.toObject, jsonToString, h]
  · simp [noteJsonObject, QJsonObject.value, QJsonDocument.toObject, jsonToString]

/-- C7 at the note `a` with the JSON printer and reader of the examples. -/
theorem parseJsonNote_noteToJson_witness :
    (WebDAVStorage.parseJsonNote (exEnv [exRemoteA])
      (WebDAVStorage.noteToJson (exEnv [exRemoteA]) exRemoteA) (exRemoteA.uuid ++ ".json")).uuid =
      exRemoteA.uuid ∧
    (WebDAVStorage.parseJsonNote (exEnv [exRemoteA])
      (WebDAVStorage.noteToJson (exEnv [exRemoteA]) exRemoteA) (exRemoteA.uuid ++ ".json")).title =
      exRemoteA.title ∧
    (WebDAVStorage.parseJsonNote (exEnv [exRemoteA])
      (WebDAVStorage.noteToJson (exEnv [exRemoteA]) exRemoteA) (exRemoteA.uuid ++ ".json")).body =
      exRemoteA.body ∧
    (WebDAVStorage.parseJsonNote (exEnv [exRemoteA])
      (WebDAVStorage.noteToJson (exEnv [exRemoteA]) exRemoteA)
      (exRemoteA.uuid ++ ".json")).noteType = exRemoteA.noteType ∧
    (WebDAVStorage.parseJsonNote (exEnv [exRemoteA])
      (WebDAVStorage.noteToJson (exEnv [exRemoteA]) exRemoteA)
      (exRemoteA.uuid ++ ".json")).deviceId = exRemoteA.deviceId :=
  parseJsonNote_noteToJson (exEnv [exRemoteA]) exRemoteA (by decide)

/-! ## C8: no listing -/

set_option maxRecDepth 100000 in
/-- C8, refuted as stated: at a server whose every listing fails, the pass uploads
the local note `b`. -/
theorem no_listing_upload_counterexample :
    (passListing1 exEnvNoListing exClient (exWorld [exLocalB] [])).1 = .failure .ReadFailed ∧
    (passListing2 exEnvNoListing exClient (exWorld [exLocalB] [])).1 = .failure .ReadFailed ∧
    (passListing3 exEnvNoListing exClient (exWorld [exLocalB] [])).1 = .failure .ReadFailed ∧
    Event.request (exClient.putRequest exEnvNoListing exLocalB) ∈
      passEvents exEnvNoListing (exWorld [exLocalB] []) ∧
    Event.noteUploaded (some exLocalB) ∈ passEvents exEnvNoListing (exWorld [exLocalB] []) := by
  refine ⟨by decide, by decide, by decide, by decide, by decide⟩

/-- C8, amended. In an enabled pass whose first listing fails nothing is
downloaded: the note collection is left as it was, and the pass neither writes a
note to local storage nor emits `noteDownloaded`. -/
theorem performSync_no_listing_no_download {ρ : Type} (env : Env ρ) (w : SyncWorld ρ)
    (client : WebDAVStorage) (err : StorageError)
    (henabled : w.appState.webdav_enabled_ = true)
    (hclient : (refreshConfigurationFromAppState w).webdav_storage_ = some client)
    (hfail : (passListing1 env client w).1 = .failure err) :
    (performSync env w).note_store_ = w.note_store_ ∧
    ∀ n, Event.storageWrite n ∉ passEvents env w ∧ Event.noteDownloaded n ∉ passEvents env w := by
  refine ⟨?_, ?_⟩
  · obtain ⟨w0, hphase, hstore, -, -, -⟩ := downloadPhase_loop env w client hclient
    rw [hfail] at hphase
    rw [performSync_note_store env w henabled, hphase]
    exact hstore
  · intro n
    have hnone : ∀ ev, (ev = Event.storageWrite n ∨ ev = Event.noteDownloaded n) →
        ev ∉ passEvents env w := by
      intro ev hev hmem
      rcases passEvents_cases env w client henabled hclient ev hmem with
        h | h | ⟨q, h, -⟩ | ⟨e, he, -⟩ | ⟨x, -, -, h⟩
      · rcases hev with h2 | h2 <;> rw [h2] at h <;> exact absurd h (by simp)
      · rcases hev with h2 | h2 <;> rw [h2] at h <;> exact absurd h (by simp)
      · rcases hev with h2 | h2 <;> rw [h2] at h <;> exact absurd h (by simp)
      · rw [hfail] at he
        exact absurd he (List.not_mem_nil e)
      · rcases hev with h2 | h2 <;> rw [h2] at h <;>
          rcases h with h | h <;> exact absurd h (by simp)
    exact ⟨hnone _ (Or.inl rfl), hnone _ (Or.inr rfl)⟩

set_option maxRecDepth 100000 in
/-- C8 amended, at the example server without listing. -/
theorem performSync_no_listing_no_download_witness :
    (performSync exEnvNoListing (exWorld [exLocalB] (exFiles [exRemoteA]))).note_store_ =
      (exWorld [exLocalB] (exFiles [exRemoteA])).note_store_ ∧
    ∀ n, Event.storageWrite n ∉ passEvents exEnvNoListing (exWorld [exLocalB] (exFiles [exRemoteA])) ∧
      Event.noteDownloaded n ∉
        passEvents exEnvNoListing (exWorld [exLocalB] (exFiles [exRemoteA])) :=
  performSync_no_listing_no_download exEnvNoListing (exWorld [exLocalB] (exFiles [exRemoteA]))
    exClient .ReadFailed (by decide) (by decide) (by decide)

/-! ## C9: an entry that is not JSON -/

/-- Text that Qt does not read as JSON decodes to a note with empty title and
body and the epoch as times; nothing is thrown. -/
theorem parseJsonNote_of_null {ρ : Type} (env : Env ρ) (jsonStr fileName : String)
    (h : env.fromJson jsonStr = .null) :
    WebDAVStorage.parseJsonNote env jsonStr fileName =
      exPhantom (qLeft fileName ((fileName.length : Int) - 5)) := by
  unfold WebDAVStorage.parseJsonNote
  rw [h]
  rfl

set_option maxRecDepth 100000 in
/-- C9, the code at the failing input.  The server lists `bad.json`, whose text is
not JSON (the reader returns the null document), and `a.json`.  The listing
succeeds and returns a note for `bad.json` too, with empty title and body. -/
theorem readAllNotes_keeps_malformed_entry :
    (exEnv [exRemoteA]).fromJson "this is not json" = .null ∧
    (exClient.readAllNotes (exEnv [exRemoteA]) exFilesBad).1 =
      .success [exPhantom "bad", exRemoteA] := by
  refine ⟨by decide, by decide⟩

/-! ## C10: the listing -/

section listing
variable {ρ : Type}

/-- A cut splits the text into the part before the needle, the needle and the
part after it. -/
theorem cut_length (needle : List Char) (s a b : List Char)
    (h : cut needle s = some (a, b)) : a.length + needle.length + b.length = s.length := by
  induction s generalizing a b with
  | nil =>
    unfold cut at h
    split at h
    · next hn =>
      have hab : ([], []) = (a, b) := Option.some.inj h
      have ha : a = [] := (congrArg Prod.fst hab).symm
      have hb : b = [] := (congrArg Prod.snd hab).symm
      rw [ha, hb, hn]
      rfl
    · exact absurd h (by simp)
  | cons c cs ih =>
    unfold cut at h
    split at h
    · next hp =>
      have hab : ([], (c :: cs).drop needle.length) = (a, b) := Option.some.inj h
      have ha : a = [] := (congrArg Prod.fst hab).symm
      have hb : b = (c :: cs).drop needle.length := (congrArg Prod.snd hab).symm
      have hle : needle.length ≤ (c :: cs).length :=
        (List.isPrefixOf_iff_prefix.mp hp).length_le
      rw [ha, hb, List.length_drop, List.length_nil]
      omega
    · cases hc : cut needle cs with
      | none => rw [hc] at h; exact absurd h (by simp)
      | some p =>
        rw [hc] at h
        have hab : (c :: p.1, p.2) = (a, b) := Option.some.inj h
        have ha : a = c :: p.1 := (congrArg Prod.fst hab).symm
        have hb : b = p.2 := (congrArg Prod.snd hab).symm
        have := ih p.1 p.2 (by rw [hc])
        rw [ha, hb, List.length_cons, List.length_cons]
        omega

/-- The test of the loop body of `readAllNotes` is the acceptance test of the
specification. -/
theorem blockFileName_eq_accepted (env : Env ρ) (block : List Char) :
    blockFileName env block = acceptedFileName env block := by
  have e1 : ("<D:" ++ "href" ++ ">").toList = "<D:href>".toList := by decide
  have e2 : ("</D:" ++ "href" ++ ">").toList = "</D:href>".toList := by decide
  have e3 : ("<D:" ++ "status" ++ ">").toList = "<D:status>".toList := by decide
  have e4 : ("</D:" ++ "status" ++ ">").toList = "</D:status>".toList := by decide
  unfold blockFileName acceptedFileName elementText hrefFileName
  rw [e1, e2, e3, e4]
  cases h1 : cut "<D:href>".toList block with
  | none => rfl
  | some p1 =>
    obtain ⟨x1, afterHref⟩ := p1
    dsimp only [Option.bind]
    cases h2 : cut "</D:href>".toList afterHref with
    | none => rfl
    | some p2 =>
      obtain ⟨href, x2⟩ := p2
      dsimp only [Option.map]
      cases h3 : cut "<D:status>".toList block with
      | none => rfl
      | some p3 =>
        obtain ⟨x3, afterStatus⟩ := p3
        dsimp only
        cases h4 : cut "</D:status>".toList afterStatus with
        | none => rfl
        | some p4 =>
          obtain ⟨status, x4⟩ := p4
          dsimp only
          by_cases hs : containsText "200 OK".toList status = true
          · by_cases he : endsWith
                (String.mk (afterLastSlash (env.urlPath (String.mk href)).toList)) ".json" = true
            · rw [if_pos hs, if_pos he, if_pos ⟨hs, he⟩]
            · rw [if_pos hs, if_neg he, if_neg (fun h => he h.2)]
          · rw [if_neg hs, if_neg (fun h => hs h.1)]

/-- An accepted file name ends in `.json`. -/
theorem endsWith_of_accepted (env : Env ρ) (block : List Char) (fileName : String)
    (h : acceptedFileName env block = some fileName) : endsWith fileName ".json" = true := by
  unfold acceptedFileName at h
  split at h
  · split at h
    · next hc =>
      have := Option.some.inj h
      rw [← this]
      exact hc.2
    · exact absurd h (by simp)
  · exact absurd h (by simp)

/-- For a file name ending in `.json`, `left(length - 5)` strips the extension. -/
theorem qLeft_eq_stripExtension (fileName : String) (h : endsWith fileName ".json" = true) :
    qLeft fileName ((fileName.length : Int) - 5) = stripExtension fileName := by
  have hle : 5 ≤ fileName.length := by
    unfold endsWith at h
    have := (List.isSuffixOf_iff_suffix.mp h).length_le
    exact this
  unfold qLeft stripExtension
  rw [if_neg (by omega)]
  congr 2
  omega

/-- The loop of `readAllNotes` with enough fuel fetches the accepted blocks of the
text, in order. -/
theorem readAllNotesLoop_refines (env : Env ρ) (c : WebDAVStorage) (fuel : Nat)
    (rest : List Char) (hfuel : rest.length ≤ fuel) :
    ∃ blocks, ResponseBlocks rest blocks ∧
      ∀ s, readAllNotesLoop env c fuel rest s =
        fetchAccepted env c (blocks.filterMap (acceptedFileName env)) s := by
  induction fuel generalizing rest with
  | zero =>
    have hnil : rest = [] := List.length_eq_zero.mp (Nat.le_zero.mp hfuel)
    subst hnil
    exact ⟨[], ResponseBlocks.noOpening [] (by decide), fun s => rfl⟩
  | succ fuel ih =>
    cases h1 : cut "<D:response>".toList rest with
    | none =>
      refine ⟨[], ResponseBlocks.noOpening rest h1, fun s => ?_⟩
      unfold readAllNotesLoop
      rw [h1]
      rfl
    | some p1 =>
      obtain ⟨before, afterOpen⟩ := p1
      cases h2 : cut "</D:response>".toList afterOpen with
      | none =>
        refine ⟨[], ResponseBlocks.noClosing rest before afterOpen h1 h2, fun s => ?_⟩
        unfold readAllNotesLoop
        rw [h1]
        dsimp only
        rw [h2]
        rfl
      | some p2 =>
        obtain ⟨inner, next⟩ := p2
        have hl1 := cut_length _ _ _ _ h1
        have hl2 := cut_length _ _ _ _ h2
        have hopen : "<D:response>".toList.length = 12 := by decide
        have hnext : next.length ≤ fuel := by omega
        obtain ⟨blocks, hblocks, hloop⟩ := ih next hnext
        refine ⟨inner :: blocks,
          ResponseBlocks.block rest before afterOpen inner next blocks h1 h2 hblocks, fun s => ?_⟩
        unfold readAllNotesLoop
        rw [h1]
        dsimp only
        rw [h2]
        dsimp only
        rw [blockFileName_eq_accepted]
        cases h3 : acceptedFileName env inner with
        | none =>
          rw [List.filterMap_cons_none h3]
          exact hloop s
        | some fileName =>
          rw [List.filterMap_cons_some h3]
          have hstrip := qLeft_eq_stripExtension fileName (endsWith_of_accepted env inner fileName h3)
          unfold fetchAccepted
          dsimp only
          rw [hstrip, hloop]
          by_cases hgot : (c.sendRequest env s (c.baseUrl ++ stripExtension fileName ++ ".json")
              "GET" "").1 = ""
          · rw [if_neg (by simpa using hgot), if_pos hgot]
          · rw [if_pos hgot, if_neg hgot]
            have hnote : WebDAVStorage.parseJsonNote env
                (c.sendRequest env s (c.baseUrl ++ stripExtension fileName ++ ".json") "GET" "").1
                fileName =
              { WebDAVStorage.parseJsonNote env
                  (c.sendRequest env s (c.baseUrl ++ stripExtension fileName ++ ".json")
                    "GET" "").1 fileName with uuid := stripExtension fileName } := by
              unfold WebDAVStorage.parseJsonNote
              dsimp only
              rw [hstrip]
            rw [← hnote]

end listing

/-- C10. For every non-empty listing response, `readAllNotes` succeeds, and its
notes are, in listing order, those of the response blocks that are accepted (an
href and a status sub-element, the status text containing `200 OK`, the file name
of the href ending in `.json`) and whose GET returns a non-empty body, each under
the uuid that is the file name without its five-character extension; the requests
sent are the PROPFIND and one GET per accepted block, none for the others. -/
theorem readAllNotes_refines_spec {ρ : Type} (env : Env ρ) (c : WebDAVStorage) (s : ρ)
    (hne : (c.sendRequest env s c.baseUrl "PROPFIND" propfindBody).1 ≠ "") :
    ∃ blocks, ResponseBlocks (c.sendRequest env s c.baseUrl "PROPFIND" propfindBody).1.toList
        blocks ∧
      c.readAllNotes env s =
        (.success (fetchAccepted env c (blocks.filterMap (acceptedFileName env))
            (c.sendRequest env s c.baseUrl "PROPFIND" propfindBody).2.1).1,
          (fetchAccepted env c (blocks.filterMap (acceptedFileName env))
            (c.sendRequest env s c.baseUrl "PROPFIND" propfindBody).2.1).2.1,
          (c.sendRequest env s c.baseUrl "PROPFIND" propfindBody).2.2 ++
            (fetchAccepted env c (blocks.filterMap (acceptedFileName env))
              (c.sendRequest env s c.baseUrl "PROPFIND" propfindBody).2.1).2.2) := by
  obtain ⟨blocks, hblocks, hloop⟩ := readAllNotesLoop_refines env c
    (c.sendRequest env s c.baseUrl "PROPFIND" propfindBody).1.length
    (c.sendRequest env s c.baseUrl "PROPFIND" propfindBody).1.toList (le_refl _)
  refine ⟨blocks, hblocks, ?_⟩
  unfold WebDAVStorage.readAllNotes
  dsimp only
  rw [if_neg hne, hloop]

set_option maxRecDepth 100000 in
/-- C10 at the example server holding `bad.json` and `a.json`. -/
theorem readAllNotes_refines_spec_witness :
    ∃ blocks, ResponseBlocks
        (exClient.sendRequest (exEnv [exRemoteA]) exFilesBad exClient.baseUrl "PROPFIND"
          propfindBody).1.toList blocks ∧
      exClient.readAllNotes (exEnv [exRemoteA]) exFilesBad =
        (.success (fetchAccepted (exEnv [exRemoteA]) exClient
            (blocks.filterMap (acceptedFileName (exEnv [exRemoteA])))
            (exClient.sendRequest (exEnv [exRemoteA]) exFilesBad exClient.baseUrl "PROPFIND"
              propfindBody).2.1).1,
          (fetchAccepted (exEnv [exRemoteA]) exClient
            (blocks.filterMap (acceptedFileName (exEnv [exRemoteA])))
            (exClient.sendRequest (exEnv [exRemoteA]) exFilesBad exClient.baseUrl "PROPFIND"
              propfindBody).2.1).2.1,
          (exClient.sendRequest (exEnv [exRemoteA]) exFilesBad exClient.baseUrl "PROPFIND"
              propfindBody).2.2 ++
            (fetchAccepted (exEnv [exRemoteA]) exClient
              (blocks.filterMap (acceptedFileName (exEnv [exRemoteA])))
              (exClient.sendRequest (exEnv [exRemoteA]) exFilesBad exClient.baseUrl "PROPFIND"
                propfindBody).2.1).2.2) :=
  readAllNotes_refines_spec (exEnv [exRemoteA]) exClient exFilesBad (by decide)

/-! ## Lemmas: the configuration refresh -/

section refresh
variable {ρ : Type}

/-- A configuration refresh touches neither the debounce timer nor the pending
flag. -/
theorem refresh_debounce (w : SyncWorld ρ) :
    (refreshConfigurationFromAppState w).search_debounce_timer_ = w.search_debounce_timer_ ∧
    (refreshConfigurationFromAppState w).pending_search_sync_ = w.pending_search_sync_ := by
  unfold refreshConfigurationFromAppState syncStop
  dsimp only
  split_ifs <;> exact ⟨rfl, rfl⟩

/-- After a refresh the cached connection settings and interval are the configured
ones, the address normalised and the interval at least one minute. -/
theorem refresh_cached (w : SyncWorld ρ) :
    (refreshConfigurationFromAppState w).server_address_ = configuredAddress w.appState ∧
    (refreshConfigurationFromAppState w).username_ = w.appState.webdav_username_ ∧
    (refreshConfigurationFromAppState w).password_ = w.appState.webdav_password_ ∧
    (refreshConfigurationFromAppState w).sync_interval_minutes_ =
      max 1 w.appState.webdav_sync_interval_minutes_ := by
  unfold refreshConfigurationFromAppState syncStop configuredAddress
  dsimp only
  split_ifs <;> exact ⟨rfl, rfl, rfl, rfl⟩

/-- A refresh with sync disabled in the configuration leaves the periodic timer
stopped and no client. -/
theorem refresh_disabled (w : SyncWorld ρ) (h : w.appState.webdav_enabled_ = false) :
    (refreshConfigurationFromAppState w).enabled_ = false ∧
    (refreshConfigurationFromAppState w).webdav_storage_ = none ∧
    (refreshConfigurationFromAppState w).sync_timer_.active = false := by
  unfold refreshConfigurationFromAppState syncStop
  dsimp only
  rw [if_pos h]
  by_cases h2 : (w.sync_timer_.active = true ∨ w.webdav_storage_.isSome = true)
  · rw [if_pos h2]
    exact ⟨h, rfl, rfl⟩
  · rw [if_neg h2]
    have h3 : ¬ w.sync_timer_.active = true := fun h => h2 (Or.inl h)
    have h4 : ¬ w.webdav_storage_.isSome = true := fun h => h2 (Or.inr h)
    refine ⟨h, ?_, ?_⟩
    · show w.webdav_storage_ = none
      cases hs : w.webdav_storage_ with
      | none => rfl
      | some c => rw [hs] at h4; exact absurd rfl h4
    · show w.sync_timer_.active = false
      simpa using h3

/-- A refresh with sync enabled in the configuration leaves the periodic timer
running with the interval of the cached minutes. -/
theorem refresh_timer (w : SyncWorld ρ) (h : w.appState.webdav_enabled_ = true) :
    (refreshConfigurationFromAppState w).sync_timer_.active = true ∧
    (refreshConfigurationFromAppState w).sync_timer_.interval =
      wrapInt32 ((refreshConfigurationFromAppState w).sync_interval_minutes_ * 60000) := by
  unfold refreshConfigurationFromAppState syncStop
  dsimp only
  rw [if_neg (by simp [h])]
  split_ifs
  all_goals first
    | exact ⟨rfl, rfl⟩
    | (rename_i hlast
       exact ⟨by simpa using fun h => hlast (Or.inl h), by simpa using fun h => hlast (Or.inr h)⟩)

/-- The client after a refresh with sync enabled: a new one, built from the
configured settings, when a connection setting differs from the cached one or none
is held; else the one held. -/
theorem refresh_storage (w : SyncWorld ρ) (h : w.appState.webdav_enabled_ = true) :
    ((w.server_address_ ≠ configuredAddress w.appState ∨
        w.username_ ≠ w.appState.webdav_username_ ∨
        w.password_ ≠ w.appState.webdav_password_ ∨ w.webdav_storage_ = none) →
      (refreshConfigurationFromAppState w).webdav_storage_ =
        some ⟨configuredAddress w.appState, w.appState.webdav_username_,
          w.appState.webdav_password_⟩ ∧
      (refreshConfigurationFromAppState w).storagesCreated = w.storagesCreated + 1) ∧
    (¬ (w.server_address_ ≠ configuredAddress w.appState ∨
        w.username_ ≠ w.appState.webdav_username_ ∨
        w.password_ ≠ w.appState.webdav_password_ ∨ w.webdav_storage_ = none) →
      (refreshConfigurationFromAppState w).webdav_storage_ = w.webdav_storage_ ∧
      (refreshConfigurationFromAppState w).storagesCreated = w.storagesCreated) := by
  unfold refreshConfigurationFromAppState syncStop configuredAddress
  dsimp only
  generalize (if w.appState.webdav_server_address_ ≠ "" ∧
      endsWith w.appState.webdav_server_address_ "/" = false then
    w.appState.webdav_server_address_ ++ "/" else w.appState.webdav_server_address_) = addr
  have hcond : ((decide (w.server_address_ ≠ addr) ||
        decide (w.username_ ≠ w.appState.webdav_username_) ||
        decide (w.password_ ≠ w.appState.webdav_password_)) = true ∨
      w.webdav_storage_.isSome = false) ↔
      (w.server_address_ ≠ addr ∨
        w.username_ ≠ w.appState.webdav_username_ ∨
        w.password_ ≠ w.appState.webdav_password_ ∨ w.webdav_storage_ = none) := by
    cases hs : w.webdav_storage_ <;> simp [or_assoc]
  rw [if_neg (by simp [h])]
  constructor
  · intro hch
    rw [if_pos (hcond.mpr hch)]
    split_ifs <;> exact ⟨rfl, rfl⟩
  · intro hch
    rw [if_neg (fun hc => hch (hcond.mp hc))]
    split_ifs <;> exact ⟨rfl, rfl⟩

end refresh

/-! ## Lemmas: what a pass leaves of the manager -/

section manager
variable {ρ : Type}

theorem SameManager.refl (w : SyncWorld ρ) : SameManager w w :=
  ⟨rfl, rfl, rfl, rfl, rfl, rfl, rfl, rfl, rfl, rfl, rfl, rfl⟩

theorem SameManager.trans {u v w : SyncWorld ρ} (h1 : SameManager u v) (h2 : SameManager v w) :
    SameManager u w := by
  obtain ⟨a1, a2, a3, a4, a5, a6, a7, a8, a9, a10, a11, a12⟩ := h1
  obtain ⟨b1, b2, b3, b4, b5, b6, b7, b8, b9, b10, b11, b12⟩ := h2
  exact ⟨b1.trans a1, b2.trans a2, b3.trans a3, b4.trans a4, b5.trans a5, b6.trans a6,
    b7.trans a7, b8.trans a8, b9.trans a9, b10.trans a10, b11.trans a11, b12.trans a12⟩

theorem sameManager_emit (w : SyncWorld ρ) (evs : List Event) : SameManager w (w.emit evs) :=
  ⟨rfl, rfl, rfl, rfl, rfl, rfl, rfl, rfl, rfl, rfl, rfl, rfl⟩

theorem sameManager_afterRemoteCall (w : SyncWorld ρ) (s : ρ) (reqs : List Request) :
    SameManager w (w.afterRemoteCall s reqs) :=
  ⟨rfl, rfl, rfl, rfl, rfl, rfl, rfl, rfl, rfl, rfl, rfl, rfl⟩

theorem sameManager_getRemoteNoteTimestamps (env : Env ρ) (w : SyncWorld ρ) :
    SameManager w (getRemoteNoteTimestamps env w).2 := by
  unfold getRemoteNoteTimestamps
  cases w.webdav_storage_ with
  | none => exact SameManager.refl w
  | some c =>
    dsimp only
    cases (c.readAllNotes env w.remote).1 <;> exact sameManager_afterRemoteCall w _ _

theorem sameManager_downloadStep (lts : TimestampMap) (rl : List Note) (w : SyncWorld ρ)
    (e : String × NoteTimestamp) : SameManager w (downloadStep lts rl w e) := by
  unfold downloadStep
  dsimp only
  split
  · split
    · exact ⟨rfl, rfl, rfl, rfl, rfl, rfl, rfl, rfl, rfl, rfl, rfl, rfl⟩
    · exact SameManager.refl w
  · split
    · split
      · exact ⟨rfl, rfl, rfl, rfl, rfl, rfl, rfl, rfl, rfl, rfl, rfl, rfl⟩
      · exact SameManager.refl w
    · exact SameManager.refl w

theorem sameManager_foldl_downloadStep (lts : TimestampMap) (rl : List Note)
    (m : TimestampMap) (w : SyncWorld ρ) :
    SameManager w (m.foldl (downloadStep lts rl) w) := by
  induction m generalizing w with
  | nil => exact SameManager.refl w
  | cons a m ih =>
    rw [List.foldl_cons]
    exact (sameManager_downloadStep lts rl w a).trans (ih _)

theorem sameManager_downloadMissingOrUpdatedNotes (env : Env ρ) (w : SyncWorld ρ)
    (m : TimestampMap) : SameManager w (downloadMissingOrUpdatedNotes env w m) := by
  unfold downloadMissingOrUpdatedNotes
  cases w.webdav_storage_ with
  | none => exact SameManager.refl w
  | some c =>
    dsimp only
    exact (sameManager_afterRemoteCall w _ _).trans (sameManager_foldl_downloadStep _ _ _ _)

theorem sameManager_uploadNote (env : Env ρ) (w : SyncWorld ρ) (note : Note) :
    SameManager w (uploadNote env w note) := by
  unfold uploadNote
  cases w.webdav_storage_ with
  | none => exact SameManager.refl w
  | some c =>
    dsimp only
    split
    · exact (sameManager_afterRemoteCall w _ _).trans (sameManager_emit _ _)
    · exact sameManager_afterRemoteCall w _ _

theorem sameManager_uploadStep (env : Env ρ) (rts : TimestampMap) (w : SyncWorld ρ)
    (note : Note) : SameManager w (uploadStep env rts w note) := by
  rw [uploadStep_eq]
  split
  · exact sameManager_uploadNote env w note
  · exact SameManager.refl w

theorem sameManager_foldl_uploadStep (env : Env ρ) (rts : TimestampMap) (ns : List Note)
    (w : SyncWorld ρ) : SameManager w (ns.foldl (uploadStep env rts) w) := by
  induction ns generalizing w with
  | nil => exact SameManager.refl w
  | cons a ns ih =>
    rw [List.foldl_cons]
    exact (sameManager_uploadStep env rts w a).trans (ih _)

theorem sameManager_uploadChangedNotes (env : Env ρ) (w : SyncWorld ρ) :
    SameManager w (uploadChangedNotes env w) := by
  unfold uploadChangedNotes
  dsimp only
  exact (sameManager_getRemoteNoteTimestamps env w).trans (sameManager_foldl_uploadStep _ _ _ _)

/-- A pass leaves the manager as its configuration refresh left it (the last error
and the last sync time apart). -/
theorem sameManager_performSync (env : Env ρ) (w : SyncWorld ρ) :
    SameManager (refreshConfigurationFromAppState w) (performSync env w) := by
  unfold performSync
  dsimp only
  split
  · exact SameManager.refl _
  · split
    · exact ⟨rfl, rfl, rfl, rfl, rfl, rfl, rfl, rfl, rfl, rfl, rfl, rfl⟩
    · have h1 := sameManager_emit (refreshConfigurationFromAppState w) [.syncStarted]
      have h2 := sameManager_getRemoteNoteTimestamps env
        ((refreshConfigurationFromAppState w).emit [.syncStarted])
      have h3 := sameManager_downloadMissingOrUpdatedNotes env
        (getRemoteNoteTimestamps env ((refreshConfigurationFromAppState w).emit [.syncStarted])).2
        (getRemoteNoteTimestamps env ((refreshConfigurationFromAppState w).emit [.syncStarted])).1
      have h4 := sameManager_uploadChangedNotes env
        (downloadMissingOrUpdatedNotes env
          (getRemoteNoteTimestamps env
            ((refreshConfigurationFromAppState w).emit [.syncStarted])).2
          (getRemoteNoteTimestamps env
            ((refreshConfigurationFromAppState w).emit [.syncStarted])).1)
      have h5 := ((h1.trans h2).trans h3).trans h4
      obtain ⟨a1, a2, a3, a4, a5, a6, a7, a8, a9, a10, a11, a12⟩ := h5
      exact ⟨a1, a2, a3, a4, a5, a6, a7, a8, a9, a10, a11, a12⟩

/-- With sync disabled in the configuration a pass is the configuration refresh. -/
theorem performSync_disabled (env : Env ρ) (w : SyncWorld ρ)
    (h : w.appState.webdav_enabled_ = false) :
    performSync env w = refreshConfigurationFromAppState w := by
  unfold performSync
  dsimp only
  rw [if_pos (by rw [refresh_enabled_eq]; exact h)]

/-- A refresh with sync enabled leaves a periodic timer alone that runs with the
configured interval. -/
theorem refresh_timer_keep (w : SyncWorld ρ) (h : w.appState.webdav_enabled_ = true)
    (hactive : w.sync_timer_.active = true)
    (hinterval : w.sync_timer_.interval =
      wrapInt32 (max 1 w.appState.webdav_sync_interval_minutes_ * 60000)) :
    (refreshConfigurationFromAppState w).sync_timer_ = w.sync_timer_ := by
  unfold refreshConfigurationFromAppState syncStop
  dsimp only
  rw [if_neg (by simp [h])]
  split_ifs
  all_goals first
    | rfl
    | (rename_i hlast
       rcases hlast with h1 | h1
       · rw [hactive] at h1; exact absurd h1 (by simp)
       · exact absurd hinterval h1)

end manager

/-! ## Lemmas: the interval floor along operations -/

section floor
variable {ρ : Type}

theorem refresh_interval_ge (w : SyncWorld ρ) :
    1 ≤ (refreshConfigurationFromAppState w).sync_interval_minutes_ := by
  rw [(refresh_cached w).2.2.2]
  exact le_max_left _ _

theorem performSync_interval_ge (env : Env ρ) (w : SyncWorld ρ) :
    1 ≤ (performSync env w).sync_interval_minutes_ := by
  rw [(sameManager_performSync env w).2.2.2.2.1]
  exact refresh_interval_ge w

theorem syncStart_interval_ge (w : SyncWorld ρ) : 1 ≤ (syncStart w).sync_interval_minutes_ := by
  unfold syncStart
  dsimp only
  split
  · exact refresh_interval_ge w
  · exact refresh_interval_ge w

theorem sameManager_checkRemoteNoteForUpdate (env : Env ρ) (w : SyncWorld ρ) (uuid : String) :
    SameManager w (checkRemoteNoteForUpdate env w uuid).2 := by
  unfold checkRemoteNoteForUpdate
  cases w.webdav_storage_ with
  | none => exact SameManager.refl w
  | some c =>
    dsimp only
    cases w.note_store_.getNote uuid with
    | none => exact SameManager.refl w
    | some l =>
      dsimp only
      cases (c.readAllNotes env w.remote).1 with
      | failure e => exact sameManager_afterRemoteCall w _ _
      | success rs =>
        dsimp only
        cases rs.find? (fun note => note.uuid == uuid) with
        | none => exact sameManager_afterRemoteCall w _ _
        | some r => exact (sameManager_afterRemoteCall w _ _).trans (sameManager_emit _ _)

theorem sameManager_downloadNoteIfRemoteNewer (env : Env ρ) (w : SyncWorld ρ) (uuid : String) :
    SameManager w (downloadNoteIfRemoteNewer env w uuid) := by
  unfold downloadNoteIfRemoteNewer
  cases w.webdav_storage_ with
  | none => exact SameManager.refl w
  | some c =>
    dsimp only
    cases w.note_store_.getNote uuid with
    | none => exact SameManager.refl w
    | some l =>
      dsimp only
      cases (c.readAllNotes env w.remote).1 with
      | failure e => exact sameManager_afterRemoteCall w _ _
      | success rs =>
        dsimp only
        cases rs.find? (fun note => note.uuid == uuid) with
        | none => exact sameManager_afterRemoteCall w _ _
        | some r =>
          dsimp only
          split
          · exact ⟨rfl, rfl, rfl, rfl, rfl, rfl, rfl, rfl, rfl, rfl, rfl, rfl⟩
          · exact sameManager_afterRemoteCall w _ _

theorem onSearchDebounceTimerTimeout_interval_ge (env : Env ρ) (w : SyncWorld ρ)
    (h : 1 ≤ w.sync_interval_minutes_) :
    1 ≤ (onSearchDebounceTimerTimeout env w).sync_interval_minutes_ := by
  unfold onSearchDebounceTimerTimeout
  split
  · exact performSync_interval_ge env w
  · exact h

theorem tick_interval_ge (env : Env ρ) (w : SyncWorld ρ) (h : 1 ≤ w.sync_interval_minutes_) :
    1 ≤ (tick env w).sync_interval_minutes_ := by
  unfold tick
  dsimp only
  split
  · apply onSearchDebounceTimerTimeout_interval_ge
    split
    · exact performSync_interval_ge env _
    · exact h
  · split
    · exact performSync_interval_ge env _
    · exact h

theorem elapse_interval_ge (env : Env ρ) (n : Nat) (w : SyncWorld ρ)
    (h : 1 ≤ w.sync_interval_minutes_) : 1 ≤ (elapse env n w).sync_interval_minutes_ := by
  induction n generalizing w with
  | zero => exact h
  | succ n ih => exact ih _ (tick_interval_ge env w h)

/-- Every operation keeps the cached interval at one minute or more. -/
theorem apply_interval_ge (env : Env ρ) (w : SyncWorld ρ) (op : Op ρ)
    (h : 1 ≤ w.sync_interval_minutes_) : 1 ≤ (op.apply env w).sync_interval_minutes_ := by
  cases op with
  | setEnabled enabled =>
    show 1 ≤ (setEnabled w enabled).sync_interval_minutes_
    unfold setEnabled
    dsimp only
    split
    · exact syncStart_interval_ge _
    · exact h
  | setServerAddress address => exact h
  | setUsername username => exact h
  | setPassword password => exact h
  | setSyncIntervalMinutes minutes => exact le_max_left _ _
  | syncStart => exact syncStart_interval_ge w
  | syncStop => exact h
  | syncNow =>
    show 1 ≤ (syncNow env w).sync_interval_minutes_
    unfold syncNow
    dsimp only
    split
    · exact refresh_interval_ge w
    · exact performSync_interval_ge env _
  | triggerSyncOnSearch =>
    show 1 ≤ (triggerSyncOnSearch w).sync_interval_minutes_
    unfold triggerSyncOnSearch
    dsimp only
    split
    · exact refresh_interval_ge w
    · split
      · exact refresh_interval_ge w
      · exact refresh_interval_ge w
  | onSyncTimerTimeout => exact performSync_interval_ge env w
  | onSearchDebounceTimerTimeout => exact onSearchDebounceTimerTimeout_interval_ge env w h
  | uploadNote note =>
    show 1 ≤ (uploadNote env w note).sync_interval_minutes_
    rw [(sameManager_uploadNote env w note).2.2.2.2.1]
    exact h
  | checkRemoteNoteForUpdate uuid =>
    show 1 ≤ (checkRemoteNoteForUpdate env w uuid).2.sync_interval_minutes_
    rw [(sameManager_checkRemoteNoteForUpdate env w uuid).2.2.2.2.1]
    exact h
  | downloadNoteIfRemoteNewer uuid =>
    show 1 ≤ (downloadNoteIfRemoteNewer env w uuid).sync_interval_minutes_
    rw [(sameManager_downloadNoteIfRemoteNewer env w uuid).2.2.2.2.1]
    exact h
  | elapse ms => exact elapse_interval_ge env ms w h
  | configure appState => exact h
  | editCollection store => exact h
  | changeRemote remote => exact h
  | setClock now => exact h

theorem foldl_apply_interval_ge (env : Env ρ) (ops : List (Op ρ)) (w : SyncWorld ρ)
    (h : 1 ≤ w.sync_interval_minutes_) :
    1 ≤ (ops.foldl (Op.apply env) w).sync_interval_minutes_ := by
  induction ops generalizing w with
  | nil => exact h
  | cons op ops ih => exact ih _ (apply_interval_ge env w op h)

end floor

/-! ## Lemmas: a settled manager and the passing of time -/

section time
variable {ρ : Type}

/-- A refresh with sync enabled in the configuration settles the manager. -/
theorem settled_refresh (w : SyncWorld ρ) (h : w.appState.webdav_enabled_ = true) :
    Settled (refreshConfigurationFromAppState w) := by
  obtain ⟨-, -, -, happ, -⟩ := refresh_frame w
  obtain ⟨hc1, hc2, hc3, hc4⟩ := refresh_cached w
  obtain ⟨ht1, ht2⟩ := refresh_timer w h
  obtain ⟨c, hc⟩ := refresh_client_of_enabled w h
  refine ⟨by rw [happ]; exact h, by rw [refresh_enabled_eq]; exact h, by rw [happ]; exact hc1,
    by rw [happ]; exact hc2, by rw [happ]; exact hc3, by rw [happ]; exact hc4, ?_, ht1, ht2⟩
  rw [hc]
  rfl

/-- A configuration refresh leaves a settled manager as it is. -/
theorem refresh_of_settled (w : SyncWorld ρ) (hs : Settled w) :
    refreshConfigurationFromAppState w = w := by
  obtain ⟨h1, h2, h3, h4, h5, h6, h7, h8, h9⟩ := hs
  unfold configuredAddress at h3
  unfold refreshConfigurationFromAppState
  dsimp only
  generalize (if w.appState.webdav_server_address_ ≠ "" ∧
      endsWith w.appState.webdav_server_address_ "/" = false then
    w.appState.webdav_server_address_ ++ "/" else w.appState.webdav_server_address_) = addr
    at h3 ⊢
  have e1 : ¬ w.appState.webdav_enabled_ = false := by simp [h1]
  have e2 : ¬ ((decide (w.server_address_ ≠ addr) ||
        decide (w.username_ ≠ w.appState.webdav_username_) ||
        decide (w.password_ ≠ w.appState.webdav_password_)) = true ∨
      w.webdav_storage_.isSome = false) := by simp [h3, h4, h5, h7]
  have e3 : ¬ (w.sync_timer_.active = false ∨
      w.sync_timer_.interval ≠
        wrapInt32 (max 1 w.appState.webdav_sync_interval_minutes_ * 60000)) := by
    rw [← h6, ← h9]
    simp [h8]
  rw [if_neg e1, if_neg e2, if_neg e3]
  cases w
  simp only [SyncWorld.mk.injEq, and_true, true_and] at *
  exact ⟨h1.trans h2.symm, h3.symm, h4.symm, h5.symm, h6.symm⟩

end time

/-! ## Lemmas: timers while time passes -/

section timers
variable {ρ : Type}

theorem QTimer.later_zero (t : QTimer) : t.later 0 = t := by
  unfold QTimer.later
  split_ifs
  · show ({ t with remaining := t.remaining - ((0 : Nat) : Int) } : QTimer) = t
    rw [Nat.cast_zero, sub_zero]
  · rfl

theorem QTimer.later_later (t : QTimer) (m n : Nat) :
    (t.later m).later n = t.later (m + n) := by
  unfold QTimer.later
  by_cases h : t.active = true
  · rw [if_pos h, if_pos h, if_pos (show t.active = true from h)]
    show ({ t with remaining := t.remaining - (m : Int) - (n : Int) } : QTimer) =
      { t with remaining := t.remaining - ((m + n : Nat) : Int) }
    rw [Nat.cast_add, sub_sub]
  · rw [if_neg h, if_neg h, if_neg h]

theorem QTimer.later_active (t : QTimer) (n : Nat) : (t.later n).active = t.active := by
  unfold QTimer.later
  split_ifs <;> rfl

theorem QTimer.later_interval (t : QTimer) (n : Nat) : (t.later n).interval = t.interval := by
  unfold QTimer.later
  split_ifs <;> rfl

theorem QTimer.later_remaining (t : QTimer) (n : Nat) (h : t.active = true) :
    (t.later n).remaining = t.remaining - n := by
  unfold QTimer.later
  rw [if_pos h]

/-- A timer that is stopped, or has more than a millisecond left, does not fire in
the next millisecond. -/
theorem QTimer.tick_not_due (t : QTimer) (h : t.active = true → 1 < t.remaining) :
    t.tick = (t.later 1, false) := by
  unfold QTimer.tick QTimer.later
  by_cases ha : t.active = true
  · have h1 := h ha
    rw [if_neg (by simp [ha]), if_neg (by omega), if_pos ha]
    rfl
  · rw [if_pos (by simpa using ha), if_neg ha]

/-- A running timer with at most a millisecond left fires in the next
millisecond. -/
theorem QTimer.tick_fire (t : QTimer) (ha : t.active = true) (h : t.remaining ≤ 1) :
    t.tick.2 = true := by
  unfold QTimer.tick
  rw [if_neg (by simp [ha]), if_pos h]

/-- A fired timer is stopped, or runs again for its whole interval. -/
theorem QTimer.tick_fire_next (t : QTimer) (ha : t.active = true) (h : t.remaining ≤ 1) :
    t.tick.1.active = true → t.tick.1.remaining = t.interval := by
  unfold QTimer.tick
  rw [if_neg (by simp [ha]), if_pos h]
  split_ifs
  · intro hc
    exact absurd hc (by simp)
  · intro _
    rfl

/-- A millisecond in which no timer fires only moves the timers on. -/
theorem tick_quiet (env : Env ρ) (w : SyncWorld ρ)
    (hs : w.sync_timer_.active = true → 1 < w.sync_timer_.remaining)
    (hd : w.search_debounce_timer_.active = true → 1 < w.search_debounce_timer_.remaining) :
    tick env w = { w with sync_timer_ := w.sync_timer_.later 1,
                          search_debounce_timer_ := w.search_debounce_timer_.later 1 } := by
  unfold tick
  dsimp only
  rw [QTimer.tick_not_due _ hs, QTimer.tick_not_due _ hd]
  rfl

/-- While no timer is due, the passing of time only moves the timers on. -/
theorem elapse_quiet (env : Env ρ) (n : Nat) :
    ∀ w : SyncWorld ρ,
      (w.sync_timer_.active = true → (n : Int) < w.sync_timer_.remaining) →
      (w.search_debounce_timer_.active = true →
        (n : Int) < w.search_debounce_timer_.remaining) →
      elapse env n w = { w with sync_timer_ := w.sync_timer_.later n,
                                search_debounce_timer_ := w.search_debounce_timer_.later n } := by
  induction n with
  | zero =>
    intro w _ _
    show w = _
    rw [QTimer.later_zero, QTimer.later_zero]
  | succ n ih =>
    intro w hs hd
    have hs1 : w.sync_timer_.active = true → 1 < w.sync_timer_.remaining := fun h => by
      have := hs h
      push_cast at this
      omega
    have hd1 : w.search_debounce_timer_.active = true →
        1 < w.search_debounce_timer_.remaining := fun h => by
      have := hd h
      push_cast at this
      omega
    show elapse env n (tick env w) = _
    rw [tick_quiet env w hs1 hd1, ih]
    · show ({ w with sync_timer_ := (w.sync_timer_.later 1).later n,
                     search_debounce_timer_ := (w.search_debounce_timer_.later 1).later n } :
        SyncWorld ρ) = _
      rw [QTimer.later_later, QTimer.later_later, Nat.add_comm 1 n]
    · intro h
      rw [QTimer.later_active] at h
      show (n : Int) < (w.sync_timer_.later 1).remaining
      rw [QTimer.later_remaining _ _ h]
      have := hs h
      push_cast at this ⊢
      omega
    · intro h
      rw [QTimer.later_active] at h
      show (n : Int) < (w.search_debounce_timer_.later 1).remaining
      rw [QTimer.later_remaining _ _ h]
      have := hd h
      push_cast at this ⊢
      omega

theorem elapse_add (env : Env ρ) (m n : Nat) :
    ∀ w : SyncWorld ρ, elapse env (m + n) w = elapse env n (elapse env m w) := by
  induction m with
  | zero =>
    intro w
    rw [Nat.zero_add]
    rfl
  | succ m ih =>
    intro w
    rw [Nat.succ_add]
    show elapse env (m + n) (tick env w) = elapse env n (elapse env m (tick env w))
    exact ih _

theorem elapse_succ_last (env : Env ρ) (n : Nat) (w : SyncWorld ρ) :
    elapse env (n + 1) w = tick env (elapse env n w) := by
  rw [elapse_add]
  rfl

end timers

/-! ## Lemmas: the debounced trigger -/

section debounce
variable {ρ : Type}

/-- Being settled depends on the configuration, the cached settings, the client
and on whether and with which interval the periodic timer runs. -/
theorem settled_congr (w v : SyncWorld ρ) (hs : Settled w)
    (h1 : v.appState = w.appState) (h2 : v.enabled_ = w.enabled_)
    (h3 : v.server_address_ = w.server_address_) (h4 : v.username_ = w.username_)
    (h5 : v.password_ = w.password_)
    (h6 : v.sync_interval_minutes_ = w.sync_interval_minutes_)
    (h7 : v.webdav_storage_ = w.webdav_storage_)
    (h8 : v.sync_timer_.active = w.sync_timer_.active)
    (h9 : v.sync_timer_.interval = w.sync_timer_.interval) : Settled v := by
  unfold Settled at hs ⊢
  rw [h1, h2, h3, h4, h5, h6, h7, h8, h9]
  exact hs

theorem settled_of_sameManager (w v : SyncWorld ρ) (hs : Settled w) (h : SameManager w v) :
    Settled v := by
  obtain ⟨a1, a2, a3, a4, a5, a6, a7, -, -, -, a11, -⟩ := h
  exact settled_congr w v hs a11 a1 a2 a3 a4 a5 a6 (by rw [a7]) (by rw [a7])

/-- A trigger while a debounced pass is pending changes nothing. -/
theorem trigger_pending (w : SyncWorld ρ) (hs : Settled w)
    (hp : w.pending_search_sync_ = true) : triggerSyncOnSearch w = w := by
  unfold triggerSyncOnSearch
  dsimp only
  rw [refresh_of_settled w hs, if_neg (by simp [hs.2.1]), if_pos hp]

/-- A trigger while no debounced pass is pending sets the flag and arms the
debounce timer for 500 ms. -/
theorem trigger_fresh (w : SyncWorld ρ) (hs : Settled w)
    (hp : w.pending_search_sync_ = false) :
    triggerSyncOnSearch w =
      { w with pending_search_sync_ := true,
               search_debounce_timer_ := w.search_debounce_timer_.start 500 } := by
  unfold triggerSyncOnSearch
  dsimp only
  rw [refresh_of_settled w hs, if_neg (by simp [hs.2.1]), if_neg (by simp [hp])]

/-- A trigger refreshes the configuration first. -/
theorem trigger_refresh (w : SyncWorld ρ) (h : w.appState.webdav_enabled_ = true) :
    triggerSyncOnSearch w = triggerSyncOnSearch (refreshConfigurationFromAppState w) := by
  have hs := settled_refresh w h
  unfold triggerSyncOnSearch
  dsimp only
  rw [refresh_of_settled _ hs]

/-- A pass appends its events to the trace. -/
theorem performSync_trace_append (env : Env ρ) (w : SyncWorld ρ) :
    (performSync env w).trace = w.trace ++ passEvents env w := by
  by_cases henabled : w.appState.webdav_enabled_ = true
  · obtain ⟨client, hclient⟩ := refresh_client_of_enabled w henabled
    obtain ⟨w0, hphase, hstore, hst, hrem, htrace⟩ :=
      downloadPhase_loop env w client hclient
    obtain ⟨devs, hd1, hd2⟩ := foldl_downloadStep_events (timestampsOf w.note_store_)
      (listedNotes (passListing2 env client w).1)
      (timestampsOf (listedNotes (passListing1 env client w).1)) w0
    obtain ⟨hf1, hf2⟩ := foldl_downloadStep_frame (timestampsOf w.note_store_)
      (listedNotes (passListing2 env client w).1)
      (timestampsOf (listedNotes (passListing1 env client w).1)) w0
    rw [← hphase] at hd1 hf1 hf2
    have hcD : (downloadPhase env w).webdav_storage_ = some client := hf1.trans hst
    obtain ⟨uevs, hu1, -, -⟩ := uploadChangedNotes_events env (downloadPhase env w) client hcD
    unfold passEvents
    rw [performSync_trace env w henabled, hu1, hd1, htrace]
    simp only [List.append_assoc, List.drop_left]
  · have hd : w.appState.webdav_enabled_ = false := by simpa using henabled
    unfold passEvents
    rw [performSync_disabled env w hd, (refresh_frame w).2.2.1]
    simp

/-- The first request of a listing is its PROPFIND. -/
theorem readAllNotes_head (env : Env ρ) (c : WebDAVStorage) (s : ρ) :
    ∃ rest, (c.readAllNotes env s).2.2 =
      ⟨c.baseUrl, "PROPFIND", propfindBody, c.authString⟩ :: rest := by
  have hsend : (c.sendRequest env s c.baseUrl "PROPFIND" propfindBody).2.2 =
      [⟨c.baseUrl, "PROPFIND", propfindBody, c.authString⟩] := by
    unfold WebDAVStorage.sendRequest
    rw [if_pos (Or.inr (Or.inr (Or.inl rfl)))]
    dsimp only
    split_ifs <;> rfl
  unfold WebDAVStorage.readAllNotes
  dsimp only
  split_ifs
  · exact ⟨[], hsend⟩
  · show ∃ rest, (c.sendRequest env s c.baseUrl "PROPFIND" propfindBody).2.2 ++ _ = _
    rw [hsend]
    exact ⟨_, rfl⟩

/-- The shape of an enabled pass: `syncStarted`, then the PROPFIND of the first
listing, then requests, local writes and per-note signals, then
`syncFinished(true)`. -/
theorem passEvents_shape (env : Env ρ) (w : SyncWorld ρ)
    (henabled : w.appState.webdav_enabled_ = true) :
    ∃ q rest, q.method = "PROPFIND" ∧
      passEvents env w = .syncStarted :: .request q :: rest ++ [.syncFinished true] ∧
      ∀ ev ∈ Event.request q :: rest,
        ev ≠ .syncStarted ∧ (∀ b, ev ≠ .syncFinished b) ∧ ∀ s, ev ≠ .syncError s := by
  obtain ⟨client, hclient⟩ := refresh_client_of_enabled w henabled
  obtain ⟨devs, uevs, heq, hd, hu, -⟩ := passEvents_enabled env w client henabled hclient
  obtain ⟨rest1, hrest1⟩ : ∃ rest1, (passListing1 env client w).2.2 =
      ⟨client.baseUrl, "PROPFIND", propfindBody, client.authString⟩ :: rest1 :=
    readAllNotes_head env client _
  have hreq : ∀ (l : List Request) (ev : Event), ev ∈ l.map Event.request →
      ev ≠ .syncStarted ∧ (∀ b, ev ≠ .syncFinished b) ∧ ∀ s, ev ≠ .syncError s := by
    intro l ev hmem
    obtain ⟨q, -, rfl⟩ := List.mem_map.mp hmem
    exact ⟨fun h => Event.noConfusion h, fun _ h => Event.noConfusion h,
      fun _ h => Event.noConfusion h⟩
  refine ⟨⟨client.baseUrl, "PROPFIND", propfindBody, client.authString⟩,
    rest1.map Event.request ++ (passListing2 env client w).2.2.map Event.request ++ devs ++
      (passListing3 env client w).2.2.map Event.request ++ uevs, rfl, ?_, ?_⟩
  · rw [heq, hrest1]
    simp only [List.map_cons, List.append_assoc, List.cons_append, List.nil_append]
  · intro ev hev
    have hev2 : ev ∈ (passListing1 env client w).2.2.map Event.request ++
        (passListing2 env client w).2.2.map Event.request ++ devs ++
        (passListing3 env client w).2.2.map Event.request ++ uevs := by
      rw [hrest1]
      simpa only [List.map_cons, List.append_assoc, List.cons_append] using hev
    rcases List.mem_append.mp hev2 with h4 | h4
    · rcases List.mem_append.mp h4 with h3 | h3
      · rcases List.mem_append.mp h3 with h2 | h2
        · rcases List.mem_append.mp h2 with h1 | h1
          · exact hreq _ ev h1
          · exact hreq _ ev h1
        · obtain ⟨e, -, -, note, -, hor⟩ := hd ev h2
          rcases hor with rfl | rfl <;>
            exact ⟨fun h => Event.noConfusion h, fun _ h => Event.noConfusion h,
              fun _ h => Event.noConfusion h⟩
      · exact hreq _ ev h3
    · obtain ⟨n, -, -, hor⟩ := hu ev h4
      rcases hor with rfl | rfl <;>
        exact ⟨fun h => Event.noConfusion h, fun _ h => Event.noConfusion h,
          fun _ h => Event.noConfusion h⟩

end debounce

/-! ## Lemmas: the debounce timer running out -/

section fire
variable {ρ : Type}

/-- The debounce timer of a pending pass runs out: a pass runs at that
millisecond and the flag is cleared. -/
theorem debounce_fires (env : Env ρ) (v : SyncWorld ρ) (d : Nat) (hd : 0 < d)
    (hp : v.pending_search_sync_ = true) (hda : v.search_debounce_timer_.active = true)
    (hdr : v.search_debounce_timer_.remaining = d)
    (hq : v.sync_timer_.active = true → (d : Int) < v.sync_timer_.remaining) :
    elapse env d v =
      { performSync env
          { v with sync_timer_ := v.sync_timer_.later d,
                   search_debounce_timer_ := ((v.search_debounce_timer_.later (d - 1)).tick).1 }
        with pending_search_sync_ := false } := by
  obtain ⟨n, rfl⟩ : ∃ n, d = n + 1 := ⟨d - 1, by omega⟩
  have hq1 : v.sync_timer_.active = true → (n : Int) < v.sync_timer_.remaining := fun h => by
    have := hq h
    push_cast at this
    omega
  have hd1 : v.search_debounce_timer_.active = true →
      (n : Int) < v.search_debounce_timer_.remaining := fun _ => by
    rw [hdr]
    push_cast
    omega
  rw [elapse_succ_last, elapse_quiet env n v hq1 hd1]
  have hsq : (v.sync_timer_.later n).tick = ((v.sync_timer_.later n).later 1, false) := by
    apply QTimer.tick_not_due
    intro h
    rw [QTimer.later_active] at h
    rw [QTimer.later_remaining _ _ h]
    have := hq h
    push_cast at this
    omega
  have hf : ((v.search_debounce_timer_.later n).tick).2 = true := by
    apply QTimer.tick_fire
    · rw [QTimer.later_active]
      exact hda
    · rw [QTimer.later_remaining _ _ hda, hdr]
      push_cast
      omega
  unfold tick
  dsimp only
  rw [hsq, hf, QTimer.later_later]
  dsimp only
  rw [if_pos (rfl : true = true), if_neg (show ¬ (false = true) by decide)]
  unfold onSearchDebounceTimerTimeout
  rw [if_pos hp]
  rfl

end fire

/-! ## Lemmas: a quiet period from its first trigger on -/

section scenario
variable {ρ : Type}

/-- The manager `k` ms after a first trigger, `k < 500`, while the periodic timer
is not due. -/
theorem elapse_after_trigger (env : Env ρ) (v : SyncWorld ρ) (hs : Settled v)
    (hvp : v.pending_search_sync_ = false) (k : Nat) (hk : k < 500)
    (hq : (k : Int) < v.sync_timer_.remaining) :
    elapse env k (triggerSyncOnSearch v) =
      { v with
        pending_search_sync_ := true,
        sync_timer_ := v.sync_timer_.later k,
        search_debounce_timer_ := (v.search_debounce_timer_.start 500).later k } := by
  rw [trigger_fresh v hs hvp, elapse_quiet]
  · intro _
    exact hq
  · intro _
    show (k : Int) < 500
    omega

/-- A quiet period: after a first trigger nothing is emitted and the flag stays
set until 500 ms have passed; then one pass runs, the flag is cleared, and nothing
more is emitted while neither timer is due. -/
theorem debounce_scenario (env : Env ρ) (v : SyncWorld ρ) (hs : Settled v)
    (hvp : v.pending_search_sync_ = false) (k m : Nat) (hk : k < 500) (hm : m < 500)
    (hq : ((500 + m : Nat) : Int) < v.sync_timer_.remaining) :
    Settled (elapse env k (triggerSyncOnSearch v)) ∧
    (elapse env k (triggerSyncOnSearch v)).pending_search_sync_ = true ∧
    (∀ j, j < 500 - k →
      (elapse env j (elapse env k (triggerSyncOnSearch v))).pending_search_sync_ = true ∧
      (elapse env j (elapse env k (triggerSyncOnSearch v))).trace = v.trace) ∧
    ∃ q rest, q.method = "PROPFIND" ∧
      (∀ ev ∈ Event.request q :: rest,
        ev ≠ .syncStarted ∧ (∀ b, ev ≠ .syncFinished b) ∧ ∀ s, ev ≠ .syncError s) ∧
      ∀ j, j ≤ m →
        (elapse env (500 - k + j)
          (elapse env k (triggerSyncOnSearch v))).pending_search_sync_ = false ∧
        (elapse env (500 - k + j) (elapse env k (triggerSyncOnSearch v))).trace =
          v.trace ++ (.syncStarted :: .request q :: rest ++ [.syncFinished true]) := by
  have hq0 : (k : Int) < v.sync_timer_.remaining := by
    push_cast at hq
    omega
  rw [elapse_after_trigger env v hs hvp k hk hq0]
  have hsa : v.sync_timer_.active = true := hs.2.2.2.2.2.2.2.1
  have hsW : Settled ({ v with
        pending_search_sync_ := true,
        sync_timer_ := v.sync_timer_.later k,
        search_debounce_timer_ := (v.search_debounce_timer_.start 500).later k } :
      SyncWorld ρ) :=
    settled_congr v _ hs rfl rfl rfl rfl rfl rfl rfl (QTimer.later_active _ _)
      (QTimer.later_interval _ _)
  have hda : ((v.search_debounce_timer_.start 500).later k).active = true := by
    rw [QTimer.later_active]
    rfl
  have hdr : ((v.search_debounce_timer_.start 500).later k).remaining =
      ((500 - k : Nat) : Int) := by
    rw [QTimer.later_remaining _ _ rfl]
    show (500 : Int) - k = _
    omega
  have hsr : (v.sync_timer_.later k).remaining = v.sync_timer_.remaining - k :=
    QTimer.later_remaining _ _ hsa
  refine ⟨hsW, rfl, ?_, ?_⟩
  · intro j hj
    rw [elapse_quiet]
    · exact ⟨rfl, rfl⟩
    · intro _
      show (j : Int) < (v.sync_timer_.later k).remaining
      rw [hsr]
      push_cast at hq
      omega
    · intro _
      show (j : Int) < ((v.search_debounce_timer_.start 500).later k).remaining
      rw [hdr]
      omega
  · have hfire := debounce_fires env
      ({ v with
        pending_search_sync_ := true,
        sync_timer_ := v.sync_timer_.later k,
        search_debounce_timer_ := (v.search_debounce_timer_.start 500).later k } :
        SyncWorld ρ) (500 - k) (by omega) rfl hda hdr
      (fun _ => by
        show ((500 - k : Nat) : Int) < (v.sync_timer_.later k).remaining
        rw [hsr]
        push_cast at hq
        omega)
    have hsV : Settled ({ v with
        pending_search_sync_ := true,
        sync_timer_ := (v.sync_timer_.later k).later (500 - k),
        search_debounce_timer_ :=
          (((v.search_debounce_timer_.start 500).later k).later (500 - k - 1)).tick.1 } :
        SyncWorld ρ) :=
      settled_congr v _ hs rfl rfl rfl rfl rfl rfl rfl
        (by
          show ((v.sync_timer_.later k).later (500 - k)).active = _
          rw [QTimer.later_active, QTimer.later_active])
        (by
          show ((v.sync_timer_.later k).later (500 - k)).interval = _
          rw [QTimer.later_interval, QTimer.later_interval])
    have hsame := sameManager_performSync env
      ({ v with
        pending_search_sync_ := true,
        sync_timer_ := (v.sync_timer_.later k).later (500 - k),
        search_debounce_timer_ :=
          (((v.search_debounce_timer_.start 500).later k).later (500 - k - 1)).tick.1 } :
        SyncWorld ρ)
    rw [refresh_of_settled _ hsV] at hsame
    obtain ⟨-, -, -, -, -, -, a7, a8, -, -, -, -⟩ := hsame
    obtain ⟨q, rest, hqm, hshape, hclean⟩ := passEvents_shape env
      ({ v with
        pending_search_sync_ := true,
        sync_timer_ := (v.sync_timer_.later k).later (500 - k),
        search_debounce_timer_ :=
          (((v.search_debounce_timer_.start 500).later k).later (500 - k - 1)).tick.1 } :
        SyncWorld ρ) hs.1
    have htr := performSync_trace_append env
      ({ v with
        pending_search_sync_ := true,
        sync_timer_ := (v.sync_timer_.later k).later (500 - k),
        search_debounce_timer_ :=
          (((v.search_debounce_timer_.start 500).later k).later (500 - k - 1)).tick.1 } :
        SyncWorld ρ)
    rw [hshape] at htr
    refine ⟨q, rest, hqm, hclean, ?_⟩
    intro j hj
    rw [elapse_add, hfire, elapse_quiet]
    · exact ⟨rfl, htr⟩
    · intro _
      rw [a7]
      show (j : Int) < ((v.sync_timer_.later k).later (500 - k)).remaining
      rw [QTimer.later_later, QTimer.later_remaining _ _ hsa]
      push_cast at hq ⊢
      omega
    · intro hact
      rw [a8] at hact ⊢
      have hT1 : (((v.search_debounce_timer_.start 500).later k).later (500 - k - 1)).active
          = true := by
        rw [QTimer.later_active]
        exact hda
      have hT2 : (((v.search_debounce_timer_.start 500).later k).later
          (500 - k - 1)).remaining ≤ 1 := by
        rw [QTimer.later_remaining _ _ hda, hdr]
        omega
      have hnext := QTimer.tick_fire_next _ hT1 hT2 hact
      show (j : Int) < ((((v.search_debounce_timer_.start 500).later k).later
          (500 - k - 1)).tick).1.remaining
      rw [hnext, QTimer.later_interval, QTimer.later_interval]
      show (j : Int) < 500
      omega

end scenario

/-! ## Lemmas: an attempted sync -/

section attempt
variable {ρ : Type}

theorem newEvents_of_trace (w x : SyncWorld ρ) (l : List Event)
    (h : x.trace = w.trace ++ l) : newEvents w x = l := by
  unfold newEvents
  rw [h, List.drop_left]

/-- With sync disabled in the configuration an attempted sync emits nothing,
leaves the remote side alone and builds no client. -/
theorem attemptSync_disabled (env : Env ρ) (w : SyncWorld ρ) (t : SyncTrigger)
    (h : w.appState.webdav_enabled_ = false) :
    (attemptSync env t w).trace = w.trace ∧ (attemptSync env t w).remote = w.remote ∧
    (w.webdav_storage_ = none → (attemptSync env t w).webdav_storage_ = none) := by
  obtain ⟨hd1, hd2, -⟩ := refresh_disabled w h
  obtain ⟨-, hr, ht, -, -⟩ := refresh_frame w
  cases t with
  | syncNow =>
    have hs : attemptSync env .syncNow w = refreshConfigurationFromAppState w := by
      show syncNow env w = _
      unfold syncNow
      dsimp only
      rw [if_pos hd1]
    rw [hs]
    exact ⟨ht, hr, fun _ => hd2⟩
  | periodicTick =>
    have hs : attemptSync env .periodicTick w = refreshConfigurationFromAppState w :=
      performSync_disabled env w h
    rw [hs]
    exact ⟨ht, hr, fun _ => hd2⟩
  | debounceFire =>
    show (onSearchDebounceTimerTimeout env w).trace = w.trace ∧
      (onSearchDebounceTimerTimeout env w).remote = w.remote ∧
      (w.webdav_storage_ = none → (onSearchDebounceTimerTimeout env w).webdav_storage_ = none)
    unfold onSearchDebounceTimerTimeout
    split_ifs
    · rw [performSync_disabled env w h]
      exact ⟨ht, hr, fun _ => hd2⟩
    · exact ⟨rfl, rfl, fun h => h⟩

/-- With sync enabled in the configuration an attempted sync is a pass, run with
the client the configuration refresh leaves. -/
theorem attemptSync_enabled (env : Env ρ) (w : SyncWorld ρ) (t : SyncTrigger)
    (h : w.appState.webdav_enabled_ = true)
    (hfire : t = .debounceFire → w.pending_search_sync_ = true) :
    (attemptSync env t w).webdav_storage_ =
      (refreshConfigurationFromAppState w).webdav_storage_ ∧
    ∃ q rest, q.method = "PROPFIND" ∧
      newEvents w (attemptSync env t w) =
        .syncStarted :: .request q :: rest ++ [.syncFinished true] ∧
      ∀ ev ∈ Event.request q :: rest,
        ev ≠ .syncStarted ∧ (∀ b, ev ≠ .syncFinished b) ∧ ∀ s, ev ≠ .syncError s := by
  obtain ⟨-, -, ht, happ, -⟩ := refresh_frame w
  have hs := settled_refresh w h
  cases t with
  | syncNow =>
    have he : attemptSync env .syncNow w =
        performSync env (refreshConfigurationFromAppState w) := by
      show syncNow env w = _
      unfold syncNow
      dsimp only
      rw [if_neg (by rw [hs.2.1]; simp)]
    rw [he]
    have hsame := sameManager_performSync env (refreshConfigurationFromAppState w)
    rw [refresh_of_settled _ hs] at hsame
    obtain ⟨q, rest, hq, hshape, hclean⟩ :=
      passEvents_shape env (refreshConfigurationFromAppState w) hs.1
    refine ⟨hsame.2.2.2.2.2.1, q, rest, hq, ?_, hclean⟩
    apply newEvents_of_trace
    rw [performSync_trace_append, hshape, ht]
  | periodicTick =>
    show (performSync env w).webdav_storage_ = _ ∧ _
    obtain ⟨q, rest, hq, hshape, hclean⟩ := passEvents_shape env w h
    refine ⟨(sameManager_performSync env w).2.2.2.2.2.1, q, rest, hq, ?_, hclean⟩
    apply newEvents_of_trace
    show (performSync env w).trace = _
    rw [performSync_trace_append, hshape]
  | debounceFire =>
    have he : attemptSync env .debounceFire w =
        { performSync env w with pending_search_sync_ := false } := by
      show onSearchDebounceTimerTimeout env w = _
      unfold onSearchDebounceTimerTimeout
      rw [if_pos (hfire rfl)]
    rw [he]
    obtain ⟨q, rest, hq, hshape, hclean⟩ := passEvents_shape env w h
    refine ⟨(sameManager_performSync env w).2.2.2.2.2.1, q, rest, hq, ?_, hclean⟩
    apply newEvents_of_trace
    show (performSync env w).trace = _
    rw [performSync_trace_append, hshape]

end attempt

/-! ## C11: `syncNow` with sync disabled -/

/-- C11. When the configuration reports sync disabled, `syncNow` adds nothing to the
trace (no request, no signal), leaves the remote side as it is, and afterwards the
periodic timer is stopped and no client is held. -/
theorem syncNow_disabled_noop {ρ : Type} (env : Env ρ) (w : SyncWorld ρ)
    (h : w.appState.webdav_enabled_ = false) :
    (syncNow env w).trace = w.trace ∧ (syncNow env w).remote = w.remote ∧
    (syncNow env w).sync_timer_.active = false ∧ (syncNow env w).webdav_storage_ = none := by
  obtain ⟨hd1, hd2, hd3⟩ := refresh_disabled w h
  obtain ⟨-, hr, ht, -, -⟩ := refresh_frame w
  have hs : syncNow env w = refreshConfigurationFromAppState w := by
    unfold syncNow
    dsimp only
    rw [if_pos hd1]
  rw [hs]
  exact ⟨ht, hr, hd3, hd2⟩

/-- C11 at a world whose manager still runs the timer and holds a client. -/
theorem syncNow_disabled_noop_witness :
    (syncNow (exEnv [exRemoteA]) exDisabledWorld).trace = exDisabledWorld.trace ∧
    (syncNow (exEnv [exRemoteA]) exDisabledWorld).remote = exDisabledWorld.remote ∧
    (syncNow (exEnv [exRemoteA]) exDisabledWorld).sync_timer_.active = false ∧
    (syncNow (exEnv [exRemoteA]) exDisabledWorld).webdav_storage_ = none :=
  syncNow_disabled_noop (exEnv [exRemoteA]) exDisabledWorld (by decide)

/-! ## C12: two triggers 100 ms apart -/

/-- The started example manager is settled. -/
theorem exIdleWorld_settled : Settled exIdleWorld := by decide

set_option maxRecDepth 100000 in
/-- C12, refuted as stated: in the example world two triggers 100 ms apart are
followed by nothing for 399 ms; 400 ms after the second call the one pass has run
(`syncStarted`, three listings, `syncFinished(true)`); and up to 500 ms after the
second call nothing more is emitted.  The pass starts 500 ms after the first call,
not after the second. -/
theorem two_triggers_counterexample :
    (∀ k, k < 400 → (elapse (exEnv []) k (twoTriggers (exEnv []) exIdleWorld)).trace = []) ∧
    (elapse (exEnv []) 400 (twoTriggers (exEnv []) exIdleWorld)).trace =
      [.syncStarted, .request exPropfind, .request exPropfind, .request exPropfind,
        .syncFinished true] ∧
    (∀ k, 400 ≤ k → k ≤ 500 →
      (elapse (exEnv []) k (twoTriggers (exEnv []) exIdleWorld)).trace =
        (elapse (exEnv []) 400 (twoTriggers (exEnv []) exIdleWorld)).trace) := by
  have hs := exIdleWorld_settled
  obtain ⟨hsW, hpW, hbefore, q, rest, -, -, hafter⟩ :=
    debounce_scenario (exEnv []) exIdleWorld hs rfl 100 100 (by decide) (by decide) (by decide)
  have htwo : twoTriggers (exEnv []) exIdleWorld =
      elapse (exEnv []) 100 (triggerSyncOnSearch exIdleWorld) := trigger_pending _ hsW hpW
  rw [htwo]
  refine ⟨fun k hk => (hbefore k hk).2, ?_, ?_⟩
  · rw [elapse_after_trigger (exEnv []) exIdleWorld hs rfl 100 (by decide) (by decide),
      debounce_fires (exEnv []) _ 400 (by decide) rfl (by decide) (by decide)
        (fun _ => by decide)]
    decide
  · intro k h1 h2
    obtain ⟨j, rfl⟩ : ∃ j, k = 400 + j := ⟨k - 400, by omega⟩
    rw [(hafter j (by omega)).2, (hafter 0 (by omega)).2]

/-- C12, amended. With sync enabled in the configuration, no debounced pass pending
and the periodic timer not due within 600 ms of the first call, two calls of
`triggerSyncOnSearch` 100 ms apart emit nothing for 399 ms after the second call;
400 ms after the second call, which is 500 ms after the first, one pass has run
(`syncStarted`, the PROPFIND of its first listing, further events none of which is
`syncStarted`, `syncFinished(true)`); and nothing more is emitted up to 500 ms after
the second call. -/
theorem two_triggers_one_pass {ρ : Type} (env : Env ρ) (w : SyncWorld ρ)
    (henabled : w.appState.webdav_enabled_ = true)
    (hpending : w.pending_search_sync_ = false)
    (hquiet : 600 < (triggerSyncOnSearch w).sync_timer_.remaining) :
    (∀ k, k < 400 → (elapse env k (twoTriggers env w)).trace = w.trace) ∧
    ∃ q rest, q.method = "PROPFIND" ∧
      (∀ ev ∈ Event.request q :: rest, ev ≠ .syncStarted) ∧
      ∀ k, 400 ≤ k → k ≤ 500 →
        (elapse env k (twoTriggers env w)).trace =
          w.trace ++ (.syncStarted :: .request q :: rest ++ [.syncFinished true]) := by
  have hs := settled_refresh w henabled
  obtain ⟨-, -, htr, -, -⟩ := refresh_frame w
  have hp : (refreshConfigurationFromAppState w).pending_search_sync_ = false := by
    rw [(refresh_debounce w).2]
    exact hpending
  have hq : ((500 + 100 : Nat) : Int) <
      (refreshConfigurationFromAppState w).sync_timer_.remaining := by
    rw [trigger_refresh w henabled, trigger_fresh _ hs hp] at hquiet
    exact hquiet
  obtain ⟨hsW, hpW, hbefore, q, rest, hqm, hclean, hafter⟩ :=
    debounce_scenario env _ hs hp 100 100 (by decide) (by decide) hq
  have htwo : twoTriggers env w =
      elapse env 100 (triggerSyncOnSearch (refreshConfigurationFromAppState w)) := by
    unfold twoTriggers
    rw [trigger_refresh w henabled]
    exact trigger_pending _ hsW hpW
  rw [htwo]
  refine ⟨fun k hk => ?_, q, rest, hqm, fun ev hev => (hclean ev hev).1, ?_⟩
  · rw [(hbefore k hk).2, htr]
  · intro k h1 h2
    obtain ⟨j, rfl⟩ : ∃ j, k = 400 + j := ⟨k - 400, by omega⟩
    rw [(hafter j (by omega)).2, htr]

/-- C12, amended, at the started example manager. -/
theorem two_triggers_one_pass_witness :
    (∀ k, k < 400 → (elapse (exEnv []) k (twoTriggers (exEnv []) exIdleWorld)).trace =
      exIdleWorld.trace) ∧
    ∃ q rest, q.method = "PROPFIND" ∧
      (∀ ev ∈ Event.request q :: rest, ev ≠ .syncStarted) ∧
      ∀ k, 400 ≤ k → k ≤ 500 →
        (elapse (exEnv []) k (twoTriggers (exEnv []) exIdleWorld)).trace =
          exIdleWorld.trace ++ (.syncStarted :: .request q :: rest ++ [.syncFinished true]) :=
  two_triggers_one_pass (exEnv []) exIdleWorld (by decide) (by decide) (by decide)

/-! ## C13: a trigger while a debounced pass is pending -/

/-- C13. For a settled manager (sync enabled, configuration unchanged) with the
pending flag set, `triggerSyncOnSearch` changes nothing: the flag stays set and the
debounce timer is not restarted.  And in a quiet period begun by a first trigger
on a settled manager `v`, a second trigger `k < 500` ms later does not move the
deadline: the first trigger arms the debounce timer for 500 ms; after the second
trigger the flag stays set and nothing is emitted for the remaining `500 - k` ms;
then, 500 ms after the first trigger, the pass runs and the flag is cleared. -/
theorem trigger_while_pending_noop {ρ : Type} (env : Env ρ) (w v : SyncWorld ρ)
    (hs : Settled w) (hp : w.pending_search_sync_ = true)
    (hv : Settled v) (hvp : v.pending_search_sync_ = false)
    (k : Nat) (hk : k < 500) (hquiet : 500 < v.sync_timer_.remaining) :
    triggerSyncOnSearch w = w ∧
    (triggerSyncOnSearch v).pending_search_sync_ = true ∧
    (triggerSyncOnSearch v).search_debounce_timer_.active = true ∧
    (triggerSyncOnSearch v).search_debounce_timer_.remaining = 500 ∧
    (elapse env k (triggerSyncOnSearch v)).pending_search_sync_ = true ∧
    triggerSyncOnSearch (elapse env k (triggerSyncOnSearch v)) =
      elapse env k (triggerSyncOnSearch v) ∧
    (∀ j, j < 500 - k →
      (elapse env j (triggerSyncOnSearch
        (elapse env k (triggerSyncOnSearch v)))).pending_search_sync_ = true ∧
      (elapse env j (triggerSyncOnSearch
        (elapse env k (triggerSyncOnSearch v)))).trace = v.trace) ∧
    (elapse env (500 - k) (triggerSyncOnSearch
      (elapse env k (triggerSyncOnSearch v)))).pending_search_sync_ = false ∧
    ∃ mid, (elapse env (500 - k) (triggerSyncOnSearch
        (elapse env k (triggerSyncOnSearch v)))).trace =
      v.trace ++ (.syncStarted :: mid ++ [.syncFinished true]) := by
  obtain ⟨hsW, hpW, hbefore, q, rest, -, -, hafter⟩ :=
    debounce_scenario env v hv hvp k 0 hk (by decide) (by simpa using hquiet)
  have hno := trigger_pending _ hsW hpW
  rw [hno]
  refine ⟨trigger_pending w hs hp, ?_, ?_, ?_, hpW, rfl, hbefore, (hafter 0 (le_refl 0)).1,
    Event.request q :: rest, (hafter 0 (le_refl 0)).2⟩
  all_goals rw [trigger_fresh v hv hvp]
  all_goals rfl

/-- C13 at the example manager: `w` right after a first trigger, and a quiet
period with the second trigger 100 ms after the first. -/
theorem trigger_while_pending_noop_witness :
    triggerSyncOnSearch (triggerSyncOnSearch exIdleWorld) = triggerSyncOnSearch exIdleWorld ∧
    (triggerSyncOnSearch exIdleWorld).pending_search_sync_ = true ∧
    (triggerSyncOnSearch exIdleWorld).search_debounce_timer_.active = true ∧
    (triggerSyncOnSearch exIdleWorld).search_debounce_timer_.remaining = 500 ∧
    (elapse (exEnv []) 100 (triggerSyncOnSearch exIdleWorld)).pending_search_sync_ = true ∧
    triggerSyncOnSearch (elapse (exEnv []) 100 (triggerSyncOnSearch exIdleWorld)) =
      elapse (exEnv []) 100 (triggerSyncOnSearch exIdleWorld) ∧
    (∀ j, j < 500 - 100 →
      (elapse (exEnv []) j (triggerSyncOnSearch
        (elapse (exEnv []) 100 (triggerSyncOnSearch exIdleWorld)))).pending_search_sync_
          = true ∧
      (elapse (exEnv []) j (triggerSyncOnSearch
        (elapse (exEnv []) 100 (triggerSyncOnSearch exIdleWorld)))).trace =
          exIdleWorld.trace) ∧
    (elapse (exEnv []) (500 - 100) (triggerSyncOnSearch
      (elapse (exEnv []) 100 (triggerSyncOnSearch exIdleWorld)))).pending_search_sync_
        = false ∧
    ∃ mid, (elapse (exEnv []) (500 - 100) (triggerSyncOnSearch
        (elapse (exEnv []) 100 (triggerSyncOnSearch exIdleWorld)))).trace =
      exIdleWorld.trace ++ (.syncStarted :: mid ++ [.syncFinished true]) :=
  trigger_while_pending_noop (exEnv []) (triggerSyncOnSearch exIdleWorld) exIdleWorld
    (by decide) (by decide) (by decide) (by decide)
    100 (by decide) (by decide)

/-! ## C14: a sync attempted without a client -/

set_option maxRecDepth 100000 in
/-- C14, refuted as stated: in the example world the manager holds no client and
the configuration enables sync; `syncNow` and the periodic tick each build the
client and run a whole pass, with three PROPFIND requests on the network and
`syncFinished(true)`, without any `syncError`. -/
theorem attemptSync_without_client_counterexample :
    (exWorld [] []).webdav_storage_ = none ∧
    newEvents (exWorld [] []) (attemptSync (exEnv []) .syncNow (exWorld [] [])) =
      [.syncStarted, .request exPropfind, .request exPropfind, .request exPropfind,
        .syncFinished true] ∧
    newEvents (exWorld [] []) (attemptSync (exEnv []) .periodicTick (exWorld [] [])) =
      [.syncStarted, .request exPropfind, .request exPropfind, .request exPropfind,
        .syncFinished true] := by
  refine ⟨by decide, by decide, by decide⟩

/-- C14, amended. In a state without a remote client an attempted sync (`syncNow`,
periodic tick or debounce fire) never emits `syncError` or `syncFinished(false)`.
With sync disabled in the configuration it emits nothing, leaves the remote side
alone and builds no client.  With sync enabled in the configuration (and, for a
debounce fire, the pending flag set) it builds the client from the configured
settings and runs a pass: `syncStarted`, the PROPFIND of the first listing, further
events, `syncFinished(true)`. -/
theorem attemptSync_without_client {ρ : Type} (env : Env ρ) (w : SyncWorld ρ)
    (t : SyncTrigger) (hnone : w.webdav_storage_ = none) :
    (∀ ev ∈ newEvents w (attemptSync env t w),
      (∀ s, ev ≠ .syncError s) ∧ ev ≠ .syncFinished false) ∧
    (w.appState.webdav_enabled_ = false →
      newEvents w (attemptSync env t w) = [] ∧ (attemptSync env t w).remote = w.remote ∧
      (attemptSync env t w).webdav_storage_ = none) ∧
    (w.appState.webdav_enabled_ = true →
      (t = .debounceFire → w.pending_search_sync_ = true) →
      (attemptSync env t w).webdav_storage_ =
        some ⟨configuredAddress w.appState, w.appState.webdav_username_,
          w.appState.webdav_password_⟩ ∧
      ∃ q rest, q.method = "PROPFIND" ∧
        newEvents w (attemptSync env t w) =
          .syncStarted :: .request q :: rest ++ [.syncFinished true]) := by
  have hdis : w.appState.webdav_enabled_ = false →
      newEvents w (attemptSync env t w) = [] ∧ (attemptSync env t w).remote = w.remote ∧
      (attemptSync env t w).webdav_storage_ = none := by
    intro h
    obtain ⟨h1, h2, h3⟩ := attemptSync_disabled env w t h
    exact ⟨newEvents_of_trace w _ [] (by rw [h1, List.append_nil]), h2, h3 hnone⟩
  have hen : w.appState.webdav_enabled_ = true →
      (t = .debounceFire → w.pending_search_sync_ = true) →
      (attemptSync env t w).webdav_storage_ =
        some ⟨configuredAddress w.appState, w.appState.webdav_username_,
          w.appState.webdav_password_⟩ ∧
      ∃ q rest, q.method = "PROPFIND" ∧
        newEvents w (attemptSync env t w) =
          .syncStarted :: .request q :: rest ++ [.syncFinished true] := by
    intro h hfire
    obtain ⟨h1, q, rest, hq, hshape, -⟩ := attemptSync_enabled env w t h hfire
    rw [((refresh_storage w h).1 (Or.inr (Or.inr (Or.inr hnone)))).1] at h1
    exact ⟨h1, q, rest, hq, hshape⟩
  refine ⟨?_, hdis, hen⟩
  intro ev hev
  by_cases h : w.appState.webdav_enabled_ = true
  · by_cases hfire : t = .debounceFire → w.pending_search_sync_ = true
    · obtain ⟨-, q, rest, -, hshape, hclean⟩ := attemptSync_enabled env w t h hfire
      rw [hshape] at hev
      rcases List.mem_cons.mp hev with rfl | hev
      · exact ⟨fun _ h => Event.noConfusion h, fun h => Event.noConfusion h⟩
      · rcases List.mem_append.mp hev with hev | hev
        · exact ⟨(hclean ev hev).2.2, (hclean ev hev).2.1 false⟩
        · rw [List.mem_singleton.mp hev]
          exact ⟨fun _ h => Event.noConfusion h, by decide⟩
    · push_neg at hfire
      obtain ⟨rfl, hp⟩ := hfire
      have he : attemptSync env .debounceFire w = w := by
        show onSearchDebounceTimerTimeout env w = w
        unfold onSearchDebounceTimerTimeout
        rw [if_neg hp]
      rw [he, newEvents_of_trace w w [] (by rw [List.append_nil])] at hev
      exact absurd hev (List.not_mem_nil ev)
  · rw [(hdis (by simpa using h)).1] at hev
    exact absurd hev (List.not_mem_nil ev)

set_option maxRecDepth 100000 in
/-- C14, amended, at the example world for `syncNow`. -/
theorem attemptSync_without_client_witness :
    (∀ ev ∈ newEvents (exWorld [] []) (attemptSync (exEnv []) .syncNow (exWorld [] [])),
      (∀ s, ev ≠ .syncError s) ∧ ev ≠ .syncFinished false) ∧
    ((exWorld [] []).appState.webdav_enabled_ = false →
      newEvents (exWorld [] []) (attemptSync (exEnv []) .syncNow (exWorld [] [])) = [] ∧
      (attemptSync (exEnv []) .syncNow (exWorld [] [])).remote = (exWorld [] []).remote ∧
      (attemptSync (exEnv []) .syncNow (exWorld [] [])).webdav_storage_ = none) ∧
    ((exWorld [] []).appState.webdav_enabled_ = true →
      (SyncTrigger.syncNow = .debounceFire → (exWorld [] []).pending_search_sync_ = true) →
      (attemptSync (exEnv []) .syncNow (exWorld [] [])).webdav_storage_ =
        some ⟨configuredAddress (exWorld [] []).appState,
          (exWorld [] []).appState.webdav_username_,
          (exWorld [] []).appState.webdav_password_⟩ ∧
      ∃ q rest, q.method = "PROPFIND" ∧
        newEvents (exWorld [] []) (attemptSync (exEnv []) .syncNow (exWorld [] [])) =
          .syncStarted :: .request q :: rest ++ [.syncFinished true]) :=
  attemptSync_without_client (exEnv []) (exWorld [] []) .syncNow (by decide)

/-! ## C15: a pass reports success -/

/-- C15. When the configuration enables sync, whatever the remote side answers, a
pass emits `syncStarted`, then events none of which is `syncStarted`,
`syncFinished` or `syncError`, then `syncFinished(true)`; and these are appended to
the trace.  The result of a write to local storage is only logged by the program,
so it does not enter. -/
theorem pass_reports_success {ρ : Type} (env : Env ρ) (w : SyncWorld ρ)
    (henabled : w.appState.webdav_enabled_ = true) :
    ∃ mid, passEvents env w = .syncStarted :: mid ++ [.syncFinished true] ∧
      (∀ ev ∈ mid, ev ≠ .syncStarted ∧ (∀ b, ev ≠ .syncFinished b) ∧ ∀ s, ev ≠ .syncError s) ∧
      (performSync env w).trace = w.trace ++ (.syncStarted :: mid ++ [.syncFinished true]) := by
  obtain ⟨q, rest, -, hshape, hclean⟩ := passEvents_shape env w henabled
  refine ⟨Event.request q :: rest, hshape, hclean, ?_⟩
  rw [performSync_trace_append, hshape]

/-- C15 at a world whose server is down, with a local note to upload. -/
theorem pass_reports_success_witness :
    ∃ mid, passEvents exDownEnv (exWorld [exLocalOldA] []) =
        .syncStarted :: mid ++ [.syncFinished true] ∧
      (∀ ev ∈ mid, ev ≠ .syncStarted ∧ (∀ b, ev ≠ .syncFinished b) ∧ ∀ s, ev ≠ .syncError s) ∧
      (performSync exDownEnv (exWorld [exLocalOldA] [])).trace =
        (exWorld [exLocalOldA] []).trace ++ (.syncStarted :: mid ++ [.syncFinished true]) :=
  pass_reports_success exDownEnv (exWorld [exLocalOldA] []) (by decide)

/-! ## C16: `setEnabled(true)` -/

/-- With sync enabled in the configuration, `setEnabled(true)` is the
configuration refresh of the manager with its flag set. -/
theorem setEnabled_true_eq {ρ : Type} (w : SyncWorld ρ)
    (h : w.appState.webdav_enabled_ = true) :
    setEnabled w true = refreshConfigurationFromAppState { w with enabled_ := true } := by
  have ht := (refresh_timer ({ w with enabled_ := true } : SyncWorld ρ) h).1
  unfold setEnabled
  dsimp only
  rw [if_pos rfl]
  unfold syncStart
  dsimp only
  rw [if_pos (Or.inr ht)]

/-- C16, refuted as stated: with sync disabled in the configuration,
`setEnabled(true)` leaves the orchestrator disabled, without a client and with the
periodic timer stopped. -/
theorem setEnabled_true_counterexample :
    (setEnabled exDisabledWorld true).enabled_ = false ∧
    (setEnabled exDisabledWorld true).webdav_storage_ = none ∧
    (setEnabled exDisabledWorld true).sync_timer_.active = false := by
  refine ⟨by decide, by decide, by decide⟩

/-- A held client that was built before `setServerAddress` changed the cached
address survives `setEnabled(true)` when the cache equals the configuration. -/
theorem setEnabled_true_keeps_stale_client :
    exStaleWorld.appState.webdav_enabled_ = true ∧
    (setEnabled exStaleWorld true).webdav_storage_ = some ⟨"http://old/", "user", "secret"⟩ := by
  refine ⟨by decide, by decide⟩

/-- An `int` expression whose exact value is in the 32-bit range has that value. -/
theorem wrapInt32_of_fits (x : Int) (h1 : -2147483648 ≤ x) (h2 : x ≤ 2147483647) :
    wrapInt32 x = x := by
  unfold wrapInt32
  omega

/-- The product `minutes * 60000` of `int`s is exact for one minute up to 35791
minutes. -/
theorem wrapInt32_minutes (minutes : Int) (h1 : 1 ≤ minutes) (h2 : minutes ≤ 35791) :
    wrapInt32 (minutes * 60000) = minutes * 60000 :=
  wrapInt32_of_fits _ (by omega) (by omega)

/-- C16, amended. When the configuration reports sync enabled and a held client,
if any, is the one built from the cached connection settings, then after
`setEnabled(true)` the orchestrator is enabled, holds a client built from the
configured settings (address normalised), and caches `max 1` of the configured
minutes; and when these are at most 35791, so that the `int` product with 60000
does not overflow, the periodic timer runs with the interval of the cached minutes
times 60000 ms. -/
theorem setEnabled_true_enabled {ρ : Type} (w : SyncWorld ρ)
    (h : w.appState.webdav_enabled_ = true)
    (hheld : ∀ c, w.webdav_storage_ = some c →
      c = ⟨w.server_address_, w.username_, w.password_⟩) :
    (setEnabled w true).enabled_ = true ∧
    (setEnabled w true).webdav_storage_ =
      some ⟨configuredAddress w.appState, w.appState.webdav_username_,
        w.appState.webdav_password_⟩ ∧
    (setEnabled w true).sync_interval_minutes_ =
      max 1 w.appState.webdav_sync_interval_minutes_ ∧
    ((setEnabled w true).sync_interval_minutes_ ≤ 35791 →
      (setEnabled w true).sync_timer_.active = true ∧
      (setEnabled w true).sync_timer_.interval =
        (setEnabled w true).sync_interval_minutes_ * 60000) := by
  rw [setEnabled_true_eq w h]
  have hen := refresh_enabled_eq ({ w with enabled_ := true } : SyncWorld ρ)
  obtain ⟨ht1, ht2⟩ := refresh_timer ({ w with enabled_ := true } : SyncWorld ρ) h
  obtain ⟨-, -, -, hc4⟩ := refresh_cached ({ w with enabled_ := true } : SyncWorld ρ)
  obtain ⟨hs1, hs2⟩ := refresh_storage ({ w with enabled_ := true } : SyncWorld ρ) h
  have hge := refresh_interval_ge ({ w with enabled_ := true } : SyncWorld ρ)
  refine ⟨hen.trans h, ?_, hc4,
    fun hle => ⟨ht1, ht2.trans (wrapInt32_minutes _ hge hle)⟩⟩
  by_cases hch : (w.server_address_ ≠ configuredAddress w.appState ∨
      w.username_ ≠ w.appState.webdav_username_ ∨
      w.password_ ≠ w.appState.webdav_password_ ∨ w.webdav_storage_ = none)
  · exact (hs1 hch).1
  · rw [(hs2 hch).1]
    have h1 : w.server_address_ = configuredAddress w.appState := by
      by_contra hne; exact hch (Or.inl hne)
    have h2 : w.username_ = w.appState.webdav_username_ := by
      by_contra hne; exact hch (Or.inr (Or.inl hne))
    have h3 : w.password_ = w.appState.webdav_password_ := by
      by_contra hne; exact hch (Or.inr (Or.inr (Or.inl hne)))
    cases hst : w.webdav_storage_ with
    | none => exact absurd (Or.inr (Or.inr (Or.inr hst))) hch
    | some c =>
      show some c = _
      rw [hheld c hst, h1, h2, h3]

/-- C16 amended, at a freshly constructed manager with sync configured at five
minutes: the timer runs with 300000 ms. -/
theorem setEnabled_true_enabled_witness :
    (setEnabled (exWorld [] []) true).enabled_ = true ∧
    (setEnabled (exWorld [] []) true).webdav_storage_ =
      some ⟨configuredAddress (exWorld [] []).appState,
        (exWorld [] []).appState.webdav_username_, (exWorld [] []).appState.webdav_password_⟩ ∧
    (setEnabled (exWorld [] []) true).sync_interval_minutes_ =
      max 1 (exWorld [] []).appState.webdav_sync_interval_minutes_ ∧
    (setEnabled (exWorld [] []) true).sync_timer_.active = true ∧
    (setEnabled (exWorld [] []) true).sync_timer_.interval =
      (setEnabled (exWorld [] []) true).sync_interval_minutes_ * 60000 ∧
    (setEnabled (exWorld [] []) true).sync_timer_.interval = 300000 :=
  ⟨(setEnabled_true_enabled (exWorld [] []) (by decide) (by decide)).1,
    (setEnabled_true_enabled (exWorld [] []) (by decide) (by decide)).2.1,
    (setEnabled_true_enabled (exWorld [] []) (by decide) (by decide)).2.2.1,
    ((setEnabled_true_enabled (exWorld [] []) (by decide) (by decide)).2.2.2 (by decide)).1,
    ((setEnabled_true_enabled (exWorld [] []) (by decide) (by decide)).2.2.2 (by decide)).2,
    by decide⟩

/-! ## C17: when the client is rebuilt -/

/-- C17. A configuration refresh with sync enabled: if the normalised server
address, the username or the password differs from the cached value, a new client
is built from the configured settings (the count of clients built goes up by one);
if none of the three differs and a client is held, that client stays and no client
is built, whatever the configured and the cached interval are. -/
theorem refresh_rebuilds_client_iff_changed {ρ : Type} (w : SyncWorld ρ)
    (h : w.appState.webdav_enabled_ = true) :
    ((w.server_address_ ≠ configuredAddress w.appState ∨
        w.username_ ≠ w.appState.webdav_username_ ∨
        w.password_ ≠ w.appState.webdav_password_) →
      (refreshConfigurationFromAppState w).webdav_storage_ =
        some ⟨configuredAddress w.appState, w.appState.webdav_username_,
          w.appState.webdav_password_⟩ ∧
      (refreshConfigurationFromAppState w).storagesCreated = w.storagesCreated + 1) ∧
    ((w.server_address_ = configuredAddress w.appState ∧
        w.username_ = w.appState.webdav_username_ ∧
        w.password_ = w.appState.webdav_password_) →
      ∀ c, w.webdav_storage_ = some c →
        (refreshConfigurationFromAppState w).webdav_storage_ = some c ∧
        (refreshConfigurationFromAppState w).storagesCreated = w.storagesCreated) := by
  obtain ⟨hs1, hs2⟩ := refresh_storage w h
  constructor
  · intro hch
    apply hs1
    rcases hch with h1 | h1 | h1
    · exact Or.inl h1
    · exact Or.inr (Or.inl h1)
    · exact Or.inr (Or.inr (Or.inl h1))
  · rintro ⟨h1, h2, h3⟩ c hc
    have hn : ¬ (w.server_address_ ≠ configuredAddress w.appState ∨
        w.username_ ≠ w.appState.webdav_username_ ∨
        w.password_ ≠ w.appState.webdav_password_ ∨ w.webdav_storage_ = none) := by
      rintro (h4 | h4 | h4 | h4)
      · exact h4 h1
      · exact h4 h2
      · exact h4 h3
      · rw [hc] at h4; exact absurd h4 (by simp)
    obtain ⟨h5, h6⟩ := hs2 hn
    exact ⟨h5.trans hc, h6⟩

/-- C17 at a world whose connection settings are cached and whose configured
interval has changed from five to thirty minutes: the held client stays, the timer
is restarted with the new interval. -/
theorem refresh_rebuilds_client_iff_changed_witness :
    (refreshConfigurationFromAppState exRunningWorld).webdav_storage_ = some exClient ∧
    (refreshConfigurationFromAppState exRunningWorld).storagesCreated =
      exRunningWorld.storagesCreated :=
  (refresh_rebuilds_client_iff_changed exRunningWorld (by decide)).2
    ⟨by decide, by decide, by decide⟩ exClient (by decide)

/-! ## C18: the interval floor, and the interval of the timer -/

/-- C18, the defect: with 40000 minutes configured, a refresh caches 40000 minutes
and starts the periodic timer with the `int` product `40000 * 60000`, which
overflows: the interval handed to the timer is -1894967296 ms, not 2400000000 ms. -/
theorem interval_overflows_at_40000 :
    exLongIntervalWorld.appState.webdav_enabled_ = true ∧
    (refreshConfigurationFromAppState exLongIntervalWorld).sync_interval_minutes_ = 40000 ∧
    (refreshConfigurationFromAppState exLongIntervalWorld).sync_timer_.interval =
      -1894967296 ∧
    (refreshConfigurationFromAppState exLongIntervalWorld).sync_timer_.interval ≠
      (refreshConfigurationFromAppState exLongIntervalWorld).sync_interval_minutes_ * 60000 ∧
    (syncStart exLongIntervalWorld).sync_timer_.interval = -1894967296 := by
  refine ⟨by decide, by decide, by decide, by decide, by decide⟩

/-- The parts of C18 that hold: `setSyncIntervalMinutes(m)` stores `max 1 m` for
every integer `m`, a configuration refresh stores `max 1` of the configured
minutes; so the cached interval is at least one minute in every reachable world;
and after a refresh with sync enabled and at most 35791 minutes cached the periodic
timer runs with the interval of the cached minutes times 60000 ms. -/
theorem interval_floor {ρ : Type} (env : Env ρ) :
    (∀ (w : SyncWorld ρ) (m : Int),
      (setSyncIntervalMinutes w m).sync_interval_minutes_ = max 1 m) ∧
    (∀ w : SyncWorld ρ, (refreshConfigurationFromAppState w).sync_interval_minutes_ =
      max 1 w.appState.webdav_sync_interval_minutes_) ∧
    (∀ w : SyncWorld ρ, Reachable env w → 1 ≤ w.sync_interval_minutes_) ∧
    (∀ w : SyncWorld ρ, w.appState.webdav_enabled_ = true →
      (refreshConfigurationFromAppState w).sync_interval_minutes_ ≤ 35791 →
      (refreshConfigurationFromAppState w).sync_timer_.active = true ∧
      (refreshConfigurationFromAppState w).sync_timer_.interval =
        (refreshConfigurationFromAppState w).sync_interval_minutes_ * 60000) := by
  refine ⟨fun w m => rfl, fun w => (refresh_cached w).2.2.2, ?_, ?_⟩
  · rintro w ⟨appState, store, remote, now, ops, rfl⟩
    exact foldl_apply_interval_ge env ops _ (show (1 : Int) ≤ 5 by decide)
  · intro w h hle
    obtain ⟨ht1, ht2⟩ := refresh_timer w h
    exact ⟨ht1, ht2.trans (wrapInt32_minutes _ (refresh_interval_ge w) hle)⟩

/-! ## C19: `checkRemoteNoteForUpdate` -/

/-- C19. `checkRemoteNoteForUpdate(uuid)` returns true exactly when a client is
held, the collection has a note for the uuid, the remote listing succeeds, its
first note with that uuid exists, and that note's modification time is more than
3 seconds after the local one's.  In every case the collection is unchanged and no
write to local storage is among the events of the call. -/
theorem checkRemoteNoteForUpdate_spec {ρ : Type} (env : Env ρ) (w : SyncWorld ρ)
    (uuid : String) :
    ((checkRemoteNoteForUpdate env w uuid).1 = true ↔
      ∃ client localNote remoteNotes remoteNote,
        w.webdav_storage_ = some client ∧
        w.note_store_.getNote uuid = some localNote ∧
        (client.readAllNotes env w.remote).1 = .success remoteNotes ∧
        remoteNotes.find? (fun note => note.uuid == uuid) = some remoteNote ∧
        remoteNote.modified > localNote.modified + seconds 3) ∧
    (checkRemoteNoteForUpdate env w uuid).2.note_store_ = w.note_store_ ∧
    ∀ note, Event.storageWrite note ∉ newEvents w (checkRemoteNoteForUpdate env w uuid).2 := by
  unfold checkRemoteNoteForUpdate newEvents
  cases hst : w.webdav_storage_ with
  | none =>
    refine ⟨⟨fun h => Bool.noConfusion h, ?_⟩, rfl, ?_⟩
    · rintro ⟨c, _, _, _, h, -⟩
      exact Option.noConfusion h
    · intro note
      simp
  | some client =>
    dsimp only
    cases hl : w.note_store_.getNote uuid with
    | none =>
      refine ⟨⟨fun h => Bool.noConfusion h, ?_⟩, rfl, ?_⟩
      · rintro ⟨_, _, _, _, -, h, -⟩
        exact Option.noConfusion h
      · intro note
        simp
    | some l =>
      dsimp only
      cases hr : (client.readAllNotes env w.remote).1 with
      | failure e =>
        refine ⟨⟨fun h => Bool.noConfusion h, ?_⟩, rfl, ?_⟩
        · rintro ⟨c, _, _, _, hc, -, h, -⟩
          cases hc
          rw [hr] at h
          exact Result.noConfusion h
        · intro note
          simp [SyncWorld.afterRemoteCall]
      | success rs =>
        dsimp only
        cases hf : rs.find? (fun note => note.uuid == uuid) with
        | none =>
          refine ⟨⟨fun h => Bool.noConfusion h, ?_⟩, rfl, ?_⟩
          · rintro ⟨c, _, rs2, _, hc, -, h, h2, -⟩
            cases hc
            rw [hr] at h
            cases h
            rw [hf] at h2
            exact Option.noConfusion h2
          · intro note
            simp [SyncWorld.afterRemoteCall]
        | some r =>
          refine ⟨⟨fun h => ⟨client, l, rs, r, rfl, rfl, hr, hf, of_decide_eq_true h⟩, ?_⟩,
            rfl, ?_⟩
          · rintro ⟨c, l2, rs2, r2, hc, hl2, h, h2, h3⟩
            cases hc
            cases hl2
            rw [hr] at h
            cases h
            rw [hf] at h2
            cases h2
            exact decide_eq_true h3
          · intro note
            simp [SyncWorld.afterRemoteCall, SyncWorld.emit]

set_option maxRecDepth 100000 in
/-- C19 at the example world, whose remote copy of note `a` is four seconds newer
than the local one: the verdict is true. -/
theorem checkRemoteNoteForUpdate_spec_witness :
    (checkRemoteNoteForUpdate (exEnv [exRemoteA]) exRunningWorld "a").1 = true ∧
    (checkRemoteNoteForUpdate (exEnv [exRemoteA]) exRunningWorld "a").2.note_store_ =
      exRunningWorld.note_store_ ∧
    ∀ note, Event.storageWrite note ∉
      newEvents exRunningWorld (checkRemoteNoteForUpdate (exEnv [exRemoteA]) exRunningWorld "a").2 :=
  ⟨by decide, (checkRemoteNoteForUpdate_spec (exEnv [exRemoteA]) exRunningWorld "a").2⟩

/-! ## C20: `downloadNoteIfRemoteNewer` -/

/-- C20. On the same world `downloadNoteIfRemoteNewer(uuid)` acts on the verdict of
`checkRemoteNoteForUpdate(uuid)`.  When the verdict is true, the collection
afterwards is the one before updated with the first remote note of that uuid, which
is then the collection's note for the uuid, and the writes to local storage among
the events of the call are that note's alone.  When the verdict is false, the
collection is unchanged and no write to local storage is among the events. -/
theorem downloadNoteIfRemoteNewer_spec {ρ : Type} (env : Env ρ) (w : SyncWorld ρ)
    (uuid : String) :
    ((checkRemoteNoteForUpdate env w uuid).1 = true →
      ∃ client remoteNotes remoteNote,
        w.webdav_storage_ = some client ∧
        (client.readAllNotes env w.remote).1 = .success remoteNotes ∧
        remoteNotes.find? (fun note => note.uuid == uuid) = some remoteNote ∧
        (downloadNoteIfRemoteNewer env w uuid).note_store_ =
          w.note_store_.updateNote remoteNote ∧
        (downloadNoteIfRemoteNewer env w uuid).note_store_.getNote uuid = some remoteNote ∧
        ∀ note, Event.storageWrite note ∈ newEvents w (downloadNoteIfRemoteNewer env w uuid) ↔
          note = remoteNote) ∧
    ((checkRemoteNoteForUpdate env w uuid).1 = false →
      (downloadNoteIfRemoteNewer env w uuid).note_store_ = w.note_store_ ∧
      ∀ note, Event.storageWrite note ∉ newEvents w (downloadNoteIfRemoteNewer env w uuid)) := by
  unfold checkRemoteNoteForUpdate downloadNoteIfRemoteNewer newEvents
  cases hst : w.webdav_storage_ with
  | none =>
    refine ⟨fun h => Bool.noConfusion h, fun _ => ⟨rfl, ?_⟩⟩
    intro note
    simp
  | some client =>
    dsimp only
    cases hl : w.note_store_.getNote uuid with
    | none =>
      refine ⟨fun h => Bool.noConfusion h, fun _ => ⟨rfl, ?_⟩⟩
      intro note
      simp
    | some l =>
      dsimp only
      cases hr : (client.readAllNotes env w.remote).1 with
      | failure e =>
        refine ⟨fun h => Bool.noConfusion h, fun _ => ⟨rfl, ?_⟩⟩
        intro note
        simp [SyncWorld.afterRemoteCall]
      | success rs =>
        dsimp only
        cases hf : rs.find? (fun note => note.uuid == uuid) with
        | none =>
          refine ⟨fun h => Bool.noConfusion h, fun _ => ⟨rfl, ?_⟩⟩
          intro note
          simp [SyncWorld.afterRemoteCall]
        | some r =>
          dsimp only
          have hu : r.uuid = uuid := uuid_of_find rs uuid r hf
          constructor
          · intro h
            have hnewer : r.modified > l.modified + seconds 3 := of_decide_eq_true h
            rw [if_pos hnewer]
            refine ⟨client, rs, r, rfl, hr, hf, rfl, ?_, ?_⟩
            · show NoteStore.getNote (NoteStore.updateNote w.note_store_ r) uuid = some r
              rw [← hu]
              apply getNote_updateNote_self
              rw [hu, hl]
              exact fun h => Option.noConfusion h
            · intro note
              simp [SyncWorld.afterRemoteCall, SyncWorld.emit]
          · intro h
            have hnot : ¬ r.modified > l.modified + seconds 3 := of_decide_eq_false h
            rw [if_neg hnot]
            refine ⟨rfl, ?_⟩
            intro note
            simp [SyncWorld.afterRemoteCall]

set_option maxRecDepth 100000 in
/-- C20 at the example world, whose remote copy of note `a` is four seconds newer
than the local one: the verdict is true and the remote note replaces the local. -/
theorem downloadNoteIfRemoteNewer_spec_witness :
    (checkRemoteNoteForUpdate (exEnv [exRemoteA]) exRunningWorld "a").1 = true ∧
    (downloadNoteIfRemoteNewer (exEnv [exRemoteA]) exRunningWorld "a").note_store_ =
      [exRemoteA] ∧
    ∃ client remoteNotes remoteNote,
      exRunningWorld.webdav_storage_ = some client ∧
      (client.readAllNotes (exEnv [exRemoteA]) exRunningWorld.remote).1 =
        .success remoteNotes ∧
      remoteNotes.find? (fun note => note.uuid == "a") = some remoteNote ∧
      (downloadNoteIfRemoteNewer (exEnv [exRemoteA]) exRunningWorld "a").note_store_ =
        exRunningWorld.note_store_.updateNote remoteNote ∧
      (downloadNoteIfRemoteNewer (exEnv [exRemoteA]) exRunningWorld "a").note_store_.getNote
        "a" = some remoteNote ∧
      ∀ note, Event.storageWrite note ∈
          newEvents exRunningWorld
            (downloadNoteIfRemoteNewer (exEnv [exRemoteA]) exRunningWorld "a") ↔
        note = remoteNote :=
  ⟨by decide, by decide,
    (downloadNoteIfRemoteNewer_spec (exEnv [exRemoteA]) exRunningWorld "a").1 (by decide)⟩

/-! ## Lemmas: what a pass keeps, and its listings -/

section keeps
variable {ρ : Type}

theorem addNote_keeps_uuid (s : NoteStore) (note : Note) (u : String)
    (h : u ∈ s.map Note.uuid) : u ∈ (NoteStore.addNote s note).map Note.uuid := by
  unfold NoteStore.addNote
  split_ifs
  · rw [uuids_replace]
    exact h
  · rw [List.map_append]
    exact List.mem_append_left _ h

theorem updateNote_uuids (s : NoteStore) (note : Note) :
    (NoteStore.updateNote s note).map Note.uuid = s.map Note.uuid := by
  unfold NoteStore.updateNote
  split_ifs
  · exact uuids_replace s note
  · rfl

theorem downloadStep_keeps_uuid (lts : TimestampMap) (rl : List Note) (w : SyncWorld ρ)
    (e : String × NoteTimestamp) (u : String) (h : u ∈ w.note_store_.map Note.uuid) :
    u ∈ (downloadStep lts rl w e).note_store_.map Note.uuid := by
  unfold downloadStep
  dsimp only
  split
  · split
    · exact addNote_keeps_uuid _ _ u h
    · exact h
  · split
    · split
      · show u ∈ (NoteStore.updateNote w.note_store_ _).map Note.uuid
        rw [updateNote_uuids]
        exact h
      · exact h
    · exact h

theorem foldl_downloadStep_keeps_uuid (lts : TimestampMap) (rl : List Note)
    (m : TimestampMap) (w : SyncWorld ρ) (u : String) (h : u ∈ w.note_store_.map Note.uuid) :
    u ∈ (m.foldl (downloadStep lts rl) w).note_store_.map Note.uuid := by
  induction m generalizing w with
  | nil => exact h
  | cons a m ih =>
    rw [List.foldl_cons]
    exact ih _ (downloadStep_keeps_uuid lts rl w a u h)

/-- With sync disabled in the configuration a pass emits nothing. -/
theorem passEvents_disabled (env : Env ρ) (w : SyncWorld ρ)
    (h : w.appState.webdav_enabled_ = false) : passEvents env w = [] := by
  unfold passEvents
  rw [performSync_disabled env w h, (refresh_frame w).2.2.1]
  simp

/-- A pass keeps every uuid of the collection. -/
theorem performSync_keeps_uuid (env : Env ρ) (w : SyncWorld ρ) (u : String)
    (h : u ∈ w.note_store_.map Note.uuid) :
    u ∈ (performSync env w).note_store_.map Note.uuid := by
  by_cases henabled : w.appState.webdav_enabled_ = true
  · obtain ⟨client, hclient⟩ := refresh_client_of_enabled w henabled
    obtain ⟨w0, hphase, hstore, -, -, -⟩ := downloadPhase_loop env w client hclient
    rw [performSync_note_store env w henabled, hphase]
    apply foldl_downloadStep_keeps_uuid
    rw [hstore]
    exact h
  · rw [performSync_disabled env w (by simpa using henabled), (refresh_frame w).1]
    exact h

/-- The requests of a listing: its PROPFIND, then GETs. -/
theorem readAllNotes_requests (env : Env ρ) (c : WebDAVStorage) (s : ρ) :
    ∃ rest, (c.readAllNotes env s).2.2 =
        ⟨c.baseUrl, "PROPFIND", propfindBody, c.authString⟩ :: rest ∧
      ∀ q ∈ rest, q.method = "GET" := by
  have hsend : (c.sendRequest env s c.baseUrl "PROPFIND" propfindBody).2.2 =
      [⟨c.baseUrl, "PROPFIND", propfindBody, c.authString⟩] := by
    unfold WebDAVStorage.sendRequest
    rw [if_pos (Or.inr (Or.inr (Or.inl rfl)))]
    dsimp only
    split_ifs <;> rfl
  unfold WebDAVStorage.readAllNotes
  dsimp only
  split_ifs
  · exact ⟨[], hsend, fun q hq => absurd hq (List.not_mem_nil q)⟩
  · show ∃ rest, (c.sendRequest env s c.baseUrl "PROPFIND" propfindBody).2.2 ++ _ = _ ∧ _
    rw [hsend]
    exact ⟨_, rfl, readAllNotesLoop_methods env c _ _ _⟩

/-- One listing is one fetch. -/
theorem countP_listing (env : Env ρ) (c : WebDAVStorage) (s : ρ) :
    ((c.readAllNotes env s).2.2.map Event.request).countP isListingFetch = 1 := by
  obtain ⟨rest, hreq, hget⟩ := readAllNotes_requests env c s
  rw [hreq, List.map_cons, List.countP_cons_of_pos]
  · rw [Nat.add_left_eq_self, List.countP_eq_zero]
    intro ev hev
    obtain ⟨q, hq, rfl⟩ := List.mem_map.mp hev
    show ¬ ((q.method == "PROPFIND") = true)
    rw [hget q hq]
    decide
  · rfl

end keeps

/-! ## Lemmas: the two phases of a pass -/

section phases
variable {ρ : Type}

/-- The events of an enabled pass fall into those up to the end of the download
loop, with two fetches of the listing and nothing of an upload, and those from the
listing of `uploadChangedNotes` on, with one fetch and nothing of a download. -/
theorem passEvents_phases (env : Env ρ) (w : SyncWorld ρ)
    (henabled : w.appState.webdav_enabled_ = true) :
    ∃ down up, passEvents env w = down ++ up ∧
      (∀ ev ∈ down, isUploadEvent ev = false) ∧ (∀ ev ∈ up, isDownloadEvent ev = false) ∧
      down.countP isListingFetch = 2 ∧ up.countP isListingFetch = 1 := by
  obtain ⟨client, hclient⟩ := refresh_client_of_enabled w henabled
  obtain ⟨devs, uevs, heq, hd, hu, -⟩ := passEvents_enabled env w client henabled hclient
  have hreqU : ∀ (s : ρ) (ev : Event), ev ∈ (client.readAllNotes env s).2.2.map Event.request →
      isUploadEvent ev = false := by
    intro s ev hev
    obtain ⟨q, hq, rfl⟩ := List.mem_map.mp hev
    show (q.method == "PUT") = false
    rcases readAllNotes_methods env client s q hq with h | h <;> rw [h] <;> decide
  have hreqD : ∀ (l : List Request) (ev : Event), ev ∈ l.map Event.request →
      isDownloadEvent ev = false := by
    intro l ev hev
    obtain ⟨q, -, rfl⟩ := List.mem_map.mp hev
    rfl
  have hdevU : ∀ ev ∈ devs, isUploadEvent ev = false ∧ isListingFetch ev = false := by
    intro ev hev
    obtain ⟨e, -, -, note, -, hor⟩ := hd ev hev
    rcases hor with rfl | rfl <;> exact ⟨rfl, rfl⟩
  have huevD : ∀ ev ∈ uevs, isDownloadEvent ev = false ∧ isListingFetch ev = false := by
    intro ev hev
    obtain ⟨n, -, -, hor⟩ := hu ev hev
    rcases hor with rfl | rfl
    · exact ⟨rfl, by
        show ((client.putRequest env n).method == "PROPFIND") = false
        rw [putRequest_method]
        decide⟩
    · exact ⟨rfl, rfl⟩
  have hc0 : ∀ l : List Event, (∀ ev ∈ l, isListingFetch ev = false) →
      l.countP isListingFetch = 0 := by
    intro l hl
    rw [List.countP_eq_zero]
    intro ev hev
    rw [hl ev hev]
    exact Bool.false_ne_true
  refine ⟨[.syncStarted] ++ (passListing1 env client w).2.2.map Event.request ++
      (passListing2 env client w).2.2.map Event.request ++ devs,
    (passListing3 env client w).2.2.map Event.request ++ uevs ++ [.syncFinished true],
    ?_, ?_, ?_, ?_, ?_⟩
  · rw [heq]
    simp only [List.append_assoc]
  · intro ev hev
    rcases List.mem_append.mp hev with h3 | h3
    · rcases List.mem_append.mp h3 with h2 | h2
      · rcases List.mem_append.mp h2 with h1 | h1
        · rw [List.mem_singleton.mp h1]
          rfl
        · exact hreqU _ ev h1
      · exact hreqU _ ev h2
    · exact (hdevU ev h3).1
  · intro ev hev
    rcases List.mem_append.mp hev with h2 | h2
    · rcases List.mem_append.mp h2 with h1 | h1
      · exact hreqD _ ev h1
      · exact (huevD ev h1).1
    · rw [List.mem_singleton.mp h2]
      rfl
  · rw [List.countP_append, List.countP_append, List.countP_append,
      hc0 devs (fun ev hev => (hdevU ev hev).2)]
    unfold passListing2 passListing1
    rw [countP_listing, countP_listing]
    rfl
  · rw [List.countP_append, List.countP_append,
      hc0 uevs (fun ev hev => (huevD ev hev).2)]
    unfold passListing3
    rw [countP_listing]
    rfl

end phases

/-! ## Lemmas: the periodic timer and the client -/

section both
variable {ρ : Type}

/-- After a refresh the periodic timer runs exactly when the configuration enables
sync, and so is a client held. -/
theorem refresh_both (w : SyncWorld ρ) :
    ((refreshConfigurationFromAppState w).sync_timer_.active = true ↔
      w.appState.webdav_enabled_ = true) ∧
    ((refreshConfigurationFromAppState w).webdav_storage_.isSome = true ↔
      w.appState.webdav_enabled_ = true) := by
  by_cases h : w.appState.webdav_enabled_ = true
  · obtain ⟨c, hc⟩ := refresh_client_of_enabled w h
    rw [(refresh_timer w h).1, hc]
    exact ⟨⟨fun _ => h, fun _ => rfl⟩, ⟨fun _ => h, fun _ => rfl⟩⟩
  · obtain ⟨-, h2, h3⟩ := refresh_disabled w (by simpa using h)
    rw [h2, h3]
    exact ⟨⟨fun e => Bool.noConfusion e, fun e => absurd e h⟩,
      ⟨fun e => Bool.noConfusion e, fun e => absurd e h⟩⟩

/-- After a pass the periodic timer runs exactly when the configuration enables
sync, and so is a client held. -/
theorem performSync_both (env : Env ρ) (w : SyncWorld ρ) :
    ((performSync env w).sync_timer_.active = true ↔ w.appState.webdav_enabled_ = true) ∧
    ((performSync env w).webdav_storage_.isSome = true ↔
      w.appState.webdav_enabled_ = true) := by
  obtain ⟨-, -, -, -, -, a6, a7, -⟩ := sameManager_performSync env w
  rw [a6, a7]
  exact refresh_both w

theorem syncStart_eq_refresh (w : SyncWorld ρ) :
    syncStart w = refreshConfigurationFromAppState w := by
  unfold syncStart
  dsimp only
  by_cases h : w.appState.webdav_enabled_ = true
  · rw [if_pos (Or.inr (refresh_timer w h).1)]
  · rw [if_pos (Or.inl (refresh_disabled w (by simpa using h)).1)]

theorem syncNow_both (env : Env ρ) (w : SyncWorld ρ) :
    ((syncNow env w).sync_timer_.active = true ↔ w.appState.webdav_enabled_ = true) ∧
    ((syncNow env w).webdav_storage_.isSome = true ↔ w.appState.webdav_enabled_ = true) := by
  unfold syncNow
  dsimp only
  split
  · exact refresh_both w
  · rw [← (refresh_frame w).2.2.2.1]
    exact performSync_both env _

theorem trigger_both (w : SyncWorld ρ) :
    ((triggerSyncOnSearch w).sync_timer_.active = true ↔ w.appState.webdav_enabled_ = true) ∧
    ((triggerSyncOnSearch w).webdav_storage_.isSome = true ↔
      w.appState.webdav_enabled_ = true) := by
  unfold triggerSyncOnSearch
  dsimp only
  split
  · exact refresh_both w
  · split
    · exact refresh_both w
    · exact refresh_both w

/-- A timer that does not fire in a millisecond stays as active as it was. -/
theorem QTimer.tick_active (t : QTimer) (h : t.tick.2 = false) :
    t.tick.1.active = t.active := by
  unfold QTimer.tick at h ⊢
  split_ifs at h ⊢
  all_goals rfl

/-- The periodic timer runs exactly when a client is held. -/
theorem tick_timer_iff_client (env : Env ρ) (w : SyncWorld ρ)
    (h : w.sync_timer_.active = true ↔ w.webdav_storage_.isSome = true) :
    (tick env w).sync_timer_.active = true ↔ (tick env w).webdav_storage_.isSome = true := by
  have hps : ∀ v : SyncWorld ρ, (performSync env v).sync_timer_.active = true ↔
      (performSync env v).webdav_storage_.isSome = true := fun v =>
    (performSync_both env v).1.trans (performSync_both env v).2.symm
  have hdb : ∀ v : SyncWorld ρ,
      (v.sync_timer_.active = true ↔ v.webdav_storage_.isSome = true) →
      ((onSearchDebounceTimerTimeout env v).sync_timer_.active = true ↔
        (onSearchDebounceTimerTimeout env v).webdav_storage_.isSome = true) := by
    intro v hv
    unfold onSearchDebounceTimerTimeout
    split
    · exact hps v
    · exact hv
  unfold tick
  dsimp only
  by_cases hst : w.sync_timer_.tick.2 = true
  · rw [if_pos hst]
    split
    · exact hdb _ (hps _)
    · exact hps _
  · rw [if_neg hst]
    have hkeep : (w.sync_timer_.tick.1.active = true ↔ w.webdav_storage_.isSome = true) := by
      rw [QTimer.tick_active _ (by simpa using hst)]
      exact h
    split
    · exact hdb _ hkeep
    · exact hkeep

theorem elapse_timer_iff_client (env : Env ρ) (n : Nat) (w : SyncWorld ρ)
    (h : w.sync_timer_.active = true ↔ w.webdav_storage_.isSome = true) :
    (elapse env n w).sync_timer_.active = true ↔
      (elapse env n w).webdav_storage_.isSome = true := by
  induction n generalizing w with
  | zero => exact h
  | succ n ih => exact ih _ (tick_timer_iff_client env w h)

/-- Every operation keeps the periodic timer running exactly when a client is
held. -/
theorem apply_timer_iff_client (env : Env ρ) (w : SyncWorld ρ) (op : Op ρ)
    (h : w.sync_timer_.active = true ↔ w.webdav_storage_.isSome = true) :
    (op.apply env w).sync_timer_.active = true ↔
      (op.apply env w).webdav_storage_.isSome = true := by
  have hoff : ∀ v : SyncWorld ρ, (syncStop v).sync_timer_.active = true ↔
      (syncStop v).webdav_storage_.isSome = true := fun v =>
    ⟨fun e => Bool.noConfusion e, fun e => Bool.noConfusion e⟩
  cases op with
  | setEnabled enabled =>
    show (setEnabled w enabled).sync_timer_.active = true ↔
      (setEnabled w enabled).webdav_storage_.isSome = true
    unfold setEnabled
    dsimp only
    split
    · rw [syncStart_eq_refresh]
      exact (refresh_both _).1.trans (refresh_both _).2.symm
    · exact hoff _
  | setServerAddress address => exact h
  | setUsername username => exact h
  | setPassword password => exact h
  | setSyncIntervalMinutes minutes => exact h
  | syncStart =>
    show (syncStart w).sync_timer_.active = true ↔ (syncStart w).webdav_storage_.isSome = true
    rw [syncStart_eq_refresh]
    exact (refresh_both _).1.trans (refresh_both _).2.symm
  | syncStop => exact hoff w
  | syncNow => exact (syncNow_both env w).1.trans (syncNow_both env w).2.symm
  | triggerSyncOnSearch => exact (trigger_both w).1.trans (trigger_both w).2.symm
  | onSyncTimerTimeout => exact (performSync_both env w).1.trans (performSync_both env w).2.symm
  | onSearchDebounceTimerTimeout =>
    show (onSearchDebounceTimerTimeout env w).sync_timer_.active = true ↔
      (onSearchDebounceTimerTimeout env w).webdav_storage_.isSome = true
    unfold onSearchDebounceTimerTimeout
    split
    · exact (performSync_both env w).1.trans (performSync_both env w).2.symm
    · exact h
  | uploadNote note =>
    show (uploadNote env w note).sync_timer_.active = true ↔
      (uploadNote env w note).webdav_storage_.isSome = true
    obtain ⟨-, -, -, -, -, a6, a7, -⟩ := sameManager_uploadNote env w note
    rw [a6, a7]
    exact h
  | checkRemoteNoteForUpdate uuid =>
    show (checkRemoteNoteForUpdate env w uuid).2.sync_timer_.active = true ↔
      (checkRemoteNoteForUpdate env w uuid).2.webdav_storage_.isSome = true
    obtain ⟨-, -, -, -, -, a6, a7, -⟩ := sameManager_checkRemoteNoteForUpdate env w uuid
    rw [a6, a7]
    exact h
  | downloadNoteIfRemoteNewer uuid =>
    show (downloadNoteIfRemoteNewer env w uuid).sync_timer_.active = true ↔
      (downloadNoteIfRemoteNewer env w uuid).webdav_storage_.isSome = true
    obtain ⟨-, -, -, -, -, a6, a7, -⟩ := sameManager_downloadNoteIfRemoteNewer env w uuid
    rw [a6, a7]
    exact h
  | elapse ms => exact elapse_timer_iff_client env ms w h
  | configure appState => exact h
  | editCollection store => exact h
  | changeRemote remote => exact h
  | setClock now => exact h

theorem foldl_apply_timer_iff_client (env : Env ρ) (ops : List (Op ρ)) (w : SyncWorld ρ)
    (h : w.sync_timer_.active = true ↔ w.webdav_storage_.isSome = true) :
    (ops.foldl (Op.apply env) w).sync_timer_.active = true ↔
      (ops.foldl (Op.apply env) w).webdav_storage_.isSome = true := by
  induction ops generalizing w with
  | nil => exact h
  | cons op ops ih => exact ih _ (apply_timer_iff_client env w op h)

/-- After an operation that refreshes the configuration the periodic timer runs
exactly when the configuration enables sync, and so is a client held. -/
theorem apply_refreshes_both (env : Env ρ) (w : SyncWorld ρ) (op : Op ρ)
    (h : op.refreshes w = true) :
    ((op.apply env w).sync_timer_.active = true ↔ w.appState.webdav_enabled_ = true) ∧
    ((op.apply env w).webdav_storage_.isSome = true ↔ w.appState.webdav_enabled_ = true) := by
  cases op with
  | setEnabled enabled =>
    have he : enabled = true := h
    subst he
    show ((setEnabled w true).sync_timer_.active = true ↔ _) ∧
      ((setEnabled w true).webdav_storage_.isSome = true ↔ _)
    unfold setEnabled
    dsimp only
    rw [if_pos rfl, syncStart_eq_refresh]
    exact refresh_both _
  | syncStart =>
    show ((syncStart w).sync_timer_.active = true ↔ _) ∧
      ((syncStart w).webdav_storage_.isSome = true ↔ _)
    rw [syncStart_eq_refresh]
    exact refresh_both w
  | syncNow => exact syncNow_both env w
  | triggerSyncOnSearch => exact trigger_both w
  | onSyncTimerTimeout => exact performSync_both env w
  | onSearchDebounceTimerTimeout =>
    have hp : w.pending_search_sync_ = true := h
    show ((onSearchDebounceTimerTimeout env w).sync_timer_.active = true ↔ _) ∧
      ((onSearchDebounceTimerTimeout env w).webdav_storage_.isSome = true ↔ _)
    unfold onSearchDebounceTimerTimeout
    rw [if_pos hp]
    exact performSync_both env w
  | setServerAddress address => exact Bool.noConfusion h
  | setUsername username => exact Bool.noConfusion h
  | setPassword password => exact Bool.noConfusion h
  | setSyncIntervalMinutes minutes => exact Bool.noConfusion h
  | syncStop => exact Bool.noConfusion h
  | uploadNote note => exact Bool.noConfusion h
  | checkRemoteNoteForUpdate uuid => exact Bool.noConfusion h
  | downloadNoteIfRemoteNewer uuid => exact Bool.noConfusion h
  | elapse ms => exact Bool.noConfusion h
  | configure appState => exact Bool.noConfusion h
  | editCollection store => exact Bool.noConfusion h
  | changeRemote remote => exact Bool.noConfusion h
  | setClock now => exact Bool.noConfusion h

end both

/-! ## Lemmas: maps as key lists -/

section umap
variable {κ ν : Type} [DecidableEq κ]

theorem UMap.mem_of_find (m : UMap κ ν) (k : κ) (v : ν) (h : UMap.find m k = some v) :
    (k, v) ∈ m := by
  unfold UMap.find at h
  cases hf : List.find? (fun p => p.1 == k) m with
  | none => rw [hf] at h; exact Option.noConfusion h
  | some p =>
    rw [hf] at h
    have hk : p.1 = k := by simpa using List.find?_some hf
    have hv : p.2 = v := Option.some.inj h
    have hp : p = (k, v) := Prod.ext hk hv
    rw [← hp]
    exact List.mem_of_find?_eq_some hf

theorem UMap.mem_assign (m : UMap κ ν) (k : κ) (v : ν) (p : κ × ν)
    (h : p ∈ UMap.assign m k v) : (p ∈ m ∧ p.1 ≠ k) ∨ p = (k, v) := by
  unfold UMap.assign at h
  split_ifs at h
  · obtain ⟨q, hq, rfl⟩ := List.mem_map.mp h
    by_cases hk : q.1 = k
    · right
      simp [hk]
    · left
      simp [hk, hq]
  · rcases List.mem_append.mp h with h1 | h1
    · left
      refine ⟨h1, ?_⟩
      intro hk
      rename_i hany
      apply hany
      rw [List.any_eq_true]
      exact ⟨p, h1, by simp [hk]⟩
    · right
      exact List.mem_singleton.mp h1

theorem UMap.mem_erase (m : UMap κ ν) (k : κ) (p : κ × ν) (h : p ∈ UMap.erase m k) :
    p ∈ m ∧ p.1 ≠ k := by
  unfold UMap.erase at h
  obtain ⟨h1, h2⟩ := List.mem_filter.mp h
  exact ⟨h1, by simpa using h2⟩

theorem UMap.find_replace_self (m : UMap κ ν) (k : κ) (v : ν)
    (h : m.any (fun p => p.1 == k) = true) :
    UMap.find (m.map (fun p => if p.1 == k then (k, v) else p)) k = some v := by
  unfold UMap.find
  induction m with
  | nil => simp at h
  | cons a m ih =>
    rw [List.map_cons, List.find?_cons]
    by_cases ha : a.1 = k
    · have hb : (a.1 == k) = true := by simpa using ha
      simp only [hb, if_true, beq_self_eq_true, Option.map_some']
    · have hb : (a.1 == k) = false := by simpa using ha
      have h2 : m.any (fun p => p.1 == k) = true := by simpa [ha] using h
      simp only [hb, Bool.false_eq_true, if_false]
      exact ih h2

theorem UMap.find_replace_ne (m : UMap κ ν) (k k2 : κ) (v : ν) (hu : k2 ≠ k) :
    UMap.find (m.map (fun p => if p.1 == k then (k, v) else p)) k2 = UMap.find m k2 := by
  unfold UMap.find
  induction m with
  | nil => rfl
  | cons a m ih =>
    rw [List.map_cons, List.find?_cons, List.find?_cons]
    by_cases ha : a.1 = k
    · have hb : (a.1 == k) = true := by simpa using ha
      have h1 : (k == k2) = false := by simpa using fun h : k = k2 => hu h.symm
      have h2 : (a.1 == k2) = false := by rw [ha]; exact h1
      simp only [hb, if_true, h1, h2]
      exact ih
    · have hb : (a.1 == k) = false := by simpa using ha
      simp only [hb, Bool.false_eq_true, if_false]
      cases hau : (a.1 == k2)
      · exact ih
      · rfl

theorem UMap.find_assign_self (m : UMap κ ν) (k : κ) (v : ν) :
    UMap.find (UMap.assign m k v) k = some v := by
  unfold UMap.assign
  split
  · next h => exact UMap.find_replace_self m k v h
  · next h =>
    have h3 : List.find? (fun p : κ × ν => p.1 == k) m = none := by
      rw [List.find?_eq_none]
      intro x hx hxx
      exact h (List.any_eq_true.mpr ⟨x, hx, hxx⟩)
    unfold UMap.find
    simp [List.find?_append, h3]

theorem UMap.find_assign_ne (m : UMap κ ν) (k k2 : κ) (v : ν) (h : k2 ≠ k) :
    UMap.find (UMap.assign m k v) k2 = UMap.find m k2 := by
  unfold UMap.assign
  split
  · exact UMap.find_replace_ne m k k2 v h
  · have h1 : ¬ k = k2 := fun e => h e.symm
    unfold UMap.find
    simp [List.find?_append, h1]

theorem UMap.find_erase_ne (m : UMap κ ν) (k k2 : κ) (h : k2 ≠ k) :
    UMap.find (UMap.erase m k) k2 = UMap.find m k2 := by
  unfold UMap.find UMap.erase
  congr 1
  induction m with
  | nil => rfl
  | cons a m ih =>
    by_cases ha : a.1 = k
    · have h1 : ¬ a.1 = k2 := fun e => h (e.symm.trans ha)
      rw [List.filter_cons_of_neg (by simp [ha]), List.find?_cons_of_neg _ (by simp [h1])]
      exact ih
    · rw [List.filter_cons_of_pos (by simp [ha]), List.find?_cons, List.find?_cons, ih]

end umap

/-! ## Lemmas: the index stays consistent -/

theorem mem_entry (m : UMap String (List Note)) (term : String) (n : Note)
    (h : n ∈ (UMap.find m term).getD []) : ∃ ns, (term, ns) ∈ m ∧ n ∈ ns := by
  cases hf : UMap.find m term with
  | none =>
    rw [hf] at h
    exact absurd h (List.not_mem_nil n)
  | some ns =>
    rw [hf] at h
    exact ⟨ns, UMap.mem_of_find m term ns hf, h⟩

/-- One round of the loop that takes a note out of the lists of its terms. -/
theorem dropTerm_step (it : Note) (all : List Note) (m : UMap String (List Note))
    (t : String)
    (h1 : ∀ p ∈ m, ∀ n ∈ p.2, n ∈ all ∧ p.1 ∈ n.terms)
    (h2 : ∀ n ∈ all, n ≠ it → ∀ term ∈ n.terms, n ∈ (UMap.find m term).getD []) :
    (∀ p ∈ SearchIndex.dropTerm it m t, ∀ n ∈ p.2, n ∈ all ∧ p.1 ∈ n.terms) ∧
    (∀ n ∈ all, n ≠ it → ∀ term ∈ n.terms,
      n ∈ (UMap.find (SearchIndex.dropTerm it m t) term).getD []) ∧
    (∀ p ∈ SearchIndex.dropTerm it m t, (p ∈ m ∧ p.1 ≠ t) ∨ (p.1 = t ∧ it ∉ p.2)) := by
  have hsub : ∀ n, n ∈ ((UMap.find m t).getD []).filter (fun p => !(p == it)) →
      n ∈ (UMap.find m t).getD [] ∧ n ≠ it := by
    intro n hn
    obtain ⟨ha, hb⟩ := List.mem_filter.mp hn
    exact ⟨ha, by simpa using hb⟩
  have hkeep : ∀ n, n ∈ (UMap.find m t).getD [] → n ≠ it →
      n ∈ ((UMap.find m t).getD []).filter (fun p => !(p == it)) := by
    intro n hn hne
    exact List.mem_filter.mpr ⟨hn, by simpa using hne⟩
  unfold SearchIndex.dropTerm
  dsimp only
  by_cases hempty : ((UMap.find m t).getD []).filter (fun p => !(p == it)) = []
  · rw [if_pos hempty]
    refine ⟨?_, ?_, ?_⟩
    · intro p hp
      exact h1 p (UMap.mem_erase m t p hp).1
    · intro n hn hne term hterm
      by_cases ht : term = t
      · subst ht
        have := hkeep n (h2 n hn hne term hterm) hne
        rw [hempty] at this
        exact absurd this (List.not_mem_nil n)
      · rw [UMap.find_erase_ne m t term ht]
        exact h2 n hn hne term hterm
    · intro p hp
      exact Or.inl (UMap.mem_erase m t p hp)
  · rw [if_neg hempty]
    refine ⟨?_, ?_, ?_⟩
    · intro p hp n hn
      rcases UMap.mem_assign m t _ p hp with ⟨hpm, -⟩ | rfl
      · exact h1 p hpm n hn
      · obtain ⟨ns, hns, hnns⟩ := mem_entry m t n (hsub n hn).1
        exact h1 (t, ns) hns n hnns
    · intro n hn hne term hterm
      by_cases ht : term = t
      · subst ht
        rw [UMap.find_assign_self]
        exact hkeep n (h2 n hn hne term hterm) hne
      · rw [UMap.find_assign_ne m t term _ ht]
        exact h2 n hn hne term hterm
    · intro p hp
      rcases UMap.mem_assign m t _ p hp with h | rfl
      · exact Or.inl h
      · exact Or.inr ⟨rfl, fun hit => (hsub it hit).2 rfl⟩

/-- The loop that takes a note out of the lists of its terms. -/
theorem dropTerm_fold (it : Note) (all : List Note) (L : List String) :
    ∀ (m : UMap String (List Note)) (T : List String),
      (∀ p ∈ m, ∀ n ∈ p.2, n ∈ all ∧ p.1 ∈ n.terms) →
      (∀ n ∈ all, n ≠ it → ∀ term ∈ n.terms, n ∈ (UMap.find m term).getD []) →
      (∀ p ∈ m, it ∈ p.2 → p.1 ∉ T) →
      (∀ p ∈ L.foldl (SearchIndex.dropTerm it) m, ∀ n ∈ p.2, n ∈ all ∧ p.1 ∈ n.terms) ∧
      (∀ n ∈ all, n ≠ it → ∀ term ∈ n.terms,
        n ∈ (UMap.find (L.foldl (SearchIndex.dropTerm it) m) term).getD []) ∧
      (∀ p ∈ L.foldl (SearchIndex.dropTerm it) m, it ∈ p.2 → p.1 ∉ T ∧ p.1 ∉ L) := by
  induction L with
  | nil =>
    intro m T h1 h2 h3
    exact ⟨h1, h2, fun p hp hit => ⟨h3 p hp hit, List.not_mem_nil _⟩⟩
  | cons t L ih =>
    intro m T h1 h2 h3
    obtain ⟨s1, s2, s3⟩ := dropTerm_step it all m t h1 h2
    have h3n : ∀ p ∈ SearchIndex.dropTerm it m t, it ∈ p.2 → p.1 ∉ t :: T := by
      intro p hp hit
      rcases s3 p hp with ⟨hpm, hne⟩ | ⟨-, hnot⟩
      · intro hmem
        rcases List.mem_cons.mp hmem with e | e
        · exact hne e
        · exact h3 p hpm hit e
      · exact absurd hit hnot
    obtain ⟨r1, r2, r3⟩ := ih (SearchIndex.dropTerm it m t) (t :: T) s1 s2 h3n
    rw [List.foldl_cons]
    refine ⟨r1, r2, ?_⟩
    intro p hp hit
    obtain ⟨a, b⟩ := r3 p hp hit
    refine ⟨fun e => a (List.mem_cons_of_mem _ e), ?_⟩
    intro hmem
    rcases List.mem_cons.mp hmem with e | e
    · exact a (by rw [e]; exact List.mem_cons_self _ _)
    · exact b e

/-- The loop that puts a note into the lists of its terms. -/
theorem addTerm_fold (note : Note) (all : List Note) (L : List String) :
    ∀ (m : UMap String (List Note)) (T : List String),
      (∀ t ∈ L, t ∈ note.terms) →
      (∀ p ∈ m, ∀ n ∈ p.2, (n ∈ all ∨ n = note) ∧ p.1 ∈ n.terms) →
      (∀ n ∈ all, ∀ term ∈ n.terms, n ∈ (UMap.find m term).getD []) →
      (∀ t ∈ T, note ∈ (UMap.find m t).getD []) →
      (∀ p ∈ L.foldl (SearchIndex.addTerm note) m, ∀ n ∈ p.2,
        (n ∈ all ∨ n = note) ∧ p.1 ∈ n.terms) ∧
      (∀ n ∈ all, ∀ term ∈ n.terms,
        n ∈ (UMap.find (L.foldl (SearchIndex.addTerm note) m) term).getD []) ∧
      (∀ t, t ∈ T ∨ t ∈ L →
        note ∈ (UMap.find (L.foldl (SearchIndex.addTerm note) m) t).getD []) := by
  induction L with
  | nil =>
    intro m T _ h1 h2 h3
    refine ⟨h1, h2, ?_⟩
    intro t ht
    rcases ht with ht | ht
    · exact h3 t ht
    · exact absurd ht (List.not_mem_nil t)
  | cons t L ih =>
    intro m T hL h1 h2 h3
    have hgrow : ∀ (term : String) (n : Note), n ∈ (UMap.find m term).getD [] →
        n ∈ (UMap.find (SearchIndex.addTerm note m t) term).getD [] := by
      intro term n hn
      unfold SearchIndex.addTerm
      by_cases ht : term = t
      · subst ht
        rw [UMap.find_assign_self]
        exact List.mem_append_left _ hn
      · rw [UMap.find_assign_ne m t term _ ht]
        exact hn
    have s1 : ∀ p ∈ SearchIndex.addTerm note m t, ∀ n ∈ p.2,
        (n ∈ all ∨ n = note) ∧ p.1 ∈ n.terms := by
      intro p hp n hn
      unfold SearchIndex.addTerm at hp
      rcases UMap.mem_assign m t _ p hp with ⟨hpm, -⟩ | rfl
      · exact h1 p hpm n hn
      · rcases List.mem_append.mp hn with hn1 | hn1
        · obtain ⟨ns, hns, hnns⟩ := mem_entry m t n hn1
          exact h1 (t, ns) hns n hnns
        · rw [List.mem_singleton.mp hn1]
          exact ⟨Or.inr rfl, hL t (List.mem_cons_self _ _)⟩
    have s2 : ∀ n ∈ all, ∀ term ∈ n.terms,
        n ∈ (UMap.find (SearchIndex.addTerm note m t) term).getD [] :=
      fun n hn term hterm => hgrow term n (h2 n hn term hterm)
    have s3 : ∀ t2 ∈ t :: T, note ∈ (UMap.find (SearchIndex.addTerm note m t) t2).getD [] := by
      intro t2 ht2
      rcases List.mem_cons.mp ht2 with e | e
      · rw [e]
        unfold SearchIndex.addTerm
        rw [UMap.find_assign_self]
        exact List.mem_append_right _ (List.mem_singleton.mpr rfl)
      · exact hgrow t2 note (h3 t2 e)
    obtain ⟨r1, r2, r3⟩ := ih (SearchIndex.addTerm note m t) (t :: T)
      (fun x hx => hL x (List.mem_cons_of_mem _ hx)) s1 s2 s3
    rw [List.foldl_cons]
    refine ⟨r1, r2, ?_⟩
    intro t2 ht2
    rcases ht2 with ht2 | ht2
    · exact r3 t2 (Or.inl (List.mem_cons_of_mem _ ht2))
    · rcases List.mem_cons.mp ht2 with e | e
      · exact r3 t2 (Or.inl (by rw [e]; exact List.mem_cons_self _ _))
      · exact r3 t2 (Or.inr e)

/-! ## Lemmas: the calls on the index keep it consistent -/

/-- Erasing the first note of a uuid from a list without repeated uuids leaves the
notes of the other uuids. -/
theorem eraseP_uuid (all : List Note) (u : String) (hnd : (all.map Note.uuid).Nodup) :
    (∀ n, n ∈ all.eraseP (fun n => n.uuid == u) ↔ n ∈ all ∧ n.uuid ≠ u) ∧
    ((all.eraseP (fun n => n.uuid == u)).map Note.uuid).Nodup := by
  refine ⟨?_, List.Nodup.sublist (List.Sublist.map _ (List.eraseP_sublist all)) hnd⟩
  intro n
  by_cases hn : n.uuid = u
  · constructor
    · intro hmem
      exfalso
      have hin : n ∈ all := (List.eraseP_sublist all).subset hmem
      obtain ⟨a, l1, l2, h1, h2, h3, h4⟩ :=
        List.exists_of_eraseP (p := fun n => n.uuid == u) hin (by simpa using hn)
      have ha : a.uuid = u := by simpa using h2
      rw [h4] at hmem
      rw [h3, List.map_append, List.map_cons, List.nodup_append] at hnd
      obtain ⟨-, hnd2, hdisj⟩ := hnd
      rw [List.nodup_cons] at hnd2
      rcases List.mem_append.mp hmem with hm | hm
      · exact h1 n hm (by simpa using hn)
      · apply hnd2.1
        rw [ha, ← hn]
        exact List.mem_map_of_mem _ hm
    · rintro ⟨-, hne⟩
      exact absurd hn hne
  · rw [List.mem_eraseP_of_neg (by simpa using hn)]
    exact ⟨fun h => ⟨h, hn⟩, fun h => h.1⟩

theorem consistent_empty : SearchIndex.Consistent SearchIndex.empty :=
  ⟨List.nodup_nil, fun _ hp => absurd hp (List.not_mem_nil _),
    fun _ hn => absurd hn (List.not_mem_nil _), fun _ hn => absurd hn (List.not_mem_nil _)⟩

/-- Taking the note found for a uuid out of a consistent index leaves a consistent
index without a note of the uuid. -/
theorem consistent_eraseFound (self : SearchIndex) (u : String) (it : Note)
    (h : self.Consistent)
    (hfound : self.all_notes_.find? (fun n => n.uuid == u) = some it) :
    (self.eraseFound u it).Consistent ∧
    ∀ n ∈ (self.eraseFound u it).all_notes_, n.uuid ≠ u := by
  obtain ⟨hU, hS, hC, hN⟩ := h
  have hit : it ∈ self.all_notes_ := List.mem_of_find?_eq_some hfound
  have hitu : it.uuid = u := by simpa using List.find?_some hfound
  obtain ⟨hmem, hnd⟩ := eraseP_uuid self.all_notes_ u hU
  have hne : ∀ n ∈ self.all_notes_, (n ≠ it ↔ n.uuid ≠ u) := by
    intro n hn
    constructor
    · intro h1 h2
      apply h1
      have hget : NoteStore.getNote self.all_notes_ n.uuid = some it := by
        unfold NoteStore.getNote
        rw [h2]
        exact hfound
      exact eq_of_getNote self.all_notes_ n it hU hn hget
    · intro h1 h2
      rw [h2] at h1
      exact h1 hitu
  obtain ⟨r1, r2, r3⟩ := dropTerm_fold it self.all_notes_ it.terms self.terms_to_notes_ []
    hS (fun n hn _ term hterm => hC n hn term hterm) (fun _ _ _ => List.not_mem_nil _)
  have heq : self.eraseFound u it =
      { terms_to_notes_ := it.terms.foldl (SearchIndex.dropTerm it) self.terms_to_notes_,
        note_to_terms_ := self.note_to_terms_.erase it,
        all_notes_ := self.all_notes_.eraseP (fun n => n.uuid == u) } := by
    unfold SearchIndex.eraseFound
    rw [hN it hit]
  rw [heq]
  refine ⟨⟨hnd, ?_, ?_, ?_⟩, fun n hn => ((hmem n).mp hn).2⟩
  · intro p hp n hn
    obtain ⟨ha, hb⟩ := r1 p hp n hn
    refine ⟨(hmem n).mpr ⟨ha, ?_⟩, hb⟩
    apply (hne n ha).mp
    intro e
    rw [e] at hn hb
    exact (r3 p hp hn).2 hb
  · intro n hn term hterm
    obtain ⟨ha, hb⟩ := (hmem n).mp hn
    exact r2 n ha ((hne n ha).mpr hb) term hterm
  · intro n hn
    obtain ⟨ha, hb⟩ := (hmem n).mp hn
    show UMap.find (UMap.erase self.note_to_terms_ it) n = some n.terms
    rw [UMap.find_erase_ne _ it n ((hne n ha).mpr hb)]
    exact hN n ha

theorem consistent_removeNoteInternal (self : SearchIndex) (u : String)
    (h : self.Consistent) :
    (self.removeNoteInternal u).Consistent ∧
    ∀ n ∈ (self.removeNoteInternal u).all_notes_, n.uuid ≠ u := by
  unfold SearchIndex.removeNoteInternal
  cases hf : self.all_notes_.find? (fun n => n.uuid == u) with
  | none =>
    refine ⟨h, ?_⟩
    intro n hn
    have := List.find?_eq_none.mp hf n hn
    simpa using this
  | some it => exact consistent_eraseFound self u it h hf

/-- Indexing a note keeps the index consistent. -/
theorem consistent_indexNoteInternal (self : SearchIndex) (note : Note)
    (h : self.Consistent) : (self.indexNoteInternal note).Consistent := by
  have hs1 : ∃ s1 : SearchIndex, s1.Consistent ∧ (∀ n ∈ s1.all_notes_, n.uuid ≠ note.uuid) ∧
      self.indexNoteInternal note =
        { all_notes_ := s1.all_notes_ ++ [note],
          note_to_terms_ := s1.note_to_terms_.assign note note.terms,
          terms_to_notes_ := note.terms.foldl (SearchIndex.addTerm note) s1.terms_to_notes_ } := by
    unfold SearchIndex.indexNoteInternal
    cases hf : self.all_notes_.find? (fun n => n.uuid == note.uuid) with
    | none =>
      refine ⟨self, h, ?_, rfl⟩
      intro n hn
      have := List.find?_eq_none.mp hf n hn
      simpa using this
    | some it =>
      obtain ⟨hc, hno⟩ := consistent_eraseFound self note.uuid it h hf
      exact ⟨self.eraseFound note.uuid it, hc, hno, rfl⟩
  obtain ⟨s1, ⟨hU, hS, hC, hN⟩, hfresh, heq⟩ := hs1
  rw [heq]
  obtain ⟨r1, r2, r3⟩ := addTerm_fold note s1.all_notes_ note.terms s1.terms_to_notes_ []
    (fun t ht => ht)
    (fun p hp n hn => ⟨Or.inl (hS p hp n hn).1, (hS p hp n hn).2⟩)
    hC (fun t ht => absurd ht (List.not_mem_nil t))
  refine ⟨?_, ?_, ?_, ?_⟩
  · show ((s1.all_notes_ ++ [note]).map Note.uuid).Nodup
    rw [List.map_append, List.nodup_append]
    refine ⟨hU, List.nodup_singleton _, ?_⟩
    intro x hx1 hx2
    obtain ⟨n, hn, rfl⟩ := List.mem_map.mp hx1
    have hx3 : n.uuid = note.uuid := by simpa using hx2
    exact hfresh n hn hx3
  · intro p hp n hn
    obtain ⟨ha, hb⟩ := r1 p hp n hn
    refine ⟨?_, hb⟩
    show n ∈ s1.all_notes_ ++ [note]
    rcases ha with ha | ha
    · exact List.mem_append_left _ ha
    · exact List.mem_append_right _ (List.mem_singleton.mpr ha)
  · intro n hn term hterm
    have hn2 : n ∈ s1.all_notes_ ++ [note] := hn
    rcases List.mem_append.mp hn2 with ha | ha
    · exact r2 n ha term hterm
    · rw [List.mem_singleton.mp ha] at hterm ⊢
      exact r3 term (Or.inr hterm)
  · intro n hn
    have hn2 : n ∈ s1.all_notes_ ++ [note] := hn
    show UMap.find (UMap.assign s1.note_to_terms_ note note.terms) n = some n.terms
    rcases List.mem_append.mp hn2 with ha | ha
    · have hne : n ≠ note := fun e => hfresh n ha (by rw [e])
      rw [UMap.find_assign_ne _ note n _ hne]
      exact hN n ha
    · rw [List.mem_singleton.mp ha]
      exact UMap.find_assign_self _ _ _

theorem consistent_apply (self : SearchIndex) (op : IndexOp) (h : self.Consistent) :
    (op.apply self).Consistent := by
  cases op with
  | indexNote note => exact consistent_indexNoteInternal self note h
  | updateNote note =>
    exact consistent_indexNoteInternal _ note (consistent_removeNoteInternal self note.uuid h).1
  | removeNote uuid => exact (consistent_removeNoteInternal self uuid h).1
  | clear => exact consistent_empty

theorem consistent_foldl (ops : List IndexOp) (self : SearchIndex) (h : self.Consistent) :
    (ops.foldl IndexOp.apply self).Consistent := by
  induction ops generalizing self with
  | nil => exact h
  | cons op ops ih => exact ih _ (consistent_apply self op h)

/-- An index built by calls from a freshly constructed one is consistent. -/
theorem consistent_of_built (self : SearchIndex) (h : self.Built) : self.Consistent := by
  obtain ⟨ops, rfl⟩ := h
  exact consistent_foldl ops _ consistent_empty

/-! ## Lemmas: what `filter` returns -/

theorem mem_tokenMatches_acc (m : UMap String (List Note)) (token : String) (n : Note) :
    ∀ acc : List Note,
      n ∈ m.foldl (fun acc p => if startsWith p.1 token then acc ++ p.2 else acc) acc ↔
        n ∈ acc ∨ ∃ p ∈ m, startsWith p.1 token = true ∧ n ∈ p.2 := by
  induction m with
  | nil =>
    intro acc
    constructor
    · exact fun h => Or.inl h
    · rintro (h | ⟨p, hp, -⟩)
      · exact h
      · exact absurd hp (List.not_mem_nil p)
  | cons a m ih =>
    intro acc
    rw [List.foldl_cons, ih]
    by_cases ha : startsWith a.1 token = true
    · rw [if_pos ha]
      constructor
      · rintro (h | ⟨p, hp, h1, h2⟩)
        · rcases List.mem_append.mp h with h | h
          · exact Or.inl h
          · exact Or.inr ⟨a, List.mem_cons_self _ _, ha, h⟩
        · exact Or.inr ⟨p, List.mem_cons_of_mem _ hp, h1, h2⟩
      · rintro (h | ⟨p, hp, h1, h2⟩)
        · exact Or.inl (List.mem_append_left _ h)
        · rcases List.mem_cons.mp hp with rfl | hp
          · exact Or.inl (List.mem_append_right _ h2)
          · exact Or.inr ⟨p, hp, h1, h2⟩
    · rw [if_neg ha]
      constructor
      · rintro (h | ⟨p, hp, h1, h2⟩)
        · exact Or.inl h
        · exact Or.inr ⟨p, List.mem_cons_of_mem _ hp, h1, h2⟩
      · rintro (h | ⟨p, hp, h1, h2⟩)
        · exact Or.inl h
        · rcases List.mem_cons.mp hp with rfl | hp
          · exact absurd h1 ha
          · exact Or.inr ⟨p, hp, h1, h2⟩

/-- In a consistent index the set `tokenMatches` of a query token holds the indexed
notes one of whose terms starts with the token. -/
theorem mem_tokenMatches (self : SearchIndex) (h : self.Consistent) (token : String)
    (n : Note) :
    n ∈ SearchIndex.tokenMatches self.terms_to_notes_ token ↔
      n ∈ self.all_notes_ ∧ n.terms.any (fun term => startsWith term token) = true := by
  obtain ⟨-, hS, hC, -⟩ := h
  unfold SearchIndex.tokenMatches
  rw [mem_tokenMatches_acc]
  constructor
  · rintro (h | ⟨p, hp, h1, h2⟩)
    · exact absurd h (List.not_mem_nil n)
    · obtain ⟨ha, hb⟩ := hS p hp n h2
      exact ⟨ha, List.any_eq_true.mpr ⟨p.1, hb, h1⟩⟩
  · rintro ⟨ha, hb⟩
    obtain ⟨term, hterm, hst⟩ := List.any_eq_true.mp hb
    obtain ⟨ns, hns, hnns⟩ := mem_entry _ term n (hC n ha term hterm)
    exact Or.inr ⟨(term, ns), hns, hst, hnns⟩

/-- The loop of `filter` after its first round: it returns early when a token has
no match, and else intersects `matchingNotes` with the matches of every token. -/
theorem filterLoop_succ (m : UMap String (List Note)) (tokens : List String) :
    ∀ (i : Nat) (matching : List Note), i ≠ 0 →
      (SearchIndex.filterLoop m tokens i matching = none →
        ∃ t ∈ tokens, SearchIndex.tokenMatches m t = []) ∧
      (∀ r, SearchIndex.filterLoop m tokens i matching = some r →
        ∀ n, n ∈ r ↔ n ∈ matching ∧ ∀ t ∈ tokens, n ∈ SearchIndex.tokenMatches m t) := by
  induction tokens with
  | nil =>
    intro i matching _
    refine ⟨fun h => Option.noConfusion h, ?_⟩
    intro r hr n
    have : matching = r := Option.some.inj hr
    rw [← this]
    exact ⟨fun h => ⟨h, fun t ht => absurd ht (List.not_mem_nil t)⟩, fun h => h.1⟩
  | cons t tokens ih =>
    intro i matching hi
    unfold SearchIndex.filterLoop
    dsimp only
    by_cases hempty : SearchIndex.tokenMatches m t = []
    · rw [if_pos hempty]
      exact ⟨fun _ => ⟨t, List.mem_cons_self _ _, hempty⟩, fun r hr => Option.noConfusion hr⟩
    · rw [if_neg hempty, if_neg hi]
      obtain ⟨a, b⟩ := ih (i + 1)
        (matching.filter (fun n => (SearchIndex.tokenMatches m t).contains n))
        (Nat.succ_ne_zero i)
      constructor
      · intro hnone
        obtain ⟨t2, ht2, he⟩ := a hnone
        exact ⟨t2, List.mem_cons_of_mem _ ht2, he⟩
      · intro r hr n
        rw [b r hr n, List.mem_filter, List.contains_iff_exists_mem_beq]
        constructor
        · rintro ⟨⟨h1, x, hx, hxe⟩, h2⟩
          have hxn : n = x := by simpa using hxe
          refine ⟨h1, ?_⟩
          intro t2 ht2
          rcases List.mem_cons.mp ht2 with e | e
          · rw [e, hxn]
            exact hx
          · exact h2 t2 e
        · rintro ⟨h1, h2⟩
          exact ⟨⟨h1, n, h2 t (List.mem_cons_self _ _), by simp⟩,
            fun t2 ht2 => h2 t2 (List.mem_cons_of_mem _ ht2)⟩

/-- The loop of `filter` from its start, for a query with tokens. -/
theorem filterLoop_zero (m : UMap String (List Note)) (t : String) (tokens : List String)
    (matching : List Note) :
    (SearchIndex.filterLoop m (t :: tokens) 0 matching = none →
      ∃ t2 ∈ t :: tokens, SearchIndex.tokenMatches m t2 = []) ∧
    (∀ r, SearchIndex.filterLoop m (t :: tokens) 0 matching = some r →
      ∀ n, n ∈ r ↔ ∀ t2 ∈ t :: tokens, n ∈ SearchIndex.tokenMatches m t2) := by
  unfold SearchIndex.filterLoop
  dsimp only
  by_cases hempty : SearchIndex.tokenMatches m t = []
  · rw [if_pos hempty]
    exact ⟨fun _ => ⟨t, List.mem_cons_self _ _, hempty⟩, fun r hr => Option.noConfusion hr⟩
  · rw [if_neg hempty, if_pos rfl]
    obtain ⟨a, b⟩ := filterLoop_succ m tokens (0 + 1) (SearchIndex.tokenMatches m t)
      (Nat.succ_ne_zero 0)
    constructor
    · intro hnone
      obtain ⟨t2, ht2, he⟩ := a hnone
      exact ⟨t2, List.mem_cons_of_mem _ ht2, he⟩
    · intro r hr n
      rw [b r hr n]
      constructor
      · rintro ⟨h1, h2⟩ t2 ht2
        rcases List.mem_cons.mp ht2 with e | e
        · rw [e]
          exact h1
        · exact h2 t2 e
      · intro h
        exact ⟨h t (List.mem_cons_self _ _), fun t2 ht2 => h t2 (List.mem_cons_of_mem _ ht2)⟩

/-- Lower-casing a character changes neither its class nor its lower case. -/
theorem tolower_facts (c : Char) :
    isalnum (tolower c) = isalnum c ∧ ispunct (tolower c) = ispunct c ∧
    tolower (tolower c) = tolower c := by
  unfold isalnum ispunct tolower
  by_cases h : 65 ≤ c.toNat ∧ c.toNat ≤ 90
  · have hc : c = Char.ofNat c.toNat := (Char.ofNat_toNat c).symm
    obtain ⟨n, hn⟩ : ∃ n, c.toNat = n := ⟨_, rfl⟩
    rw [hn] at h hc
    obtain ⟨h1, h2⟩ := h
    subst hc
    interval_cases n <;> decide
  · have hlow : c.toLower = c := by
      unfold Char.toLower
      simp only
      rw [if_neg]
      simpa using h
    rw [hlow]
    exact ⟨rfl, rfl, hlow⟩

theorem tokenizeLoop_lower (cs : List Char) :
    ∀ (token : String) (tokens : List String),
      QueryParser.tokenizeLoop (cs.map tolower) token tokens =
        QueryParser.tokenizeLoop cs token tokens := by
  induction cs with
  | nil =>
    intro token tokens
    rfl
  | cons c cs ih =>
    intro token tokens
    obtain ⟨h1, h2, h3⟩ := tolower_facts c
    rw [List.map_cons]
    unfold QueryParser.tokenizeLoop
    rw [h1, h2, h3, ih, ih, ih]

/-- The tokens of a text are those of the text lower-cased. -/
theorem tokenize_lowerCased (s : String) :
    QueryParser.tokenize (lowerCased s) = QueryParser.tokenize s := by
  unfold QueryParser.tokenize lowerCased
  exact tokenizeLoop_lower s.toList "" []

/-- On a consistent index `filter` returns what the claim says. -/
theorem filter_of_consistent (self : SearchIndex) (h : self.Consistent) (query : String) :
    self.filter query = filterSpec self query := by
  have hall : ∀ (tokens : List String) (n : Note), n ∈ self.all_notes_ →
      (noteMatches tokens n = true ↔
        ∀ t ∈ tokens, n ∈ SearchIndex.tokenMatches self.terms_to_notes_ t) := by
    intro tokens n hn
    unfold noteMatches
    rw [tokenize_lowerCased, List.all_eq_true]
    show (∀ t ∈ tokens, n.terms.any (fun term => startsWith term t) = true) ↔ _
    constructor
    · intro hh t ht
      exact (mem_tokenMatches self h t n).mpr ⟨hn, hh t ht⟩
    · intro hh t ht
      exact ((mem_tokenMatches self h t n).mp (hh t ht)).2
  unfold SearchIndex.filter filterSpec SearchIndex.tokenize
  by_cases hq : query = ""
  · rw [if_pos hq, hq]
    rfl
  · rw [if_neg hq]
    dsimp only
    cases htok : QueryParser.tokenize query with
    | nil => rfl
    | cons t tokens =>
      rw [if_neg (List.cons_ne_nil _ _), if_neg (List.cons_ne_nil _ _)]
      obtain ⟨a, b⟩ := filterLoop_zero self.terms_to_notes_ t tokens []
      cases hloop : SearchIndex.filterLoop self.terms_to_notes_ (t :: tokens) 0 [] with
      | none =>
        obtain ⟨t2, ht2, he⟩ := a hloop
        symm
        rw [List.filter_eq_nil_iff]
        intro n hn hm
        have := (hall (t :: tokens) n hn).mp hm t2 ht2
        rw [he] at this
        exact absurd this (List.not_mem_nil n)
      | some r =>
        apply List.filter_congr
        intro n hn
        have h1 : r.contains n = true ↔ noteMatches (t :: tokens) n = true := by
          rw [hall (t :: tokens) n hn, ← b r hloop n, List.contains_iff_exists_mem_beq]
          constructor
          · rintro ⟨x, hx, hxe⟩
            have hxn : n = x := by simpa using hxe
            rw [hxn]
            exact hx
          · intro hh
            exact ⟨n, hh, by simp⟩
        cases hc : r.contains n
        · cases hm : noteMatches (t :: tokens) n
          · rfl
          · rw [h1.mpr hm] at hc
            exact Bool.noConfusion hc
        · exact (h1.mp hc).symm

/-! ## C21: a pass removes nothing -/

/-- C21. For every pass, whatever the configuration and the network: every uuid of
the collection before the pass is a uuid of the collection after it, and no event of
the pass is a delete on local storage or a DELETE request to the remote side. -/
theorem performSync_never_removes {ρ : Type} (env : Env ρ) (w : SyncWorld ρ) :
    (∀ u, u ∈ w.note_store_.map Note.uuid →
      u ∈ (performSync env w).note_store_.map Note.uuid) ∧
    (∀ ev ∈ passEvents env w,
      (∀ u, ev ≠ .storageDelete u) ∧ ∀ q, ev = .request q → q.method ≠ "DELETE") := by
  refine ⟨fun u hu => performSync_keeps_uuid env w u hu, ?_⟩
  intro ev hev
  by_cases henabled : w.appState.webdav_enabled_ = true
  · obtain ⟨client, hclient⟩ := refresh_client_of_enabled w henabled
    rcases passEvents_cases env w client henabled hclient ev hev with
      rfl | rfl | ⟨q, rfl, hq⟩ | ⟨e, -, -, note, -, hor⟩ | ⟨n, -, -, hor⟩
    · exact ⟨fun _ h => Event.noConfusion h, fun _ h => Event.noConfusion h⟩
    · exact ⟨fun _ h => Event.noConfusion h, fun _ h => Event.noConfusion h⟩
    · refine ⟨fun _ h => Event.noConfusion h, ?_⟩
      intro q2 h2
      cases h2
      rcases hq with h | h <;> rw [h] <;> decide
    · rcases hor with rfl | rfl <;>
        exact ⟨fun _ h => Event.noConfusion h, fun _ h => Event.noConfusion h⟩
    · rcases hor with rfl | rfl
      · refine ⟨fun _ h => Event.noConfusion h, ?_⟩
        intro q2 h2
        cases h2
        rw [putRequest_method]
        decide
      · exact ⟨fun _ h => Event.noConfusion h, fun _ h => Event.noConfusion h⟩
  · rw [passEvents_disabled env w (by simpa using henabled)] at hev
    exact absurd hev (List.not_mem_nil ev)

/-- C21 at the example world with a local note `b` the server does not hold and a
remote note `a` newer than the local copy. -/
theorem performSync_never_removes_witness :
    (∀ u, u ∈ (exWorld [exLocalOldA, exLocalB] (exFiles [exRemoteA])).note_store_.map Note.uuid →
      u ∈ (performSync (exEnv [exRemoteA, exLocalB])
        (exWorld [exLocalOldA, exLocalB] (exFiles [exRemoteA]))).note_store_.map Note.uuid) ∧
    (∀ ev ∈ passEvents (exEnv [exRemoteA, exLocalB])
        (exWorld [exLocalOldA, exLocalB] (exFiles [exRemoteA])),
      (∀ u, ev ≠ .storageDelete u) ∧ ∀ q, ev = .request q → q.method ≠ "DELETE") :=
  performSync_never_removes (exEnv [exRemoteA, exLocalB])
    (exWorld [exLocalOldA, exLocalB] (exFiles [exRemoteA]))

/-! ## C22: download before upload, and no upload of a pulled note -/

/-- C22. One pass of an enabled orchestrator whose three listings return the remote
note set `rs` (each uuid once, the remote side unchanged during the pass).  The
events of the pass are those of the download phase, none of them a PUT or a
`noteUploaded`, followed by those of the upload phase, none of them a write to
local storage or a `noteDownloaded`.  A remote note `r` that the download phase
pulls, because the collection has no note of its uuid or one more than three seconds
older, is written to local storage in the download phase, is the collection's note
of its uuid after the pass, and no PUT of the pass goes to the url of its uuid. -/
theorem pulled_note_not_repushed {ρ : Type} (env : Env ρ) (w : SyncWorld ρ)
    (client : WebDAVStorage) (rs : List Note) (r : Note)
    (henabled : w.appState.webdav_enabled_ = true)
    (hclient : (refreshConfigurationFromAppState w).webdav_storage_ = some client)
    (hlist1 : (passListing1 env client w).1 = .success rs)
    (hlist2 : (passListing2 env client w).1 = .success rs)
    (hlist3 : (passListing3 env client w).1 = .success rs)
    (hset : (rs.map Note.uuid).Nodup) (hr : r ∈ rs)
    (hstore : (w.note_store_.map Note.uuid).Nodup)
    (hpulled : w.note_store_.getNote r.uuid = none ∨
      ∃ l ∈ w.note_store_, l.uuid = r.uuid ∧ r.modified > l.modified + seconds 3) :
    (∃ down up, passEvents env w = down ++ up ∧
      (∀ ev ∈ down, isUploadEvent ev = false) ∧ (∀ ev ∈ up, isDownloadEvent ev = false) ∧
      Event.storageWrite r ∈ down) ∧
    (performSync env w).note_store_.getNote r.uuid = some r ∧
    (∀ q, Event.request q ∈ passEvents env w → q.method = "PUT" →
      q.url ≠ client.buildUrl (r.uuid ++ ".json")) := by
  have hloc : (timestampsOf w.note_store_).find r.uuid = none ∨
      ∃ lt, (timestampsOf w.note_store_).find r.uuid = some lt ∧ r.modified > lt + seconds 3 ∧
        w.note_store_.getNote r.uuid ≠ none := by
    rcases hpulled with hnone | ⟨l, hl, hu, hnewer⟩
    · exact Or.inl (find_timestampsOf_none _ _ ((getNote_eq_none_iff _ _).mp hnone))
    · refine Or.inr ⟨l.modified, ?_, hnewer, ?_⟩
      · rw [← hu]
        exact find_timestampsOf_mem _ l hl hstore
      · rw [← hu, getNote_of_mem _ l hl hstore]
        exact fun h => Option.noConfusion h
  obtain ⟨hget, hwrite⟩ :=
    performSync_pull env w client rs r henabled hclient hlist1 hlist2 hset hr hloc
  obtain ⟨down, up, heq, hdown, hup, -, -⟩ := passEvents_phases env w henabled
  refine ⟨⟨down, up, heq, hdown, hup, ?_⟩, hget, ?_⟩
  · rw [heq] at hwrite
    rcases List.mem_append.mp hwrite with h | h
    · exact h
    · exact absurd (hup _ h) (show ¬ (true = false) from Bool.noConfusion)
  · intro q hq hm hurl
    obtain ⟨n, hn, hnu, rfl⟩ := put_of_passEvents env w client henabled hclient q hq hm
    rw [putRequest_url] at hurl
    have hnr : n.uuid = r.uuid := buildUrl_json_inj client _ _ hurl
    obtain ⟨w0, hphase, hstore0, -, -, -⟩ := downloadPhase_loop env w client hclient
    have hnd : ((downloadPhase env w).note_store_.map Note.uuid).Nodup := by
      rw [hphase]
      apply foldl_downloadStep_nodup
      rw [hstore0]
      exact hstore
    rw [performSync_note_store env w henabled, ← hnr] at hget
    have hnr2 : n = r := eq_of_getNote _ n r hnd hn hget
    rw [hnr2, hlist3] at hnu
    unfold needsUpload at hnu
    rw [show listedNotes (Result.success rs) = rs from rfl,
      find_timestampsOf_mem rs r hr hset] at hnu
    have hlt : r.modified > r.modified + seconds 0 := of_decide_eq_true hnu
    rw [seconds_zero] at hlt
    exact absurd hlt (by simp)

set_option maxRecDepth 100000 in
/-- C22 at the example world: the remote note `a` is four seconds newer than the
local copy and replaces it. -/
theorem pulled_note_not_repushed_witness :
    (∃ down up, passEvents (exEnv [exRemoteA]) (exWorld [exLocalOldA] (exFiles [exRemoteA])) =
        down ++ up ∧
      (∀ ev ∈ down, isUploadEvent ev = false) ∧ (∀ ev ∈ up, isDownloadEvent ev = false) ∧
      Event.storageWrite exRemoteA ∈ down) ∧
    (performSync (exEnv [exRemoteA])
      (exWorld [exLocalOldA] (exFiles [exRemoteA]))).note_store_.getNote exRemoteA.uuid =
        some exRemoteA ∧
    (∀ q, Event.request q ∈
        passEvents (exEnv [exRemoteA]) (exWorld [exLocalOldA] (exFiles [exRemoteA])) →
      q.method = "PUT" → q.url ≠ exClient.buildUrl (exRemoteA.uuid ++ ".json")) :=
  pulled_note_not_repushed (exEnv [exRemoteA]) (exWorld [exLocalOldA] (exFiles [exRemoteA]))
    exClient [exRemoteA] exRemoteA (by decide) (by decide) (by decide) (by decide) (by decide)
    (by decide) (by decide) (by decide) (by decide)

/-! ## C23: the fetches of the listing in one pass -/

set_option maxRecDepth 100000 in
/-- C23, refuted as stated: the pass of the example world, with an empty collection
and an empty server, fetches the listing three times. -/
theorem listing_fetches_counterexample :
    passEvents (exEnv []) (exWorld [] []) =
      [.syncStarted, .request exPropfind, .request exPropfind, .request exPropfind,
        .syncFinished true] ∧
    (passEvents (exEnv []) (exWorld [] [])).countP isListingFetch = 3 := by
  refine ⟨by decide, by decide⟩

/-- C23, amended. One pass of an enabled orchestrator fetches the remote listing
exactly three times: twice in the download phase (the timestamps in `performSync`,
the notes in `downloadMissingOrUpdatedNotes`) and once, afresh, at the start of the
upload phase. -/
theorem performSync_three_listings {ρ : Type} (env : Env ρ) (w : SyncWorld ρ)
    (henabled : w.appState.webdav_enabled_ = true) :
    (passEvents env w).countP isListingFetch = 3 ∧
    ∃ down up, passEvents env w = down ++ up ∧
      (∀ ev ∈ down, isUploadEvent ev = false) ∧ (∀ ev ∈ up, isDownloadEvent ev = false) ∧
      down.countP isListingFetch = 2 ∧ up.countP isListingFetch = 1 := by
  obtain ⟨down, up, heq, hdown, hup, hc2, hc1⟩ := passEvents_phases env w henabled
  refine ⟨?_, down, up, heq, hdown, hup, hc2, hc1⟩
  rw [heq, List.countP_append, hc2, hc1]

/-- C23, amended, at the example world with a note to pull and a note to push. -/
theorem performSync_three_listings_witness :
    (passEvents (exEnv [exRemoteA, exLocalB])
      (exWorld [exLocalOldA, exLocalB] (exFiles [exRemoteA]))).countP isListingFetch = 3 ∧
    ∃ down up, passEvents (exEnv [exRemoteA, exLocalB])
        (exWorld [exLocalOldA, exLocalB] (exFiles [exRemoteA])) = down ++ up ∧
      (∀ ev ∈ down, isUploadEvent ev = false) ∧ (∀ ev ∈ up, isDownloadEvent ev = false) ∧
      down.countP isListingFetch = 2 ∧ up.countP isListingFetch = 1 :=
  performSync_three_listings (exEnv [exRemoteA, exLocalB])
    (exWorld [exLocalOldA, exLocalB] (exFiles [exRemoteA])) (by decide)

/-! ## C24: the millisecond fields of a decoded note -/

theorem toMillis_from_time_t (x : Int) : toMillis (from_time_t x) = x * 1000 := by
  unfold toMillis from_time_t ticksPerSecond ticksPerMilli
  rw [show x * 1000000000 = (x * 1000) * 1000000 by ring]
  exact Int.mul_tdiv_cancel _ (by norm_num)

set_option maxRecDepth 100000 in
/-- C24, refuted as stated: the note decoded from the wire text of the note `b`,
whose `updatedAt` is 7500 ms, has `updatedAtMillis` 7500 while its `modified`,
expressed in milliseconds, is 7000. -/
theorem decoded_millis_counterexample :
    (WebDAVStorage.parseJsonNote (exEnv [exLocalB])
      (WebDAVStorage.noteToJson (exEnv [exLocalB]) exLocalB) "b.json").updatedAtMillis = 7500 ∧
    toMillis (WebDAVStorage.parseJsonNote (exEnv [exLocalB])
      (WebDAVStorage.noteToJson (exEnv [exLocalB]) exLocalB) "b.json").modified = 7000 := by
  refine ⟨by decide, by decide⟩

/-- C24, amended. For every note `parseJsonNote` produces from a text whose
`updatedAt` and `createdAt`, cut to whole seconds, give tick counts that fit the
64-bit clock: the millisecond fields are the values read from the payload, and
`modified` and `created`, expressed in milliseconds, are these values with the part
below one second cut off (toward zero); so a millisecond field equals its timestamp
in milliseconds exactly when it is a whole number of seconds. -/
theorem parseJsonNote_millis {ρ : Type} (env : Env ρ) (jsonStr fileName : String)
    (hu : fitsInt64 (from_time_t (Int.tdiv
      (jsonToInt64 (QJsonObject.value (env.fromJson jsonStr).toObject "updatedAt")) 1000)))
    (hc : fitsInt64 (from_time_t (Int.tdiv
      (jsonToInt64 (QJsonObject.value (env.fromJson jsonStr).toObject "createdAt")) 1000))) :
    (WebDAVStorage.parseJsonNote env jsonStr fileName).updatedAtMillis =
      jsonToInt64 (QJsonObject.value (env.fromJson jsonStr).toObject "updatedAt") ∧
    (WebDAVStorage.parseJsonNote env jsonStr fileName).createdAtMillis =
      jsonToInt64 (QJsonObject.value (env.fromJson jsonStr).toObject "createdAt") ∧
    fitsInt64 (WebDAVStorage.parseJsonNote env jsonStr fileName).modified ∧
    fitsInt64 (WebDAVStorage.parseJsonNote env jsonStr fileName).created ∧
    toMillis (WebDAVStorage.parseJsonNote env jsonStr fileName).modified =
      (WebDAVStorage.parseJsonNote env jsonStr fileName).updatedAtMillis -
        Int.tmod (WebDAVStorage.parseJsonNote env jsonStr fileName).updatedAtMillis 1000 ∧
    toMillis (WebDAVStorage.parseJsonNote env jsonStr fileName).created =
      (WebDAVStorage.parseJsonNote env jsonStr fileName).createdAtMillis -
        Int.tmod (WebDAVStorage.parseJsonNote env jsonStr fileName).createdAtMillis 1000 ∧
    ((WebDAVStorage.parseJsonNote env jsonStr fileName).updatedAtMillis =
        toMillis (WebDAVStorage.parseJsonNote env jsonStr fileName).modified ↔
      Int.tmod (WebDAVStorage.parseJsonNote env jsonStr fileName).updatedAtMillis 1000 = 0) ∧
    ((WebDAVStorage.parseJsonNote env jsonStr fileName).createdAtMillis =
        toMillis (WebDAVStorage.parseJsonNote env jsonStr fileName).created ↔
      Int.tmod (WebDAVStorage.parseJsonNote env jsonStr fileName).createdAtMillis 1000 = 0) := by
  have key : ∀ m : Int, toMillis (from_time_t (Int.tdiv m 1000)) = m - Int.tmod m 1000 := by
    intro m
    rw [toMillis_from_time_t]
    have := Int.tdiv_add_tmod m 1000
    omega
  unfold WebDAVStorage.parseJsonNote
  dsimp only
  refine ⟨rfl, rfl, hu, hc, key _, key _, ?_, ?_⟩
  · rw [key]
    omega
  · rw [key]
    omega

set_option maxRecDepth 100000 in
/-- C24, amended, at the wire text of the note `b`: both payload values are in range,
the decoded `updatedAt` is 7500 ms and `modified` is 7000 ms. -/
theorem parseJsonNote_millis_witness :
    fitsInt64 (from_time_t (Int.tdiv (jsonToInt64 (QJsonObject.value
      ((exEnv [exLocalB]).fromJson
        (WebDAVStorage.noteToJson (exEnv [exLocalB]) exLocalB)).toObject "updatedAt")) 1000)) ∧
    fitsInt64 (from_time_t (Int.tdiv (jsonToInt64 (QJsonObject.value
      ((exEnv [exLocalB]).fromJson
        (WebDAVStorage.noteToJson (exEnv [exLocalB]) exLocalB)).toObject "createdAt")) 1000)) ∧
    (WebDAVStorage.parseJsonNote (exEnv [exLocalB])
      (WebDAVStorage.noteToJson (exEnv [exLocalB]) exLocalB) "b.json").updatedAtMillis = 7500 ∧
    toMillis (WebDAVStorage.parseJsonNote (exEnv [exLocalB])
      (WebDAVStorage.noteToJson (exEnv [exLocalB]) exLocalB) "b.json").modified =
      (WebDAVStorage.parseJsonNote (exEnv [exLocalB])
        (WebDAVStorage.noteToJson (exEnv [exLocalB]) exLocalB) "b.json").updatedAtMillis -
      Int.tmod (WebDAVStorage.parseJsonNote (exEnv [exLocalB])
        (WebDAVStorage.noteToJson (exEnv [exLocalB]) exLocalB) "b.json").updatedAtMillis 1000 :=
  ⟨by decide, by decide, by decide,
    (parseJsonNote_millis (exEnv [exLocalB])
      (WebDAVStorage.noteToJson (exEnv [exLocalB]) exLocalB) "b.json"
      (by decide) (by decide)).2.2.2.2.1⟩

/-! ## C25: the precision of the wire round trip -/

/-- C25. For every note `n` with `created` and `modified` at or after the epoch, if
Qt reads back the JSON text it printed for the object of `n`: the note decoded from
`noteToJson(n)` has `modified` equal to `n.modified` cut to whole seconds, not later
than `n.modified` and less than one second earlier; likewise `created`; and the
`updatedAt` value on the wire is `n.modified` in whole milliseconds, not later than
`n.modified` and less than one millisecond earlier. -/
theorem wire_round_trip_precision {ρ : Type} (env : Env ρ) (n : Note)
    (hqt : env.fromJson (env.toJson (noteJsonObject n)) = .object (noteJsonObject n))
    (hcreated : 0 ≤ n.created) (hmodified : 0 ≤ n.modified) :
    (WebDAVStorage.parseJsonNote env (WebDAVStorage.noteToJson env n) (n.uuid ++ ".json")).modified
      = from_time_t (Int.tdiv n.modified ticksPerSecond) ∧
    (WebDAVStorage.parseJsonNote env (WebDAVStorage.noteToJson env n) (n.uuid ++ ".json")).modified
      ≤ n.modified ∧
    n.modified <
      (WebDAVStorage.parseJsonNote env (WebDAVStorage.noteToJson env n)
        (n.uuid ++ ".json")).modified + seconds 1 ∧
    (WebDAVStorage.parseJsonNote env (WebDAVStorage.noteToJson env n) (n.uuid ++ ".json")).created
      = from_time_t (Int.tdiv n.created ticksPerSecond) ∧
    (WebDAVStorage.parseJsonNote env (WebDAVStorage.noteToJson env n) (n.uuid ++ ".json")).created
      ≤ n.created ∧
    n.created <
      (WebDAVStorage.parseJsonNote env (WebDAVStorage.noteToJson env n)
        (n.uuid ++ ".json")).created + seconds 1 ∧
    QJsonObject.value (noteJsonObject n) "updatedAt" = some (.number (toMillis n.modified)) ∧
    toMillis n.modified * ticksPerMilli ≤ n.modified ∧
    n.modified < (toMillis n.modified + 1) * ticksPerMilli := by
  have hdec : ∀ t : Int, 0 ≤ t →
      from_time_t (Int.tdiv (toMillis t) 1000) = from_time_t (Int.tdiv t ticksPerSecond) ∧
      from_time_t (Int.tdiv t ticksPerSecond) ≤ t ∧
      t < from_time_t (Int.tdiv t ticksPerSecond) + seconds 1 := by
    intro t ht
    unfold toMillis from_time_t seconds ticksPerSecond ticksPerMilli
    rw [Int.tdiv_eq_ediv ht (by norm_num),
      Int.tdiv_eq_ediv (Int.ediv_nonneg ht (by norm_num)) (by norm_num),
      Int.tdiv_eq_ediv ht (by norm_num)]
    refine ⟨?_, ?_, ?_⟩
    · show (t / 1000000 / 1000 * 1000000000 : Int) = t / 1000000000 * 1000000000
      omega
    · show (t / 1000000000 * 1000000000 : Int) ≤ t
      omega
    · show (t : Int) < t / 1000000000 * 1000000000 + 1 * 1000000000
      omega
  have hm : (WebDAVStorage.parseJsonNote env (WebDAVStorage.noteToJson env n)
      (n.uuid ++ ".json")).modified = from_time_t (Int.tdiv (toMillis n.modified) 1000) := by
    unfold WebDAVStorage.parseJsonNote WebDAVStorage.noteToJson
    rw [hqt]
    simp [noteJsonObject, QJsonObject.value, QJsonDocument.toObject, jsonToInt64]
  have hc : (WebDAVStorage.parseJsonNote env (WebDAVStorage.noteToJson env n)
      (n.uuid ++ ".json")).created = from_time_t (Int.tdiv (toMillis n.created) 1000) := by
    unfold WebDAVStorage.parseJsonNote WebDAVStorage.noteToJson
    rw [hqt]
    simp [noteJsonObject, QJsonObject.value, QJsonDocument.toObject, jsonToInt64]
  rw [hm, hc, (hdec _ hmodified).1, (hdec _ hcreated).1]
  refine ⟨rfl, (hdec _ hmodified).2.1, (hdec _ hmodified).2.2, rfl, (hdec _ hcreated).2.1,
    (hdec _ hcreated).2.2, ?_, ?_, ?_⟩
  · simp [noteJsonObject, QJsonObject.value]
  · unfold toMillis ticksPerMilli
    rw [Int.tdiv_eq_ediv hmodified (by norm_num)]
    exact Int.ediv_mul_le _ (by norm_num)
  · unfold toMillis ticksPerMilli
    rw [Int.tdiv_eq_ediv hmodified (by norm_num)]
    exact Int.lt_ediv_add_one_mul_self _ (by norm_num)

set_option maxRecDepth 100000 in
/-- C25 at the note `b`, modified 7.5 s after the epoch: decoded, 7 s. -/
theorem wire_round_trip_precision_witness :
    (WebDAVStorage.parseJsonNote (exEnv [exLocalB])
      (WebDAVStorage.noteToJson (exEnv [exLocalB]) exLocalB) (exLocalB.uuid ++ ".json")).modified
      = from_time_t (Int.tdiv exLocalB.modified ticksPerSecond) ∧
    from_time_t (Int.tdiv exLocalB.modified ticksPerSecond) = seconds 7 :=
  ⟨(wire_round_trip_precision (exEnv [exLocalB]) exLocalB (by decide) (by decide)
    (by decide)).1, by decide⟩

/-! ## C26: the result of a remote write -/

/-- C26. `WebDAVStorage::writeNote` sends one PUT and returns success exactly when
the status of the reply is 201 or 204; with any other status, 200 and the 0 of an
aborted request among them, it returns the failure `WriteFailed`. -/
theorem writeNote_success_iff {ρ : Type} (env : Env ρ) (c : WebDAVStorage) (note : Note)
    (s : ρ) :
    (c.writeNote env note s).2.2 = [c.putRequest env note] ∧
    ((c.writeNote env note s).1 = .success () ↔
      (env.send s (c.putRequest env note)).1.statusCode = 201 ∨
      (env.send s (c.putRequest env note)).1.statusCode = 204) ∧
    (¬ ((env.send s (c.putRequest env note)).1.statusCode = 201 ∨
        (env.send s (c.putRequest env note)).1.statusCode = 204) →
      (c.writeNote env note s).1 = .failure .WriteFailed) ∧
    ((env.send s (c.putRequest env note)).1.statusCode = 200 →
      (c.writeNote env note s).1 = .failure .WriteFailed) ∧
    ((env.send s (c.putRequest env note)).1.statusCode = 0 →
      (c.writeNote env note s).1 = .failure .WriteFailed) := by
  have hfail : ¬ ((env.send s (c.putRequest env note)).1.statusCode = 201 ∨
      (env.send s (c.putRequest env note)).1.statusCode = 204) →
      (c.writeNote env note s).1 = .failure .WriteFailed := by
    intro h
    unfold WebDAVStorage.writeNote
    dsimp only
    rw [if_neg h]
  refine ⟨?_, ⟨?_, ?_⟩, hfail, ?_, ?_⟩
  · unfold WebDAVStorage.writeNote
    dsimp only
    split_ifs <;> rfl
  · intro h
    by_contra hne
    rw [hfail hne] at h
    exact Result.noConfusion h
  · intro h
    unfold WebDAVStorage.writeNote
    dsimp only
    rw [if_pos h]
  · intro h
    apply hfail
    rw [h]
    decide
  · intro h
    apply hfail
    rw [h]
    decide

set_option maxRecDepth 100000 in
/-- C26 at the example server, which answers a PUT with 201, and at the server that
is down (status 0). -/
theorem writeNote_success_iff_witness :
    (exClient.writeNote (exEnv []) exLocalB []).1 = .success () ∧
    (exClient.writeNote exDownEnv exLocalB []).1 = .failure .WriteFailed :=
  ⟨(writeNote_success_iff (exEnv []) exClient exLocalB []).2.1.mpr (by decide),
    (writeNote_success_iff exDownEnv exClient exLocalB []).2.2.2.2 (by decide)⟩

/-! ## C27: the local file format -/

theorem cut_single (c : Char) (xs ys : List Char) (h : c ∉ xs) :
    cut [c] (xs ++ c :: ys) = some (xs, ys) := by
  induction xs with
  | nil =>
    show cut [c] (c :: ys) = some ([], ys)
    unfold cut
    rw [if_pos (by simp)]
    rfl
  | cons x xs ih =>
    have hx : c ≠ x := fun e => h (by rw [e]; exact List.mem_cons_self _ _)
    have hxs : c ∉ xs := fun e => h (List.mem_cons_of_mem _ e)
    show cut [c] (x :: (xs ++ c :: ys)) = some (x :: xs, ys)
    unfold cut
    rw [if_neg (by simp [hx]), ih hxs]
    rfl

/-- C27. For every title without a newline and every body, the text
`title + "\n" + body` that `LocalStorage::writeNote` writes is split by
`LocalStorage::readAllNotes` at its first newline into that title and that body. -/
theorem local_format_round_trip (note : Note) (h : '\n' ∉ note.title.toList) :
    LocalStorage.readAllNotes_split (LocalStorage.writeNote_content note) =
      (note.title, note.body) := by
  unfold LocalStorage.readAllNotes_split LocalStorage.writeNote_content
  have hl : (note.title ++ "\n" ++ note.body).toList =
      note.title.toList ++ '\n' :: note.body.toList := by
    show (note.title ++ "\n" ++ note.body).data = note.title.data ++ '\n' :: note.body.data
    rw [String.data_append, String.data_append, List.append_assoc]
    rfl
  rw [hl, cut_single '\n' _ _ h]
  rfl

/-- C27 at the local note `a` of the examples. -/
theorem local_format_round_trip_witness :
    LocalStorage.readAllNotes_split (LocalStorage.writeNote_content exLocalOldA) =
      (exLocalOldA.title, exLocalOldA.body) :=
  local_format_round_trip exLocalOldA (by decide)

/-! ## C28: `resolveConflict` -/

/-- C28. `resolveConflict(local, remote)` is true exactly when
`remote.updatedAtMillis > local.updatedAtMillis`; notes that agree in
`updatedAtMillis` give the same answer whatever their other fields, `modified`
included; and for no two notes it is true in both directions. -/
theorem resolveConflict_spec (a b : Note) :
    (resolveConflict a b = true ↔ b.updatedAtMillis > a.updatedAtMillis) ∧
    (∀ a2 b2 : Note, a2.updatedAtMillis = a.updatedAtMillis →
      b2.updatedAtMillis = b.updatedAtMillis → resolveConflict a2 b2 = resolveConflict a b) ∧
    ¬ (resolveConflict a b = true ∧ resolveConflict b a = true) := by
  unfold resolveConflict
  refine ⟨decide_eq_true_iff, ?_, ?_⟩
  · intro a2 b2 ha hb
    rw [ha, hb]
  · rintro ⟨h1, h2⟩
    have h3 := of_decide_eq_true h1
    have h4 := of_decide_eq_true h2
    exact absurd h3 (not_lt.mpr (le_of_lt h4))

/-- C28 at two notes of the examples whose `modified` is set against their
`updatedAtMillis`: the millisecond field decides. -/
theorem resolveConflict_spec_witness :
    resolveConflict { exRemoteA with modified := 0 } { exLocalNewA with modified := seconds 1 }
      = true ∧
    resolveConflict { exLocalNewA with modified := seconds 1 } { exRemoteA with modified := 0 }
      = false :=
  ⟨(resolveConflict_spec _ _).1.mpr (by decide), by decide⟩

/-! ## C29: the periodic timer and the client -/

/-- C29. In every state reached from the constructor by any sequence of the
manager's methods and slots, the passing of time and changes to the configuration,
the collection, the remote side and the clock, the periodic timer is active exactly
when a remote client is held.  And right after an operation that refreshes the
configuration (`syncStart`, `syncNow`, `triggerSyncOnSearch`, the periodic slot, an
enabling `setEnabled`, the debounce slot with a pass pending), the timer is active
exactly when the configuration reports sync enabled, and a client is held exactly
then. -/
theorem timer_iff_client {ρ : Type} (env : Env ρ) :
    (∀ w : SyncWorld ρ, Reachable env w →
      (w.sync_timer_.active = true ↔ w.webdav_storage_.isSome = true)) ∧
    (∀ (w : SyncWorld ρ) (op : Op ρ), Reachable env w → op.refreshes w = true →
      (op.apply env w).appState = w.appState ∧
      ((op.apply env w).sync_timer_.active = true ↔ w.appState.webdav_enabled_ = true) ∧
      ((op.apply env w).webdav_storage_.isSome = true ↔
        w.appState.webdav_enabled_ = true)) := by
  constructor
  · rintro w ⟨appState, store, remote, now, ops, rfl⟩
    apply foldl_apply_timer_iff_client
    exact ⟨fun e => Bool.noConfusion e, fun e => Bool.noConfusion e⟩
  · intro w op _ h
    refine ⟨?_, apply_refreshes_both env w op h⟩
    cases op with
    | setEnabled enabled =>
      have he : enabled = true := h
      subst he
      show (setEnabled w true).appState = w.appState
      unfold setEnabled
      dsimp only
      rw [if_pos rfl, syncStart_eq_refresh]
      exact (refresh_frame _).2.2.2.1
    | syncStart =>
      show (syncStart w).appState = w.appState
      rw [syncStart_eq_refresh]
      exact (refresh_frame _).2.2.2.1
    | syncNow =>
      show (syncNow env w).appState = w.appState
      unfold syncNow
      dsimp only
      split
      · exact (refresh_frame _).2.2.2.1
      · rw [(sameManager_performSync env _).2.2.2.2.2.2.2.2.2.2.1, (refresh_frame _).2.2.2.1,
          (refresh_frame _).2.2.2.1]
    | triggerSyncOnSearch =>
      show (triggerSyncOnSearch w).appState = w.appState
      unfold triggerSyncOnSearch
      dsimp only
      split
      · exact (refresh_frame _).2.2.2.1
      · split
        · exact (refresh_frame _).2.2.2.1
        · exact (refresh_frame _).2.2.2.1
    | onSyncTimerTimeout =>
      show (performSync env w).appState = w.appState
      rw [(sameManager_performSync env _).2.2.2.2.2.2.2.2.2.2.1, (refresh_frame _).2.2.2.1]
    | onSearchDebounceTimerTimeout =>
      show (onSearchDebounceTimerTimeout env w).appState = w.appState
      unfold onSearchDebounceTimerTimeout
      split
      · show (performSync env w).appState = w.appState
        rw [(sameManager_performSync env _).2.2.2.2.2.2.2.2.2.2.1, (refresh_frame _).2.2.2.1]
      · rfl
    | setServerAddress address => exact Bool.noConfusion h
    | setUsername username => exact Bool.noConfusion h
    | setPassword password => exact Bool.noConfusion h
    | setSyncIntervalMinutes minutes => exact Bool.noConfusion h
    | syncStop => exact Bool.noConfusion h
    | uploadNote note => exact Bool.noConfusion h
    | checkRemoteNoteForUpdate uuid => exact Bool.noConfusion h
    | downloadNoteIfRemoteNewer uuid => exact Bool.noConfusion h
    | elapse ms => exact Bool.noConfusion h
    | configure appState => exact Bool.noConfusion h
    | editCollection store => exact Bool.noConfusion h
    | changeRemote remote => exact Bool.noConfusion h
    | setClock now => exact Bool.noConfusion h

set_option maxRecDepth 100000 in
/-- C29 at the started example manager, reached from the constructor by
`syncStart`: the timer runs and the client is held; and after `syncStop` and a
`syncNow` under a configuration that disables sync, neither. -/
theorem timer_iff_client_witness :
    (exIdleWorld.sync_timer_.active = true ↔ exIdleWorld.webdav_storage_.isSome = true) ∧
    exIdleWorld.sync_timer_.active = true ∧
    (syncNow (exEnv []) exDisabledWorld).sync_timer_.active = false ∧
    (syncNow (exEnv []) exDisabledWorld).webdav_storage_ = none :=
  ⟨(timer_iff_client (exEnv [])).1 exIdleWorld
      ⟨⟨true, "http://dav/notes", "user", "secret", 5⟩, [], [], "2024-01-01 00:00:00",
        [.syncStart], rfl⟩,
    by decide, by decide, by decide⟩

/-! ## C30: what a search returns -/

/-- C30. For every index built from a fresh one by `indexNote`, `updateNote`,
`removeNote` and `clear`, and every query: no two indexed notes share a uuid;
`filter` returns all indexed notes when the query has no token, and else exactly
the indexed notes for which every query token is a prefix of a token of the
lower-cased title, space and body, in the order of `all_notes_` (a note indexed
again moves to the end); and the result has no note twice. -/
theorem filter_refines_spec (self : SearchIndex) (h : self.Built) (query : String) :
    (self.all_notes_.map Note.uuid).Nodup ∧
    self.filter query = filterSpec self query ∧
    (QueryParser.tokenize query = [] → self.filter query = self.all_notes_) ∧
    (QueryParser.tokenize query ≠ [] →
      self.filter query =
        self.all_notes_.filter (noteMatches (QueryParser.tokenize query))) ∧
    (self.filter query).Nodup := by
  have hc := consistent_of_built self h
  have hspec := filter_of_consistent self hc query
  have hnd : self.all_notes_.Nodup := List.Nodup.of_map _ hc.1
  refine ⟨hc.1, hspec, ?_, ?_, ?_⟩
  · intro ht
    rw [hspec]
    unfold filterSpec
    rw [if_pos ht]
  · intro ht
    rw [hspec]
    unfold filterSpec
    rw [if_neg ht]
  · rw [hspec]
    unfold filterSpec
    split_ifs
    · exact hnd
    · exact List.Nodup.filter _ hnd

set_option maxRecDepth 100000 in
/-- C30 at the index of the examples and the query `LOC`, which finds the note `a`
by its title `local title`. -/
theorem filter_refines_spec_witness :
    exIndex.filter "LOC" = [exLocalNewA] ∧
    (exIndex.all_notes_.map Note.uuid).Nodup ∧
    exIndex.filter "LOC" = filterSpec exIndex "LOC" ∧
    (QueryParser.tokenize "LOC" = [] → exIndex.filter "LOC" = exIndex.all_notes_) ∧
    (QueryParser.tokenize "LOC" ≠ [] →
      exIndex.filter "LOC" =
        exIndex.all_notes_.filter (noteMatches (QueryParser.tokenize "LOC"))) ∧
    (exIndex.filter "LOC").Nodup :=
  ⟨by decide, filter_refines_spec exIndex ⟨_, rfl⟩ "LOC"⟩

end nv
